import Mathlib

/-!
AudioRenderer (src/Audio.h): stream synchronisation, channel remap, buffer guards

A shallow embedding of the audio pipeline of `src/Audio.h`.

Conventions of the embedding
* Memory reached through a pointer (`uint8_t*`, `float*`, a static array) is a function
  from cell index to cell value; `p + off` is `ptrAdd p off`.  Reads beyond the end of a
  C object are undefined in C++; here they return whatever the function holds there.
* The two decoders (libdca, liba52) and the BASS output engine are external; the decoders
  appear as deterministic oracles on the bytes visible through the pointer they are given,
  the engine as an explicit queue state.
* `int`/`long` locals are `Int` (signed overflow is undefined in C++ and no value below gets
  near the 32-bit range for buffers that fit in memory); `unsigned` products such as
  `LIMIT * channels` wrap modulo `2^32`.
* Loops are structural recursions on an iteration budget computed from the loop bound; the
  lemmas `*_fuel` show that the budget is never exhausted.
* Console output (`cout`, `printf`, `NONRELEASE`) has no effect on the state and is omitted.
-/

namespace AudioRenderer

/-! ## Constants (src/Audio.h lines 15-21) -/

def AC3_MAX_CODED_FRAME_SIZE : Nat := 3840
def PRE_DECODE_BUFFER_SIZE : Nat := AC3_MAX_CODED_FRAME_SIZE * 4
def AUDIO_BUF_UNDERRUN_LIMIT : Nat := 2200
def AUDIO_BUF_UNDERRUN_LIMIT_F : Nat := 300
def AUDIO_BUF_OVERRUN_LIMIT : Nat := 6000
def AUDIO_BUF_OVERRUN_LIMIT_HARD : Nat := 10000

/-- Capacity of `static uint8_t remData[32000]` in `tryDTS`. -/
def REM_DATA_SIZE : Nat := 32000

/-- Constant `MAGIC_DTS_OFFSET` of `tryDTS` (line 170). -/
def MAGIC_DTS_OFFSET : Int := 17

/-- Arithmetic of the C type `unsigned` (32 bit). -/
def u32 (n : Nat) : Nat := n % 2 ^ 32

/-! ## Memory helpers -/

/-- Pointer arithmetic: the cells visible through `p + off`. -/
def ptrAdd {β : Type} (p : Nat → β) (off : Int) : Nat → β := fun i => p (off + i).toNat

/-- Single store `buf[i] = v`. -/
def store {β : Type} (buf : Nat → β) (i : Nat) (v : β) : Nat → β :=
  fun j => if j = i then v else buf j

/-- The call `memcpy(dst + dstOff, src, n)`, exact for a copy that stays inside the destination
object.  A count `n <= 0` copies nothing here, while a negative count is a huge `size_t` in
C++; cells are not bounded here, while a copy past the end of the destination array is
undefined behaviour in C++ (it overwrites the statics that follow).  Statements about what
a copy leaves behind therefore carry the bounds of the destination as hypotheses. -/
def memcpy (dst : Nat → Nat) (dstOff : Int) (src : Nat → Nat) (n : Int) : Nat → Nat :=
  fun i => if dstOff ≤ (i : Int) ∧ (i : Int) < dstOff + n then src ((i : Int) - dstOff).toNat
    else dst i

/-- The first `n` cells read through a pointer, as a list. -/
def readCells {β : Type} (p : Nat → β) (n : Int) : List β := (List.range n.toNat).map p

/-- Read of `((uint16_t*)p)[i]` on the little-endian target. -/
def rd16 (p : Nat → Nat) (i : Nat) : Nat := p (2 * i) % 256 + 256 * (p (2 * i + 1) % 256)

/-- Store to `((uint16_t*)p)[i]`, truncating `v` to 16 bits. -/
def wr16 (p : Nat → Nat) (i : Nat) (v : Nat) : Nat → Nat :=
  fun j => if j = 2 * i then v % 256 else if j = 2 * i + 1 then v / 256 % 256 else p j

/-! ## Channel remap loops (decodeDTSFrame lines 153-160, decodeDDFrame lines 255-262)

`samples` is the decoder's `float*` (256 samples of channel 0, then 256 of channel 1, ...),
`bassBuffer` the static output array, `boostAudio` the gain converted to the sample type.
The sample type is abstract: only its multiplication is used. -/

section Remap
variable {α : Type} [Mul α]

/-- Body of the `k` loop of `decodeDTSFrame` (lines 154-159). -/
def decodeDTSFrame_body (boostAudio : α) (samples : Nat → α) (bassBuffer : Nat → α) (k : Nat) :
    Nat → α :=
  store (store (store (store (store (store bassBuffer
    (k*6+0) (samples (k+1*256) * boostAudio))
    (k*6+1) (samples (k+2*256) * boostAudio))
    (k*6+2) (samples (k+0*256) * boostAudio))
    (k*6+3) (samples (k+5*256) * boostAudio))
    (k*6+4) (samples (k+3*256) * boostAudio))
    (k*6+5) (samples (k+4*256) * boostAudio)

/-- The loop `for(int k=0; k<256; ++k)` of `decodeDTSFrame`. -/
def decodeDTSFrame_remap (boostAudio : α) (samples : Nat → α) (bassBuffer : Nat → α) : Nat → α :=
  (List.range 256).foldl (decodeDTSFrame_body boostAudio samples) bassBuffer

/-- Body of the `k` loop of `decodeDDFrame` (lines 256-261). -/
def decodeDDFrame_body (boostAudio : α) (samples : Nat → α) (bassBuffer : Nat → α) (k : Nat) :
    Nat → α :=
  store (store (store (store (store (store bassBuffer
    (k*6+0) (samples (k+1*256) * boostAudio))
    (k*6+1) (samples (k+3*256) * boostAudio))
    (k*6+2) (samples (k+2*256) * boostAudio))
    (k*6+3) (samples (k+0*256) * boostAudio))
    (k*6+4) (samples (k+4*256) * boostAudio))
    (k*6+5) (samples (k+5*256) * boostAudio)

/-- The loop `for(int k=0; k<256; ++k)` of `decodeDDFrame`. -/
def decodeDDFrame_remap (boostAudio : α) (samples : Nat → α) (bassBuffer : Nat → α) : Nat → α :=
  (List.range 256).foldl (decodeDDFrame_body boostAudio samples) bassBuffer

/-- The block handed to `BASS_StreamPutData(dtsStream, bassBuffer, 256*4*6)`: the first
`256*6` floats of `bassBuffer`. -/
def pushedBlock (bassBuffer : Nat → α) : List α := (List.range (256 * 6)).map bassBuffer

/-- The decoder's block as a list: the `6 * 256` cells read through `samples`. -/
def inputBlock (samples : Nat → α) : List α := (List.range (6 * 256)).map samples

/-- Six stores at `6k .. 6k+5` reading native channels `c 0 .. c 5` (the common shape of the
two loop bodies, used to state their invariant once). -/
def store6 (c : Nat → Nat) (boost : α) (samples : Nat → α) (buf : Nat → α) (k : Nat) : Nat → α :=
  store (store (store (store (store (store buf
    (k*6+0) (samples (k + c 0 * 256) * boost))
    (k*6+1) (samples (k + c 1 * 256) * boost))
    (k*6+2) (samples (k + c 2 * 256) * boost))
    (k*6+3) (samples (k + c 3 * 256) * boost))
    (k*6+4) (samples (k + c 4 * 256) * boost))
    (k*6+5) (samples (k + c 5 * 256) * boost)

end Remap

/-- Native channel read for output slot `j` by `decodeDTSFrame`. -/
def dtsNative : Nat → Nat
  | 0 => 1 | 1 => 2 | 2 => 0 | 3 => 5 | 4 => 3 | _ => 4

/-- Native channel read for output slot `j` by `decodeDDFrame`. -/
def ddNative : Nat → Nat
  | 0 => 1 | 1 => 3 | 2 => 2 | 3 => 0 | 4 => 4 | _ => 5

/-! ## External collaborators -/

/-- The three BASS streams created by the constructor (lines 43-47). -/
inductive HSTREAM where
  | bStream
  | dtsStream
  | exStream
  deriving DecidableEq, Repr

/-- What a call of `BASS_StreamPutData` reads through its buffer argument. -/
inductive Payload (α : Type) where
  | bytes (cells : List Nat)
  | floats (cells : List α)

/-- One accepted call `BASS_StreamPutData(stream, buffer, length)`.  `payload` lists the cells
of the C object behind `buffer` that the call covers; when the object is smaller than
`length` bytes the payload is shorter than `length` (the call reads past the object). -/
structure PutData (α : Type) where
  stream : HSTREAM
  payload : Payload α
  length : Int

/-- Modelled from the spec: the output engine (BASS, an external library) of section 6,
`pushSamples -> success|errorCode` and `queryBufferedSampleCount`.  `avail` is the value
`BASS_ChannelGetData(stream, NULL, BASS_DATA_AVAILABLE)` reports, `failing` tells whether a
push to the stream is reported as failed (`-1`), `queue` lists the accepted pushes, oldest
first. -/
structure Bass (α : Type) where
  avail : HSTREAM → Nat
  failing : HSTREAM → Bool
  queue : List (PutData α)

/-- Modelled from the spec: `BASS_StreamPutData`; a failed push returns `-1` and queues
nothing, an accepted one queues the block and raises the buffered amount by `length`. -/
def BASS_StreamPutData {α : Type} (e : Bass α) (stream : HSTREAM) (payload : Payload α)
    (length : Int) : Bass α × Int :=
  if e.failing stream then (e, -1)
  else
    ({ e with
        avail := fun s => if s = stream then e.avail s + length.toNat else e.avail s
        queue := e.queue ++ [⟨stream, payload, length⟩] }, length.toNat)

/-- Modelled from the spec: `BASS_ChannelGetData(stream, NULL, BASS_DATA_AVAILABLE)`, a
`DWORD` assigned to `unsigned avail`. -/
def BASS_ChannelGetData {α : Type} (e : Bass α) (stream : HSTREAM) : Nat := u32 (e.avail stream)

/-- Modelled from the spec: the libdca entry points used by the pipeline (section 6,
compressed-decoder boundary), as deterministic functions of the bytes visible through the
pointer they receive.  `syncinfo` is `dca_syncinfo` (coded frame size in bytes, `0` when no
sync; the library never reports a negative size), `frameFlags` the channel configuration `dca_frame` writes back into `myFlags`,
`blocks` the sample buffers `dca_samples` yields for the `dca_blocks_num` blocks of the frame. -/
structure DcaDecoder (α : Type) where
  syncinfo : (Nat → Nat) → Nat
  frameFlags : (Nat → Nat) → Int
  blocks : (Nat → Nat) → List (Nat → α)

/-- Modelled from the spec: the liba52 entry points used by the pipeline.  `syncinfo` is
`a52_syncinfo` (frame size in bytes, `0` when no sync), `frameFlags` the channel
configuration `a52_frame` writes back into the local `flags` of `tryDD` (line 291; `tryDD`
never reads it afterwards), `block f b` the sample buffer `a52_samples` yields after the
`b`-th `a52_block` of the frame at `f`. -/
structure A52Decoder (α : Type) where
  syncinfo : (Nat → Nat) → Nat
  frameFlags : (Nat → Nat) → Int
  block : (Nat → Nat) → Nat → (Nat → α)

/-- The value `DCA_3F2R | DCA_LFE` of dca.h (`9 | 0x80`). -/
def DCA_3F2R_LFE : Int := 137

/-- The value `A52_3F2R | A52_LFE` of a52.h (`7 | 16`): the 5.1 layout as `a52_frame`
reports it. -/
def A52_3F2R_LFE : Int := 23

/-- The value `A52_STEREO` of a52.h. -/
def A52_STEREO : Int := 2

/-- Modelled from the spec: the conditions raised by the macro `RT_ASSERT` (declared in
stdafx.h, not part of the sources), which section 9 describes as exceptions for hard
invariant violations.  Each constructor is one `RT_ASSERT` of the packet path. -/
inductive Fatal where
  /-- Line 116: "Failed to forward expanded audio to BASS". -/
  | pushExpanded
  /-- Line 161: "Failed to forward DTS audio to BASS". -/
  | pushDTS
  /-- Line 197: "Error in DTS decoding, buffer overflow." -/
  | dtsBufferOverflow
  /-- Lines 206 and 230: "DTS audio decode failed. Not 5.1 format?" -/
  | dtsNot51
  /-- Line 263: "Failed to forward DD audio to BASS". -/
  | pushDD
  deriving DecidableEq, Repr

/-- How a call ends: it returns a value, an `RT_ASSERT` fires, or the iteration budget of a
loop of the embedding is used up (shown not to happen, see the `*_fuel` lemmas). -/
inductive Outcome (β : Type) where
  | ret (v : β)
  | fatal (f : Fatal)
  | budget
  deriving DecidableEq, Repr

/-! ## State: the members of `AudioRenderer` and the function-local statics -/

/-- Members read on the packet path (lines 24-28) and every `static` local of the packet
path.  `muted` and `volume` are not read on the packet path and are left out. -/
structure Renderer (α : Type) where
  playing : Bool
  extendStereo : Bool
  enableDTS : Bool
  enableDD : Bool
  channels : Nat
  boostAudio : Nat
  /-- Static `fillup` of `bufferUnderrunProtection`: `none` is `NULL`. -/
  fillup : Option (List Nat)
  /-- Static `exBuffer` of `packetRecieved`, as bytes. -/
  exBuffer : Nat → Nat
  /-- Static `bassBuffer` of `decodeDTSFrame`. -/
  dtsBassBuffer : Nat → α
  /-- Statics `remData`, `remBytes`, `getBytes` of `tryDTS`. -/
  remData : Nat → Nat
  remBytes : Int
  getBytes : Int
  /-- Static `bassBuffer` of `decodeDDFrame`. -/
  ddBassBuffer : Nat → α
  /-- Statics `buffer`, `pos`, `maxPos` of `tryDD`. -/
  buffer : Nat → Nat
  pos : Int
  maxPos : Int
  bass : Bass α

/-! ## bufferUnderrunProtection (lines 72-86) -/

/-- The function `bufferUnderrunProtection(stream, streamChannels)`. -/
def bufferUnderrunProtection {α : Type} (st : Renderer α) (stream : HSTREAM)
    (streamChannels : Nat) : Renderer α :=
  let avail := BASS_ChannelGetData st.bass stream
  if avail < u32 (AUDIO_BUF_UNDERRUN_LIMIT * streamChannels) then
    let fillup := match st.fillup with
      | none => List.replicate (u32 (AUDIO_BUF_UNDERRUN_LIMIT_F * streamChannels)) 0
      | some f => f
    let n := u32 (AUDIO_BUF_UNDERRUN_LIMIT_F * streamChannels)
    let r := BASS_StreamPutData st.bass stream (Payload.bytes (fillup.take n)) n
    { st with fillup := some fillup, bass := r.1 }
  else st

/-! ## Raw PCM path of packetRecieved (lines 91-139) -/

/-- The conversion `(long)(samples*0.75)`: the product is exact in `double` (for
`|samples| < 2^51`) and the cast truncates toward zero. -/
def scale075 (samples : Int) : Int := Int.tdiv (samples * 3) 4

/-- Lines 112-115: the sample count pushed on the stereo-expanded path. -/
def throttleExpanded (avail : Nat) (samples : Int) : Int :=
  if avail > 9000 * 4 then
    let samples := scale075 samples
    samples + Int.tmod samples (2 * 4)
  else samples

/-- Lines 122-128: the sample count pushed on the direct path, `none` when the call returns
at line 122 without pushing.  (`samples % (2*channels)` mixes `long` and `unsigned`; for a
non-negative `samples` every conversion rule gives the remainder used here.) -/
def throttleDirect (avail : Nat) (channels : Nat) (samples : Int) : Option Int :=
  if avail > u32 (AUDIO_BUF_OVERRUN_LIMIT_HARD * channels) then none
  else if avail > u32 (AUDIO_BUF_OVERRUN_LIMIT * channels) then
    let samples := scale075 samples
    some (samples - Int.tmod samples (u32 (2 * channels)))
  else some samples

/-- Sample count admitted by the direct path: `0` when nothing is pushed. -/
def admittedDirect (avail : Nat) (channels : Nat) (samples : Int) : Int :=
  (throttleDirect avail channels samples).getD 0

/-- Lines 95-100: `dbuffer[i] = dbuffer[i]*boostAudio` for `i < samples*channels`. -/
def boostLoop (data : Nat → Nat) (boostAudio : Nat) (n : Int) : Nat → Nat :=
  (List.range n.toNat).foldl (fun d i => wr16 d i (rd16 d i * boostAudio)) data

/-- Lines 104-109: stereo to quad expansion into `exBuffer`. -/
def expandLoop (exBuffer : Nat → Nat) (data : Nat → Nat) (samples : Int) : Nat → Nat :=
  (List.range samples.toNat).foldl (fun ex i =>
    wr16 (wr16 (wr16 (wr16 ex (4*i+0) (rd16 data (2*i+0))) (4*i+1) (rd16 data (2*i+1)))
      (4*i+2) (rd16 data (2*i+0))) (4*i+3) (rd16 data (2*i+1))) exBuffer

/-- Lines 101-117: the stereo-expanded branch. -/
def pushExpanded {α : Type} (st : Renderer α) (samples : Int) (data : Nat → Nat) :
    Renderer α × Outcome Unit :=
  let exBuffer := expandLoop st.exBuffer data samples
  let st := bufferUnderrunProtection { st with exBuffer := exBuffer } HSTREAM.exStream 4
  let avail := BASS_ChannelGetData st.bass HSTREAM.exStream
  let samples := throttleExpanded avail samples
  let r := BASS_StreamPutData st.bass HSTREAM.exStream
    (Payload.bytes (readCells exBuffer (samples * 2 * 4))) (samples * 2 * 4)
  if r.2 ≠ -1 then ({ st with bass := r.1 }, Outcome.ret ())
  else ({ st with bass := r.1 }, Outcome.fatal Fatal.pushExpanded)

/-- Lines 118-139: the direct branch.  A failed push is only reported on the console. -/
def pushDirect {α : Type} (st : Renderer α) (samples : Int) (data : Nat → Nat) :
    Renderer α × Outcome Unit :=
  let st := bufferUnderrunProtection st HSTREAM.bStream st.channels
  let avail := BASS_ChannelGetData st.bass HSTREAM.bStream
  match throttleDirect avail st.channels samples with
  | none => (st, Outcome.ret ())
  | some samples =>
    let r := BASS_StreamPutData st.bass HSTREAM.bStream
      (Payload.bytes (readCells data (samples * 2 * st.channels))) (samples * 2 * st.channels)
    ({ st with bass := r.1 }, Outcome.ret ())

/-- Lines 91-139: what `packetRecieved` does when neither decoder handled the chunk. -/
def rawPCM {α : Type} (st : Renderer α) (samples : Int) (data : Nat → Nat) :
    Renderer α × Outcome Unit :=
  let st := if !st.playing then { st with playing := true } else st
  let data := if st.boostAudio > 1 then boostLoop data st.boostAudio (samples * st.channels)
    else data
  if st.extendStereo then pushExpanded st samples data else pushDirect st samples data

/-! ## Frame decoding (decodeDTSFrame lines 142-163, decodeDDFrame lines 245-265) -/

section Decode
variable {α : Type} [Mul α] [NatCast α]

/-- The block loop of `decodeDTSFrame` (lines 146-162) over the sample buffers of the frame:
remap into `bassBuffer`, push, `RT_ASSERT` that the push did not fail. -/
def decodeDTSFrame_blocks : List (Nat → α) → Renderer α → Renderer α × Outcome Unit
  | [], st => (st, Outcome.ret ())
  | samples :: rest, st =>
    let bassBuffer := decodeDTSFrame_remap (st.boostAudio : α) samples st.dtsBassBuffer
    let r := BASS_StreamPutData st.bass HSTREAM.dtsStream
      (Payload.floats (pushedBlock bassBuffer)) (256 * 4 * 6)
    let st := { st with dtsBassBuffer := bassBuffer, bass := r.1 }
    if r.2 ≠ -1 then decodeDTSFrame_blocks rest st
    else (st, Outcome.fatal Fatal.pushDTS)

/-- The function `decodeDTSFrame()` for the frame most recently given to `dca_frame`. -/
def decodeDTSFrame (dec : DcaDecoder α) (frame : Nat → Nat) (st : Renderer α) :
    Renderer α × Outcome Unit :=
  decodeDTSFrame_blocks (dec.blocks frame) (bufferUnderrunProtection st HSTREAM.dtsStream 6)

/-- The block loop of `decodeDDFrame` (lines 249-264). -/
def decodeDDFrame_blocks : List (Nat → α) → Renderer α → Renderer α × Outcome Unit
  | [], st => (st, Outcome.ret ())
  | samples :: rest, st =>
    let bassBuffer := decodeDDFrame_remap (st.boostAudio : α) samples st.ddBassBuffer
    let r := BASS_StreamPutData st.bass HSTREAM.dtsStream
      (Payload.floats (pushedBlock bassBuffer)) (256 * 4 * 6)
    let st := { st with ddBassBuffer := bassBuffer, bass := r.1 }
    if r.2 ≠ -1 then decodeDDFrame_blocks rest st
    else (st, Outcome.fatal Fatal.pushDD)

/-- The function `decodeDDFrame()`: always six blocks. -/
def decodeDDFrame (dec : A52Decoder α) (frame : Nat → Nat) (st : Renderer α) :
    Renderer α × Outcome Unit :=
  decodeDDFrame_blocks ((List.range 6).map (dec.block frame))
    (bufferUnderrunProtection st HSTREAM.dtsStream 6)

/-! ## tryDTS (lines 165-243) -/

/-- The search loop (lines 181-188) from `pos` on: `(found, pos, getBytes)` at loop exit. -/
def tryDTS_search (dec : DcaDecoder α) (udata : Nat → Nat) : Nat → Int → Int → Bool × Int × Int
  | 0, pos, getBytes => (false, pos, getBytes)
  | fuel + 1, pos, getBytes =>
    if pos < 3000 then
      let getBytes : Int := dec.syncinfo (ptrAdd udata (pos + 2))
      if getBytes ≠ 0 then (true, pos + 2, getBytes)
      else tryDTS_search dec udata fuel (pos + 2) getBytes
    else (false, pos, getBytes)

/-- Lines 216-219 and 236-239: copy the remainder to `remData` and return `true`. -/
def tryDTS_carry (st : Renderer α) (samples : Int) (udata : Nat → Nat) (pos : Int) :
    Renderer α :=
  let remBytes := samples * 4 - pos
  { st with
      remBytes := remBytes
      getBytes := st.getBytes - (remBytes - MAGIC_DTS_OFFSET)
      remData := memcpy st.remData 0 (ptrAdd udata pos) remBytes }

/-- One pass through the body of `while(true)` (lines 212-240): either the call ends
(`Sum.inl`) or the loop goes on at a new `pos` (`Sum.inr`). -/
def tryDTS_iter (dec : DcaDecoder α) (samples : Int) (udata : Nat → Nat) (pos : Int)
    (st : Renderer α) : (Renderer α × Outcome Bool) ⊕ (Int × Renderer α) :=
  if samples * 4 - pos < MAGIC_DTS_OFFSET then
    Sum.inl (tryDTS_carry st samples udata pos, Outcome.ret true)
  else
    let getBytes : Int := dec.syncinfo (ptrAdd udata pos)
    let st := { st with getBytes := getBytes }
    if getBytes = 0 then Sum.inl ({ st with remBytes := 0 }, Outcome.ret false)
    else if samples * 4 - pos > getBytes + MAGIC_DTS_OFFSET then
      if dec.frameFlags (ptrAdd udata pos) = DCA_3F2R_LFE then
        match decodeDTSFrame dec (ptrAdd udata pos) st with
        | (st, Outcome.ret _) => Sum.inr (pos + getBytes + MAGIC_DTS_OFFSET, st)
        | (st, Outcome.fatal f) => Sum.inl (st, Outcome.fatal f)
        | (st, Outcome.budget) => Sum.inl (st, Outcome.budget)
      else Sum.inl (st, Outcome.fatal Fatal.dtsNot51)
    else Sum.inl (tryDTS_carry st samples udata pos, Outcome.ret true)

/-- The loop `while(true)` of lines 211-241. -/
def tryDTS_main (dec : DcaDecoder α) (samples : Int) (udata : Nat → Nat) :
    Nat → Int → Renderer α → Renderer α × Outcome Bool
  | fuel, pos, st =>
    match tryDTS_iter dec samples udata pos st with
    | Sum.inl r => r
    | Sum.inr (pos, st) =>
      match fuel with
      | 0 => (st, Outcome.budget)
      | fuel + 1 => tryDTS_main dec samples udata fuel pos st

/-- The function `tryDTS(samples, data)`. -/
def tryDTS (dec : DcaDecoder α) (st : Renderer α) (samples : Int) (data : Nat → Nat) :
    Renderer α × Outcome Bool :=
  if st.remBytes = 0 then
    match tryDTS_search dec data 1500 0 st.getBytes with
    | (false, _, getBytes) => ({ st with getBytes := getBytes }, Outcome.ret false)
    | (true, pos, getBytes) =>
      tryDTS_main dec samples data (samples * 4 - pos).toNat pos { st with getBytes := getBytes }
  else
    let pos := st.getBytes
    if st.remBytes + st.getBytes < REM_DATA_SIZE then
      let remData := memcpy st.remData st.remBytes data st.getBytes
      let getBytes : Int := dec.syncinfo remData
      let st := { st with remData := remData, getBytes := getBytes }
      if getBytes = 0 then ({ st with remBytes := 0 }, Outcome.ret false)
      else if dec.frameFlags remData = DCA_3F2R_LFE then
        match decodeDTSFrame dec remData st with
        | (st, Outcome.ret _) => tryDTS_main dec samples data (samples * 4 - pos).toNat pos st
        | (st, Outcome.fatal f) => (st, Outcome.fatal f)
        | (st, Outcome.budget) => (st, Outcome.budget)
      else (st, Outcome.fatal Fatal.dtsNot51)
    else (st, Outcome.fatal Fatal.dtsBufferOverflow)

/-! ## tryDD (lines 267-306) -/

/-- The endianness loop (lines 278-282) from index `i` on. -/
def tryDD_swap (maxPos : Int) : Nat → Int → (Nat → Nat) → (Nat → Nat)
  | 0, _, buffer => buffer
  | fuel + 1, i, buffer =>
    if i < maxPos then
      let t := buffer i.toNat
      let buffer := store buffer i.toNat (buffer (i + 1).toNat)
      let buffer := store buffer (i + 1).toNat t
      tryDD_swap maxPos fuel (i + 2) buffer
    else buffer

/-- Lines 299-303: compaction of the accumulation buffer. -/
def tryDD_compact (st : Renderer α) : Renderer α :=
  if st.pos > (PRE_DECODE_BUFFER_SIZE / 2 : Nat) then
    { st with
        buffer := memcpy st.buffer 0 (ptrAdd st.buffer (PRE_DECODE_BUFFER_SIZE / 2 : Nat))
          (PRE_DECODE_BUFFER_SIZE / 2 : Nat)
        pos := st.pos - (PRE_DECODE_BUFFER_SIZE / 2 : Nat)
        maxPos := st.maxPos - (PRE_DECODE_BUFFER_SIZE / 2 : Nat) }
  else st

/-- One pass through the body of the `while` loop (lines 285-303). -/
def tryDD_iter (dec : A52Decoder α) (st : Renderer α) : Renderer α × Outcome Unit :=
  let ret : Int := dec.syncinfo (ptrAdd st.buffer st.pos)
  if ret > 0 then
    match decodeDDFrame dec (ptrAdd st.buffer st.pos) st with
    | (st, Outcome.ret _) => (tryDD_compact { st with pos := st.pos + ret }, Outcome.ret ())
    | (st, Outcome.fatal f) => (st, Outcome.fatal f)
    | (st, Outcome.budget) => (st, Outcome.budget)
  else (tryDD_compact { st with pos := st.pos + 2 }, Outcome.ret ())

/-- The loop `while(maxPos-pos > AC3_MAX_CODED_FRAME_SIZE)` (lines 284-304) followed by
`return true`. -/
def tryDD_loop (dec : A52Decoder α) : Nat → Renderer α → Renderer α × Outcome Bool
  | fuel, st =>
    if st.maxPos - st.pos > AC3_MAX_CODED_FRAME_SIZE then
      match fuel with
      | 0 => (st, Outcome.budget)
      | fuel + 1 =>
        match tryDD_iter dec st with
        | (st, Outcome.ret _) => tryDD_loop dec fuel st
        | (st, Outcome.fatal f) => (st, Outcome.fatal f)
        | (st, Outcome.budget) => (st, Outcome.budget)
    else (st, Outcome.ret true)

/-- Lines 272-282: append the chunk at `maxPos` and swap the bytes of the appended region.
Exact as long as the appended region ends inside the array, `maxPos + sampleLength <= 15360`;
the source has no such test, and beyond the array the C++ copy overwrites the statics `pos`
and `maxPos` that follow it, which the unbounded cells used here do not show. -/
def tryDD_append (st : Renderer α) (samples : Int) (data : Nat → Nat) : Renderer α :=
  let sampleLength := samples * 2 * st.channels
  let buffer := memcpy st.buffer st.maxPos data sampleLength
  let pMaxPos := st.maxPos
  let maxPos := st.maxPos + sampleLength
  { st with buffer := tryDD_swap maxPos sampleLength.toNat pMaxPos buffer, maxPos := maxPos }

/-- The function `tryDD(samples, data)`. -/
def tryDD (dec : A52Decoder α) (st : Renderer α) (samples : Int) (data : Nat → Nat) :
    Renderer α × Outcome Bool :=
  let st := tryDD_append st samples data
  tryDD_loop dec (st.maxPos - st.pos).toNat st

/-! ## packetRecieved (lines 88-140) -/

/-- The function `packetRecieved(samples, data)`. -/
def packetRecieved (dca : DcaDecoder α) (a52 : A52Decoder α) (st : Renderer α) (samples : Int)
    (data : Nat → Nat) : Renderer α × Outcome Unit :=
  match (if st.enableDD then tryDD a52 st samples data else (st, Outcome.ret false)) with
  | (st, Outcome.ret true) => (st, Outcome.ret ())
  | (st, Outcome.fatal f) => (st, Outcome.fatal f)
  | (st, Outcome.budget) => (st, Outcome.budget)
  | (st, Outcome.ret false) =>
    match (if st.enableDTS then tryDTS dca st samples data else (st, Outcome.ret false)) with
    | (st, Outcome.ret true) => (st, Outcome.ret ())
    | (st, Outcome.fatal f) => (st, Outcome.fatal f)
    | (st, Outcome.budget) => (st, Outcome.budget)
    | (st, Outcome.ret false) => rawPCM st samples data

end Decode

/-! ## Initial state and sample oracles used by the worked examples -/

/-- The state after the constructor (lines 36-59): flags off, `boostAudio = 1`, every static
zero-initialised, three empty streams; `failing` tells which streams reject pushes. -/
def initial (α : Type) [Zero α] (channels : Nat) (failing : HSTREAM → Bool) : Renderer α where
  playing := false
  extendStereo := false
  enableDTS := false
  enableDD := false
  channels := channels
  boostAudio := 1
  fillup := none
  exBuffer := fun _ => 0
  dtsBassBuffer := fun _ => 0
  remData := fun _ => 0
  remBytes := 0
  getBytes := 0
  ddBassBuffer := fun _ => 0
  buffer := fun _ => 0
  pos := 0
  maxPos := 0
  bass := { avail := fun _ => 0, failing := failing, queue := [] }

/-- A DTS oracle for worked examples: a frame starts with the byte `127`, every frame has
coded size `F`, reports the 5.1 layout and decodes to one block whose samples all equal the
second byte of the frame (a frame label). -/
def markerDca (F : Nat) : DcaDecoder Int where
  syncinfo := fun v => if v 0 = 127 then F else 0
  frameFlags := fun _ => DCA_3F2R_LFE
  blocks := fun v => [fun _ => (v 1 : Int)]

/-- An AC-3 oracle for worked examples: a frame starts with the bytes `0x0B 0x77`, has size
`F`, reports the 5.1 layout, and its six blocks hold the third byte of the frame. -/
def markerA52 (F : Nat) : A52Decoder Int where
  syncinfo := fun v => if v 0 = 11 ∧ v 1 = 119 then F else 0
  frameFlags := fun _ => A52_3F2R_LFE
  block := fun v _ => fun _ => (v 2 : Int)

/-- The engine's view of a call: stream and byte count of every accepted push. -/
def pushSizes {α : Type} (e : Bass α) : List (HSTREAM × Int) :=
  e.queue.map (fun p => (p.stream, p.length))

/-- The float blocks accepted by the engine, oldest first. -/
def floatBlocks {α : Type} (e : Bass α) : List (List α) :=
  e.queue.filterMap (fun p => match p.payload with
    | Payload.floats cells => some cells
    | Payload.bytes _ => none)

/-- The subset of byte blocks accepted by the engine, oldest first. -/
def byteBlocks {α : Type} (e : Bass α) : List (List Nat) :=
  e.queue.filterMap (fun p => match p.payload with
    | Payload.bytes cells => some cells
    | Payload.floats _ => none)

/-- The fields that the frame decoders and `bufferUnderrunProtection` leave alone: every
member and static except `fillup`, the two `bassBuffer`s and the engine's queue. -/
def sameControl {α : Type} (st st' : Renderer α) : Prop :=
  st'.playing = st.playing ∧ st'.extendStereo = st.extendStereo
    ∧ st'.enableDTS = st.enableDTS ∧ st'.enableDD = st.enableDD
    ∧ st'.channels = st.channels ∧ st'.boostAudio = st.boostAudio
    ∧ st'.exBuffer = st.exBuffer
    ∧ st'.remData = st.remData ∧ st'.remBytes = st.remBytes ∧ st'.getBytes = st.getBytes
    ∧ st'.buffer = st.buffer ∧ st'.pos = st.pos ∧ st'.maxPos = st.maxPos
    ∧ st'.bass.failing = st.bass.failing

/-- The constructor's state with DTS decoding switched on (`toggleDTS`). -/
def dtsOn (failing : HSTREAM → Bool) : Renderer Int :=
  { initial Int 2 failing with enableDTS := true }

/-- A chunk whose only non-zero byte is a frame marker `127` at offset 2. -/
def headerAt2 : Nat → Nat := fun i => if i = 2 then 127 else 0

/-- The state after `n` passes through the body of the AC-3 loop. -/
def tryDD_passes {α : Type} [Mul α] [NatCast α] (dec : A52Decoder α) :
    Nat → Renderer α → Renderer α
  | 0, st => st
  | n + 1, st => tryDD_passes dec n (tryDD_iter dec st).1

/-- A DTS stream for worked examples: frames of stride 20 (coded size 3) start at offsets
`2, 22, 42, ...`; byte 1 of a frame is its label; the frame at offset 22 has lost its marker. -/
def corruptedStream : Nat → Nat :=
  fun i => if i % 20 = 2 ∧ i ≠ 22 then 127 else if i % 20 = 3 then i / 20 + 1 else 0

/-- An AC-3 accumulation state for worked examples: 4000 unread bytes, no sync word at the
read offset 0, a frame starting at offset 4. -/
def ddUnsynced : Renderer Int :=
  { initial Int 2 (fun _ => false) with
      buffer := fun i => if i = 4 then 11 else if i = 5 then 119 else 0
      maxPos := 4000 }

/-! ## Feeding a stream in chunks -/

/-- Replace the three carry statics of `tryDTS`. -/
def setCarry {α : Type} (st : Renderer α) (remData : Nat → Nat) (remBytes getBytes : Int) :
    Renderer α :=
  { st with remData := remData, remBytes := remBytes, getBytes := getBytes }

/-- Two states that agree on everything except the bytes of `remData` beyond the carried
length `remBytes`. -/
def carryEq {α : Type} (s t : Renderer α) : Prop :=
  ∃ d : Nat → Nat, t = setCarry s d s.remBytes s.getBytes
    ∧ ∀ i : Nat, (i : Int) < s.remBytes → d i = s.remData i

/-- Successive calls of `tryDTS`, one per chunk `(samples, data)`, as long as the calls
return. -/
def feedDTS {α : Type} [Mul α] [NatCast α] (dec : DcaDecoder α) :
    Renderer α × Outcome Bool → List (Int × (Nat → Nat)) → Renderer α × Outcome Bool
  | r, [] => r
  | (st, Outcome.ret _), c :: cs => feedDTS dec (tryDTS dec st c.1 c.2) cs
  | (st, Outcome.fatal f), _ :: _ => (st, Outcome.fatal f)
  | (st, Outcome.budget), _ :: _ => (st, Outcome.budget)

/-- A buffer of its own holding the `4 * m` bytes of the stream `s` from byte offset `B` on,
as `packetRecieved` receives one per call; the cells behind the chunk are not stream bytes
(zero here). -/
def chunkAt (s : Nat → Nat) (B m : Int) : Nat → Nat :=
  fun i => if (i : Int) < 4 * m then s (B + i).toNat else 0

/-- The consecutive chunks of the stream `s` from byte offset `B` on, with the given sample
counts (4 bytes per sample, as `tryDTS` assumes), each in a buffer of its own. -/
def chunksOf (s : Nat → Nat) : Int → List Int → List (Int × (Nat → Nat))
  | _, [] => []
  | B, m :: ms => (m, chunkAt s B m) :: chunksOf s (B + 4 * m) ms

/-- The buffers `cs`, one per call, hold the consecutive bytes of the stream `s` from byte
offset `B` on: the first `4 * samples` cells of each are the stream's bytes.  What a buffer
holds behind the end of its chunk is left open. -/
def chunksCover (s : Nat → Nat) : Int → List (Int × (Nat → Nat)) → Prop
  | _, [] => True
  | B, c :: cs =>
    (∀ i : Nat, (i : Int) < 4 * c.1 → c.2 i = s (B + i).toNat) ∧ chunksCover s (B + 4 * c.1) cs

/-- Every chunk of `cs` (they follow one another from byte offset `B` on) contains the first
byte of a frame, for frames that start at `p0, p0 + stride, p0 + 2 * stride, ...`. -/
def frameStartInEach (p0 stride : Int) : Int → List (Int × (Nat → Nat)) → Prop
  | _, [] => True
  | B, c :: cs =>
    (∃ k : Nat, B ≤ p0 + k * stride ∧ p0 + k * stride < B + 4 * c.1)
      ∧ frameStartInEach p0 stride (B + 4 * c.1) cs

/-- Total number of samples of the chunks `cs`. -/
def totalSamples (cs : List (Int × (Nat → Nat))) : Int := (cs.map Prod.fst).sum

/-- A DTS stream for worked examples: frames of stride 20 (coded size 3) start at offsets
`start, start + 20, ...`; byte 1 of a frame is its label `1, 2, 3, ...`. -/
def frameStream (start : Nat) : Nat → Nat :=
  fun i => if i < start then 0
    else if (i - start) % 20 = 0 then 127
    else if (i - start) % 20 = 1 then (i - start) / 20 + 1
    else 0

/-- Labels of the decoded frames in the engine's queue (first sample of every float block). -/
def frameLabels (e : Bass Int) : List (Option Int) := (floatBlocks e).map List.head?

/-! ## Further notions used by the statements about tryDTS, tryDD and the silence buffer -/

/-- An AC-3 oracle for worked examples that differs from `markerA52` only in the channel
configuration `a52_frame` reports: plain stereo. -/
def stereoA52 (F : Nat) : A52Decoder Int where
  syncinfo := fun v => if v 0 = 11 ∧ v 1 = 119 then F else 0
  frameFlags := fun _ => A52_STEREO
  block := fun v _ => fun _ => (v 2 : Int)

/-- A DTS oracle for worked examples that differs from `markerDca` only in the channel
configuration `dca_frame` reports: not the 5.1 layout. -/
def stereoDca (F : Nat) : DcaDecoder Int where
  syncinfo := fun v => if v 0 = 127 then F else 0
  frameFlags := fun _ => 2
  blocks := fun v => [fun _ => (v 1 : Int)]

/-- The constructor's state with AC-3 decoding switched on (`toggleDD`). -/
def ddOn (channels : Nat) (failing : HSTREAM → Bool) : Renderer Int :=
  { initial Int channels failing with enableDD := true }

/-- A capture chunk that carries an AC-3 frame at its start: the sync word `0x0B 0x77` in
the byte order of the PCM framing (swapped), every other byte zero. -/
def ac3Chunk : Nat → Nat := fun i => if i = 0 then 119 else if i = 1 then 11 else 0

/-- A chunk whose only non-zero byte is a frame marker `127` at offset 0. -/
def headerAt0 : Nat → Nat := fun i => if i = 0 then 127 else 0

/-- The engine's queue only grew: `b` holds the pushes of `a` followed by further ones. -/
def queueExtends {α : Type} (a b : Bass α) : Prop := ∃ l, b.queue = a.queue ++ l

/-- Successive calls of `tryDD`, one per chunk `(samples, data)`, as long as the calls
return. -/
def feedDD {α : Type} [Mul α] [NatCast α] (dec : A52Decoder α) :
    Renderer α × Outcome Bool → List (Int × (Nat → Nat)) → Renderer α × Outcome Bool
  | r, [] => r
  | (st, Outcome.ret _), c :: cs => feedDD dec (tryDD dec st c.1 c.2) cs
  | (st, Outcome.fatal f), _ :: _ => (st, Outcome.fatal f)
  | (st, Outcome.budget), _ :: _ => (st, Outcome.budget)

/-- The offsets of `tryDD` lie inside the accumulation buffer: `0 <= pos <= maxPos <= 15360`
and `pos` is at most half the capacity. -/
def ddInBounds {α : Type} (st : Renderer α) : Prop :=
  0 ≤ st.pos ∧ st.pos ≤ st.maxPos ∧ st.maxPos ≤ (PRE_DECODE_BUFFER_SIZE : Int)
    ∧ st.pos ≤ ((PRE_DECODE_BUFFER_SIZE / 2 : Nat) : Int)

/-- Successive calls of `bufferUnderrunProtection`, one per `(stream, streamChannels)`. -/
def underrunCalls {α : Type} (st : Renderer α) : List (HSTREAM × Nat) → Renderer α
  | [] => st
  | c :: cs => underrunCalls (bufferUnderrunProtection st c.1 c.2) cs

/-- Size in bytes of the silence buffer (`0` while `fillup` is `NULL`). -/
def fillupSize {α : Type} (st : Renderer α) : Nat :=
  match st.fillup with
  | none => 0
  | some f => f.length

end AudioRenderer

/-! # Theorems -/

namespace AudioRenderer

/-! ## Memory helpers -/

theorem store_same {β : Type} (buf : Nat → β) (i : Nat) (v : β) : store buf i v i = v := by
  simp [store]

theorem store_other {β : Type} (buf : Nat → β) (i j : Nat) (v : β) (h : j ≠ i) :
    store buf i v j = buf j := by
  simp [store, h]

/-! ## Channel remap -/

section RemapLemmas
variable {α : Type} [Mul α]

theorem decodeDTSFrame_body_eq (boost : α) (samples : Nat → α) :
    decodeDTSFrame_body boost samples = store6 dtsNative boost samples := by
  funext buf k
  simp [decodeDTSFrame_body, store6, dtsNative]

theorem decodeDDFrame_body_eq (boost : α) (samples : Nat → α) :
    decodeDDFrame_body boost samples = store6 ddNative boost samples := by
  funext buf k
  simp [decodeDDFrame_body, store6, ddNative]

theorem store6_other (c : Nat → Nat) (boost : α) (samples : Nat → α) (buf : Nat → α)
    (k i : Nat) (h : i / 6 ≠ k) : store6 c boost samples buf k i = buf i := by
  unfold store6
  rw [store_other _ _ _ _ (by omega), store_other _ _ _ _ (by omega),
    store_other _ _ _ _ (by omega), store_other _ _ _ _ (by omega),
    store_other _ _ _ _ (by omega), store_other _ _ _ _ (by omega)]

theorem store6_self (c : Nat → Nat) (boost : α) (samples : Nat → α) (buf : Nat → α)
    (k j : Nat) (hj : j < 6) :
    store6 c boost samples buf k (k * 6 + j) = samples (k + c j * 256) * boost := by
  unfold store6
  have hj6 : j = 0 ∨ j = 1 ∨ j = 2 ∨ j = 3 ∨ j = 4 ∨ j = 5 := by omega
  rcases hj6 with rfl | rfl | rfl | rfl | rfl | rfl <;> simp [store]

/-- After `n` passes the first `6n` cells hold the remapped samples and the rest of the
buffer is untouched. -/
theorem store6_foldl (c : Nat → Nat) (boost : α) (samples : Nat → α) (buf : Nat → α) (n i : Nat) :
    (List.range n).foldl (store6 c boost samples) buf i =
      if i < n * 6 then samples (i / 6 + c (i % 6) * 256) * boost else buf i := by
  induction n with
  | zero => simp
  | succ n ih =>
    rw [List.range_succ, List.foldl_append]
    simp only [List.foldl_cons, List.foldl_nil]
    by_cases hi : i / 6 = n
    · have hieq : i = n * 6 + i % 6 := by omega
      have hmod : i % 6 < 6 := Nat.mod_lt _ (by decide)
      rw [if_pos (by omega)]
      conv_lhs => rw [hieq]
      rw [store6_self c boost samples _ n (i % 6) hmod, hi]
    · rw [store6_other c boost samples _ n i hi, ih]
      by_cases h1 : i < n * 6
      · rw [if_pos h1, if_pos (by omega)]
      · rw [if_neg h1, if_neg (by omega)]

/-- Closed form of the block pushed after a remap loop reading native channels `c`. -/
theorem pushedBlock_store6 (c : Nat → Nat) (boost : α) (samples : Nat → α) (buf : Nat → α) :
    pushedBlock ((List.range 256).foldl (store6 c boost samples) buf) =
      (List.range (256 * 6)).map (fun i => samples (i / 6 + c (i % 6) * 256) * boost) := by
  unfold pushedBlock
  apply List.map_congr_left
  intro i hi
  rw [store6_foldl, if_pos (by simpa using hi)]

/-- The pushed block is a rearrangement of the scaled input block whenever the channel table
`c` is a permutation of `0..5`. -/
theorem pushedBlock_store6_perm (c : Nat → Nat) (hc : ∀ j, j < 6 → c j < 6)
    (hinj : ∀ j j', j < 6 → j' < 6 → c j = c j' → j = j')
    (boost : α) (samples : Nat → α) (buf : Nat → α) :
    (pushedBlock ((List.range 256).foldl (store6 c boost samples) buf)).Perm
      ((inputBlock samples).map (fun x => x * boost)) := by
  have hlt : ∀ i : Fin 1536, i.val / 6 + c (i.val % 6) * 256 < 1536 := by
    intro i
    have h1 := hc (i.val % 6) (Nat.mod_lt _ (by decide))
    have h2 := i.isLt
    omega
  let g : Fin 1536 → Fin 1536 := fun i => ⟨i.val / 6 + c (i.val % 6) * 256, hlt i⟩
  have ginj : Function.Injective g := by
    intro a b hab
    have hv : a.val / 6 + c (a.val % 6) * 256 = b.val / 6 + c (b.val % 6) * 256 :=
      congrArg Fin.val hab
    have ha := a.isLt
    have hb := b.isLt
    have hca : c (a.val % 6) = c (b.val % 6) := by omega
    have hmod := hinj _ _ (Nat.mod_lt _ (by decide)) (Nat.mod_lt _ (by decide)) hca
    apply Fin.ext
    omega
  let σ : Equiv.Perm (Fin 1536) := Equiv.ofBijective g (Finite.injective_iff_bijective.mp ginj)
  have hperm := σ.ofFn_comp_perm (fun i : Fin 1536 => samples i.val * boost)
  have e1 : pushedBlock ((List.range 256).foldl (store6 c boost samples) buf) =
      List.ofFn ((fun i : Fin 1536 => samples i.val * boost) ∘ σ) := by
    rw [pushedBlock_store6, List.ofFn_eq_map, ← List.map_coe_finRange, List.map_map]
    apply List.map_congr_left
    intro i _
    rfl
  have e2 : (inputBlock samples).map (fun x => x * boost) =
      List.ofFn (fun i : Fin 1536 => samples i.val * boost) := by
    unfold inputBlock
    rw [List.ofFn_eq_map, ← List.map_coe_finRange, List.map_map, List.map_map]
    rfl
  rw [e1, e2]
  exact hperm

theorem dtsNative_lt (j : Nat) (_h : j < 6) : dtsNative j < 6 := by
  unfold dtsNative; split <;> omega

theorem ddNative_lt (j : Nat) (_h : j < 6) : ddNative j < 6 := by
  unfold ddNative; split <;> omega

theorem dtsNative_inj (j j' : Nat) (hj : j < 6) (hj' : j' < 6) (h : dtsNative j = dtsNative j') :
    j = j' := by
  have a : j = 0 ∨ j = 1 ∨ j = 2 ∨ j = 3 ∨ j = 4 ∨ j = 5 := by omega
  have b : j' = 0 ∨ j' = 1 ∨ j' = 2 ∨ j' = 3 ∨ j' = 4 ∨ j' = 5 := by omega
  rcases a with rfl | rfl | rfl | rfl | rfl | rfl <;>
    rcases b with rfl | rfl | rfl | rfl | rfl | rfl <;> simp [dtsNative] at h ⊢

theorem ddNative_inj (j j' : Nat) (hj : j < 6) (hj' : j' < 6) (h : ddNative j = ddNative j') :
    j = j' := by
  have a : j = 0 ∨ j = 1 ∨ j = 2 ∨ j = 3 ∨ j = 4 ∨ j = 5 := by omega
  have b : j' = 0 ∨ j' = 1 ∨ j' = 2 ∨ j' = 3 ∨ j' = 4 ∨ j' = 5 := by omega
  rcases a with rfl | rfl | rfl | rfl | rfl | rfl <;>
    rcases b with rfl | rfl | rfl | rfl | rfl | rfl <;> simp [ddNative] at h ⊢

theorem pushedBlock_dts (boost : α) (samples : Nat → α) (buf : Nat → α) :
    pushedBlock (decodeDTSFrame_remap boost samples buf) =
      (List.range (256 * 6)).map (fun i => samples (i / 6 + dtsNative (i % 6) * 256) * boost) := by
  unfold decodeDTSFrame_remap
  rw [decodeDTSFrame_body_eq, pushedBlock_store6]

theorem pushedBlock_dd (boost : α) (samples : Nat → α) (buf : Nat → α) :
    pushedBlock (decodeDDFrame_remap boost samples buf) =
      (List.range (256 * 6)).map (fun i => samples (i / 6 + ddNative (i % 6) * 256) * boost) := by
  unfold decodeDDFrame_remap
  rw [decodeDDFrame_body_eq, pushedBlock_store6]

end RemapLemmas

/-- C3 (as stated, refuted): with `boostAudio = 2` and an input block of ones, the block
pushed by the remap loop of `decodeDTSFrame` holds twos, so its multiset of sample values
differs from the multiset of the decoder's input block. -/
theorem remap_multiset_counterexample :
    ((pushedBlock (decodeDTSFrame_remap (2 : Int) (fun _ => 1) (fun _ => 0)) : List Int) :
        Multiset Int) ≠ ((inputBlock (fun _ => (1 : Int)) : List Int) : Multiset Int) := by
  intro h
  have hmem : (2 : Int) ∈ ((pushedBlock (decodeDTSFrame_remap (2 : Int) (fun _ => 1)
      (fun _ => 0)) : List Int) : Multiset Int) := by
    rw [pushedBlock_dts, Multiset.mem_coe, List.mem_map]
    exact ⟨0, by simp, by norm_num⟩
  rw [h, Multiset.mem_coe] at hmem
  unfold inputBlock at hmem
  rw [List.mem_map] at hmem
  obtain ⟨_, _, h12⟩ := hmem
  exact absurd h12 (by decide)

/-- C3 (amended): for every input block and every gain, the block pushed by the remap loop
of `decodeDTSFrame`, and likewise by that of `decodeDDFrame`, has `1536` values and holds
exactly the multiset of the `1536` input values each multiplied by `boostAudio`; with
`boostAudio = 1` it is the multiset of the input block itself, only reordered. -/
theorem remap_multiset {α : Type} [MulOneClass α] (boost : α) (samples : Nat → α)
    (bassBuffer : Nat → α) :
    ((pushedBlock (decodeDTSFrame_remap boost samples bassBuffer) : List α) : Multiset α) =
        Multiset.map (fun x => x * boost) ((inputBlock samples : List α) : Multiset α)
    ∧ ((pushedBlock (decodeDDFrame_remap boost samples bassBuffer) : List α) : Multiset α) =
        Multiset.map (fun x => x * boost) ((inputBlock samples : List α) : Multiset α)
    ∧ ((pushedBlock (decodeDTSFrame_remap 1 samples bassBuffer) : List α) : Multiset α) =
        ((inputBlock samples : List α) : Multiset α)
    ∧ ((pushedBlock (decodeDDFrame_remap 1 samples bassBuffer) : List α) : Multiset α) =
        ((inputBlock samples : List α) : Multiset α)
    ∧ (pushedBlock (decodeDTSFrame_remap boost samples bassBuffer)).length = 1536
    ∧ (pushedBlock (decodeDDFrame_remap boost samples bassBuffer)).length = 1536
    ∧ (inputBlock samples).length = 1536 := by
  have hdts : ∀ b : α, (pushedBlock (decodeDTSFrame_remap b samples bassBuffer)).Perm
      ((inputBlock samples).map (fun x => x * b)) := by
    intro b
    unfold decodeDTSFrame_remap
    rw [decodeDTSFrame_body_eq]
    exact pushedBlock_store6_perm dtsNative dtsNative_lt dtsNative_inj b samples bassBuffer
  have hdd : ∀ b : α, (pushedBlock (decodeDDFrame_remap b samples bassBuffer)).Perm
      ((inputBlock samples).map (fun x => x * b)) := by
    intro b
    unfold decodeDDFrame_remap
    rw [decodeDDFrame_body_eq]
    exact pushedBlock_store6_perm ddNative ddNative_lt ddNative_inj b samples bassBuffer
  have hone : (inputBlock samples).map (fun x => x * (1 : α)) = inputBlock samples := by
    simp
  refine ⟨?_, ?_, ?_, ?_, ?_, ?_, ?_⟩
  · rw [Multiset.map_coe, Multiset.coe_eq_coe]; exact hdts boost
  · rw [Multiset.map_coe, Multiset.coe_eq_coe]; exact hdd boost
  · rw [Multiset.coe_eq_coe]; simpa [hone] using hdts 1
  · rw [Multiset.coe_eq_coe]; simpa [hone] using hdd 1
  · simp [pushedBlock]
  · simp [pushedBlock]
  · simp [inputBlock]

/-- C4: for every sample index `k < 256` and output slot `j < 6`, position `6k+j` of the
pushed block holds sample `k` of native channel `dtsNative j` (DTS) resp. `ddNative j`
(AC-3) multiplied by `boostAudio`; the native channels read for slots `0..5` are
`1,2,0,5,3,4` for DTS and `1,3,2,0,4,5` for AC-3. -/
theorem remap_positions {α : Type} [Mul α] (boost : α) (samples : Nat → α)
    (bassBuffer : Nat → α) (k j : Nat) (hk : k < 256) (hj : j < 6) :
    (pushedBlock (decodeDTSFrame_remap boost samples bassBuffer))[6 * k + j]? =
        some (samples (dtsNative j * 256 + k) * boost)
    ∧ (pushedBlock (decodeDDFrame_remap boost samples bassBuffer))[6 * k + j]? =
        some (samples (ddNative j * 256 + k) * boost)
    ∧ (List.range 6).map dtsNative = [1, 2, 0, 5, 3, 4]
    ∧ (List.range 6).map ddNative = [1, 3, 2, 0, 4, 5] := by
  have hlt : 6 * k + j < 256 * 6 := by omega
  have hdiv : (6 * k + j) / 6 = k := by omega
  have hmod : (6 * k + j) % 6 = j := by omega
  refine ⟨?_, ?_, by decide, by decide⟩
  · rw [pushedBlock_dts, List.getElem?_map, List.getElem?_range hlt]
    simp only [Option.map_some', hdiv, hmod]
    rw [Nat.add_comm]
  · rw [pushedBlock_dd, List.getElem?_map, List.getElem?_range hlt]
    simp only [Option.map_some', hdiv, hmod]
    rw [Nat.add_comm]

/-- Witness for C4: slot 3 (LFE) of sample 7 with gain 2 on the block `samples[i] = i`. -/
theorem remap_positions_witness :
    (pushedBlock (decodeDTSFrame_remap (2 : Int) (fun i => (i : Int)) (fun _ => 0)))[6 * 7 + 3]? =
        some (((dtsNative 3 * 256 + 7 : Nat) : Int) * 2)
    ∧ (pushedBlock (decodeDDFrame_remap (2 : Int) (fun i => (i : Int)) (fun _ => 0)))[6 * 7 + 3]? =
        some (((ddNative 3 * 256 + 7 : Nat) : Int) * 2)
    ∧ (List.range 6).map dtsNative = [1, 2, 0, 5, 3, 4]
    ∧ (List.range 6).map ddNative = [1, 3, 2, 0, 4, 5] :=
  remap_positions (2 : Int) (fun i => (i : Int)) (fun _ => 0) 7 3 (by decide) (by decide)

end AudioRenderer

namespace AudioRenderer

/-! ## Overrun throttle (raw PCM path) -/

theorem scale075_nonneg (s : Int) (h : 0 ≤ s) : 0 ≤ scale075 s := by
  unfold scale075
  rw [Int.tdiv_eq_ediv (by omega) (by decide)]
  omega

theorem scale075_le (s : Int) (h : 0 ≤ s) : scale075 s ≤ s := by
  unfold scale075
  rw [Int.tdiv_eq_ediv (by omega) (by decide)]
  omega

theorem tmod_bounds (t : Int) (m : Nat) (h : 0 ≤ t) :
    0 ≤ Int.tmod t m ∧ Int.tmod t m ≤ t := by
  obtain ⟨n, rfl⟩ := Int.eq_ofNat_of_zero_le h
  rw [Int.tmod_eq_emod h (Int.ofNat_nonneg m), Int.ofNat_mod_ofNat]
  constructor
  · exact Int.ofNat_nonneg _
  · exact Int.ofNat_le.mpr (Nat.mod_le n m)

/-- The reduced count of the direct path: between `0` and the requested count. -/
theorem reduced_direct_bounds (s : Int) (m : Nat) (h : 0 ≤ s) :
    0 ≤ scale075 s - Int.tmod (scale075 s) m ∧ scale075 s - Int.tmod (scale075 s) m ≤ s := by
  have h0 := scale075_nonneg s h
  have h1 := scale075_le s h
  have h2 := tmod_bounds (scale075 s) m h0
  omega

/-- The direct path rounds the reduced count down to a multiple of `2*channels`. -/
theorem reduced_direct_aligned (s : Int) (m : Nat) (h : 0 ≤ s) :
    ((m : Int)) ∣ scale075 s - Int.tmod (scale075 s) m := by
  rw [Int.tmod_eq_emod (scale075_nonneg s h) (Int.ofNat_nonneg m)]
  exact Int.dvd_sub_of_emod_eq rfl

theorem admittedDirect_nonneg (avail channels : Nat) (s : Int) (h : 0 ≤ s) :
    0 ≤ admittedDirect avail channels s := by
  unfold admittedDirect throttleDirect
  have hb := reduced_direct_bounds s (u32 (2 * channels)) h
  split_ifs <;> simp <;> omega

/-- On the direct path the admitted count is at most the requested count and a multiple of
`2 * channels` (the part of C6 that the code meets). -/
theorem throttleDirect_aligned (avail channels : Nat) (samples : Int) (hs : 0 ≤ samples)
    (hsoft : u32 (AUDIO_BUF_OVERRUN_LIMIT * channels) < avail) :
    admittedDirect avail channels samples ≤ samples
      ∧ ((u32 (2 * channels) : Nat) : Int) ∣ admittedDirect avail channels samples := by
  have hb := reduced_direct_bounds samples (u32 (2 * channels)) hs
  have hd := reduced_direct_aligned samples (u32 (2 * channels)) hs
  unfold admittedDirect throttleDirect
  split_ifs
  · simp [hs]
  · exact ⟨hb.2, hd⟩

/-- C6 (code defect, evaluated): on the stereo-expanded path with the depth above its soft
threshold (`9000 * 4`), a request of 4 samples admits 6, more than requested and not a
multiple of `2 * 4`; a request of 802 samples admits 602, not a multiple of `2 * 4`.  Line
114 adds the remainder (`samples += samples%(2*4)`) where line 127 subtracts it. -/
theorem throttle_expanded_misaligned :
    9000 * 4 < 40000
      ∧ throttleExpanded 40000 4 = 6 ∧ (4 : Int) < throttleExpanded 40000 4
      ∧ ¬ ((2 * 4 : Int) ∣ throttleExpanded 40000 4)
      ∧ throttleExpanded 40000 802 = 602 ∧ ¬ ((2 * 4 : Int) ∣ throttleExpanded 40000 802) := by
  decide

end AudioRenderer

namespace AudioRenderer

/-! ## Engine and underrun protection -/

section Guard
variable {α : Type}

theorem sameControl_refl (st : Renderer α) : sameControl st st := by
  simp [sameControl]

theorem sameControl_trans {a b c : Renderer α} (h1 : sameControl a b) (h2 : sameControl b c) :
    sameControl a c := by
  obtain ⟨a1, a2, a3, a4, a5, a6, a7, a8, a9, a10, a11, a12, a13, a14⟩ := h1
  obtain ⟨b1, b2, b3, b4, b5, b6, b7, b8, b9, b10, b11, b12, b13, b14⟩ := h2
  exact ⟨b1.trans a1, b2.trans a2, b3.trans a3, b4.trans a4, b5.trans a5, b6.trans a6,
    b7.trans a7, b8.trans a8, b9.trans a9, b10.trans a10, b11.trans a11, b12.trans a12,
    b13.trans a13, b14.trans a14⟩

theorem putData_failing (e : Bass α) (s : HSTREAM) (p : Payload α) (n : Int) :
    (BASS_StreamPutData e s p n).1.failing = e.failing := by
  unfold BASS_StreamPutData
  split_ifs <;> rfl

theorem putData_fail (e : Bass α) (s : HSTREAM) (p : Payload α) (n : Int)
    (h : e.failing s = true) : BASS_StreamPutData e s p n = (e, -1) := by
  simp [BASS_StreamPutData, h]

theorem putData_ok (e : Bass α) (s : HSTREAM) (p : Payload α) (n : Int)
    (h : e.failing s = false) :
    (BASS_StreamPutData e s p n).2 = n.toNat
      ∧ (BASS_StreamPutData e s p n).1.queue = e.queue ++ [⟨s, p, n⟩]
      ∧ (BASS_StreamPutData e s p n).1.avail s = e.avail s + n.toNat := by
  simp [BASS_StreamPutData, h]

theorem putData_ret_ne (e : Bass α) (s : HSTREAM) (p : Payload α) (n : Int) :
    (BASS_StreamPutData e s p n).2 ≠ -1 ↔ e.failing s = false := by
  unfold BASS_StreamPutData
  by_cases h : e.failing s = true
  · simp [h]
  · simp only [h, Bool.false_eq_true, if_false]
    simp only [Bool.not_eq_true] at h
    simp only [h, iff_true]
    have := Int.ofNat_nonneg n.toNat
    omega

theorem bufferUnderrunProtection_control (st : Renderer α) (s : HSTREAM) (c : Nat) :
    sameControl st (bufferUnderrunProtection st s c) := by
  unfold bufferUnderrunProtection
  simp only
  split_ifs
  · simp [sameControl, putData_failing]
  · exact sameControl_refl st

/-- No push when the depth is at or above the threshold. -/
theorem bufferUnderrunProtection_idle (st : Renderer α) (s : HSTREAM) (c : Nat)
    (h : ¬ BASS_ChannelGetData st.bass s < u32 (AUDIO_BUF_UNDERRUN_LIMIT * c)) :
    bufferUnderrunProtection st s c = st := by
  simp [bufferUnderrunProtection, h]

/-- The first underrun allocates `300 * c` zero bytes and pushes exactly that block. -/
theorem bufferUnderrunProtection_first (st : Renderer α) (s : HSTREAM) (c : Nat)
    (h : BASS_ChannelGetData st.bass s < u32 (AUDIO_BUF_UNDERRUN_LIMIT * c))
    (hnull : st.fillup = none) (hok : st.bass.failing s = false) :
    (bufferUnderrunProtection st s c).bass.queue = st.bass.queue ++
        [⟨s, Payload.bytes (List.replicate (u32 (AUDIO_BUF_UNDERRUN_LIMIT_F * c)) 0),
          (u32 (AUDIO_BUF_UNDERRUN_LIMIT_F * c) : Nat)⟩]
      ∧ (bufferUnderrunProtection st s c).fillup =
        some (List.replicate (u32 (AUDIO_BUF_UNDERRUN_LIMIT_F * c)) 0)
      ∧ (bufferUnderrunProtection st s c).bass.avail s =
        st.bass.avail s + u32 (AUDIO_BUF_UNDERRUN_LIMIT_F * c) := by
  simp [bufferUnderrunProtection, h, hnull, BASS_StreamPutData, hok]

/-- A push to a failing stream leaves the queue as it is. -/
theorem bufferUnderrunProtection_failing (st : Renderer α) (s : HSTREAM) (c : Nat)
    (hfail : st.bass.failing s = true) :
    (bufferUnderrunProtection st s c).bass = st.bass := by
  unfold bufferUnderrunProtection
  simp only
  split_ifs
  · simp [putData_fail _ _ _ _ hfail]
  · rfl

end Guard

set_option maxRecDepth 100000 in
/-- C7 (code defect, evaluated): starting from the constructor's state, an underrun on the
4-channel stream followed by an underrun on the 6-channel stream, both at depth 0.  The
first call allocates the static silence buffer with `300 * 4 = 1200` zero bytes; the second
call pushes `300 * 6 = 1800` bytes from that same buffer, of which only 1200 exist: the
last 600 bytes of the pushed block are read past the end of the allocation. -/
theorem underrun_second_stream_overread :
    pushSizes (bufferUnderrunProtection (bufferUnderrunProtection
        (initial Int 2 (fun _ => false)) HSTREAM.exStream 4) HSTREAM.dtsStream 6).bass
      = [(HSTREAM.exStream, 1200), (HSTREAM.dtsStream, 1800)]
    ∧ byteBlocks (bufferUnderrunProtection (bufferUnderrunProtection
        (initial Int 2 (fun _ => false)) HSTREAM.exStream 4) HSTREAM.dtsStream 6).bass
      = [List.replicate 1200 0, List.replicate 1200 0]
    ∧ (bufferUnderrunProtection (bufferUnderrunProtection
        (initial Int 2 (fun _ => false)) HSTREAM.exStream 4) HSTREAM.dtsStream 6).fillup
      = some (List.replicate 1200 0) := by
  refine ⟨?_, ?_, ?_⟩ <;> rfl

end AudioRenderer

namespace AudioRenderer

/-! ## Frame decoders: effect on the state -/

section DecodeLemmas
variable {α : Type} [Mul α] [NatCast α]

/-- The queue entry of one decoded DTS block. -/
theorem decodeDTSFrame_blocks_control (blocks : List (Nat → α)) (st : Renderer α) :
    sameControl st (decodeDTSFrame_blocks blocks st).1
      ∧ ((decodeDTSFrame_blocks blocks st).2 = Outcome.ret ()
        ∨ (decodeDTSFrame_blocks blocks st).2 = Outcome.fatal Fatal.pushDTS) := by
  induction blocks generalizing st with
  | nil => exact ⟨sameControl_refl st, Or.inl rfl⟩
  | cons b rest ih =>
    unfold decodeDTSFrame_blocks
    simp only
    split_ifs with h
    · refine ⟨sameControl_trans ?_ (ih _).1, (ih _).2⟩
      simp [sameControl, putData_failing]
    · refine ⟨?_, Or.inr rfl⟩
      simp [sameControl, putData_failing]

theorem decodeDDFrame_blocks_control (blocks : List (Nat → α)) (st : Renderer α) :
    sameControl st (decodeDDFrame_blocks blocks st).1
      ∧ ((decodeDDFrame_blocks blocks st).2 = Outcome.ret ()
        ∨ (decodeDDFrame_blocks blocks st).2 = Outcome.fatal Fatal.pushDD) := by
  induction blocks generalizing st with
  | nil => exact ⟨sameControl_refl st, Or.inl rfl⟩
  | cons b rest ih =>
    unfold decodeDDFrame_blocks
    simp only
    split_ifs with h
    · refine ⟨sameControl_trans ?_ (ih _).1, (ih _).2⟩
      simp [sameControl, putData_failing]
    · refine ⟨?_, Or.inr rfl⟩
      simp [sameControl, putData_failing]

theorem decodeDTSFrame_control (dec : DcaDecoder α) (frame : Nat → Nat) (st : Renderer α) :
    sameControl st (decodeDTSFrame dec frame st).1
      ∧ ((decodeDTSFrame dec frame st).2 = Outcome.ret ()
        ∨ (decodeDTSFrame dec frame st).2 = Outcome.fatal Fatal.pushDTS) := by
  unfold decodeDTSFrame
  exact ⟨sameControl_trans (bufferUnderrunProtection_control st _ _)
    (decodeDTSFrame_blocks_control _ _).1, (decodeDTSFrame_blocks_control _ _).2⟩

theorem decodeDDFrame_control (dec : A52Decoder α) (frame : Nat → Nat) (st : Renderer α) :
    sameControl st (decodeDDFrame dec frame st).1
      ∧ ((decodeDDFrame dec frame st).2 = Outcome.ret ()
        ∨ (decodeDDFrame dec frame st).2 = Outcome.fatal Fatal.pushDD) := by
  unfold decodeDDFrame
  exact ⟨sameControl_trans (bufferUnderrunProtection_control st _ _)
    (decodeDDFrame_blocks_control _ _).1, (decodeDDFrame_blocks_control _ _).2⟩

/-- A failed push of the first block of a DTS frame fires the `RT_ASSERT` of line 161. -/
theorem decodeDTSFrame_blocks_failing (b : Nat → α) (rest : List (Nat → α)) (st : Renderer α)
    (h : st.bass.failing HSTREAM.dtsStream = true) :
    (decodeDTSFrame_blocks (b :: rest) st).2 = Outcome.fatal Fatal.pushDTS
      ∧ (decodeDTSFrame_blocks (b :: rest) st).1.bass = st.bass := by
  unfold decodeDTSFrame_blocks
  simp [putData_fail _ _ _ _ h]

/-- A failed push of the first block of an AC-3 frame fires the `RT_ASSERT` of line 263. -/
theorem decodeDDFrame_blocks_failing (b : Nat → α) (rest : List (Nat → α)) (st : Renderer α)
    (h : st.bass.failing HSTREAM.dtsStream = true) :
    (decodeDDFrame_blocks (b :: rest) st).2 = Outcome.fatal Fatal.pushDD
      ∧ (decodeDDFrame_blocks (b :: rest) st).1.bass = st.bass := by
  unfold decodeDDFrame_blocks
  simp [putData_fail _ _ _ _ h]

end DecodeLemmas

/-! ## Push failures -/

/-- C10 (as stated, refuted): with stereo expansion on and an engine that rejects pushes,
`packetRecieved` ends in the fatal `RT_ASSERT` of line 116 instead of returning. -/
theorem push_failure_counterexample :
    (packetRecieved (markerDca 3) (markerA52 4)
        { initial Int 2 (fun _ => true) with extendStereo := true } 4 (fun _ => 0)).2
      = Outcome.fatal Fatal.pushExpanded := by
  rfl

/-- C10 (amended): a push that the engine reports as failed is dropped without a fatal
error only on the direct raw-PCM path, which always returns normally (so does the raw-PCM
part of `packetRecieved` when stereo expansion is off) and leaves the queue as it was; on the stereo-expanded path, on the DTS path (first block of the frame) and on the
AC-3 path the failed push fires the fatal `RT_ASSERT` and nothing is queued. -/
theorem push_failure_paths {α : Type} [Mul α] [NatCast α] (st : Renderer α) (samples : Int)
    (data : Nat → Nat) :
    (pushDirect st samples data).2 = Outcome.ret ()
    ∧ (st.extendStereo = false → (rawPCM st samples data).2 = Outcome.ret ())
    ∧ (st.bass.failing HSTREAM.bStream = true →
        (pushDirect st samples data).1.bass = st.bass)
    ∧ (st.bass.failing HSTREAM.exStream = true →
        (pushExpanded st samples data).2 = Outcome.fatal Fatal.pushExpanded
          ∧ (pushExpanded st samples data).1.bass = st.bass)
    ∧ (st.bass.failing HSTREAM.dtsStream = true →
        ∀ (dca : DcaDecoder α) (frame : Nat → Nat), dca.blocks frame ≠ [] →
          (decodeDTSFrame dca frame st).2 = Outcome.fatal Fatal.pushDTS
            ∧ (decodeDTSFrame dca frame st).1.bass = st.bass)
    ∧ (st.bass.failing HSTREAM.dtsStream = true →
        ∀ (a52 : A52Decoder α) (frame : Nat → Nat),
          (decodeDDFrame a52 frame st).2 = Outcome.fatal Fatal.pushDD
            ∧ (decodeDDFrame a52 frame st).1.bass = st.bass) := by
  have hdirect : ∀ (s : Renderer α) (d : Nat → Nat),
      (pushDirect s samples d).2 = Outcome.ret () := by
    intro s d
    unfold pushDirect
    simp only
    split <;> rfl
  refine ⟨hdirect st data, ?_, ?_, ?_, ?_, ?_⟩
  · intro hex
    unfold rawPCM
    simp only
    have e : (if (!st.playing) = true then { st with playing := true } else st).extendStereo
        = false := by
      split_ifs <;> exact hex
    rw [e]
    exact hdirect _ _
  · intro h
    have hb := bufferUnderrunProtection_failing st HSTREAM.bStream st.channels h
    unfold pushDirect
    simp only
    split
    · exact hb
    · simp only [hb, putData_fail _ _ _ _ h]
  · intro h
    have hb := bufferUnderrunProtection_failing
      { st with exBuffer := expandLoop st.exBuffer data samples } HSTREAM.exStream 4 h
    unfold pushExpanded
    simp only [hb, putData_fail _ _ _ _ h]
    simp
  · intro h dca frame hne
    have hb := bufferUnderrunProtection_failing st HSTREAM.dtsStream 6 h
    have hf : (bufferUnderrunProtection st HSTREAM.dtsStream 6).bass.failing HSTREAM.dtsStream
        = true := by rw [hb]; exact h
    unfold decodeDTSFrame
    obtain ⟨b, rest, hbr⟩ := List.exists_cons_of_ne_nil hne
    rw [hbr]
    have := decodeDTSFrame_blocks_failing b rest _ hf
    rw [hb] at this
    exact this
  · intro h a52 frame
    have hb := bufferUnderrunProtection_failing st HSTREAM.dtsStream 6 h
    have hf : (bufferUnderrunProtection st HSTREAM.dtsStream 6).bass.failing HSTREAM.dtsStream
        = true := by rw [hb]; exact h
    unfold decodeDDFrame
    have hl : (List.range 6).map (a52.block frame) =
        a52.block frame 0 :: (List.range' 1 5).map (a52.block frame) := by
      rfl
    rw [hl]
    have := decodeDDFrame_blocks_failing (a52.block frame 0)
      ((List.range' 1 5).map (a52.block frame)) _ hf
    rw [hb] at this
    exact this

end AudioRenderer

namespace AudioRenderer

/-! ## Termination of the loops (the iteration budgets are never used up) -/

section Fuel
variable {α : Type} [Mul α] [NatCast α]

theorem decodeDTSFrame_blocks_ok (blocks : List (Nat → α)) (st : Renderer α)
    (h : st.bass.failing HSTREAM.dtsStream = false) :
    (decodeDTSFrame_blocks blocks st).2 = Outcome.ret () := by
  induction blocks generalizing st with
  | nil => rfl
  | cons b rest ih =>
    unfold decodeDTSFrame_blocks
    simp only
    rw [if_pos ((putData_ret_ne _ _ _ _).mpr h)]
    apply ih
    simp [putData_failing, h]

theorem decodeDDFrame_blocks_ok (blocks : List (Nat → α)) (st : Renderer α)
    (h : st.bass.failing HSTREAM.dtsStream = false) :
    (decodeDDFrame_blocks blocks st).2 = Outcome.ret () := by
  induction blocks generalizing st with
  | nil => rfl
  | cons b rest ih =>
    unfold decodeDDFrame_blocks
    simp only
    rw [if_pos ((putData_ret_ne _ _ _ _).mpr h)]
    apply ih
    simp [putData_failing, h]

theorem decodeDTSFrame_ok (dec : DcaDecoder α) (frame : Nat → Nat) (st : Renderer α)
    (h : st.bass.failing HSTREAM.dtsStream = false) :
    (decodeDTSFrame dec frame st).2 = Outcome.ret () := by
  unfold decodeDTSFrame
  apply decodeDTSFrame_blocks_ok
  have := (bufferUnderrunProtection_control st HSTREAM.dtsStream 6).2.2.2.2.2.2.2.2.2.2.2.2.2
  rw [this]; exact h

theorem decodeDDFrame_ok (dec : A52Decoder α) (frame : Nat → Nat) (st : Renderer α)
    (h : st.bass.failing HSTREAM.dtsStream = false) :
    (decodeDDFrame dec frame st).2 = Outcome.ret () := by
  unfold decodeDDFrame
  apply decodeDDFrame_blocks_ok
  have := (bufferUnderrunProtection_control st HSTREAM.dtsStream 6).2.2.2.2.2.2.2.2.2.2.2.2.2
  rw [this]; exact h

omit [Mul α] [NatCast α] in
theorem tryDD_compact_diff (st : Renderer α) :
    (tryDD_compact st).maxPos - (tryDD_compact st).pos = st.maxPos - st.pos
      ∧ (tryDD_compact st).bass = st.bass := by
  unfold tryDD_compact
  split_ifs
  · simp only; constructor
    · omega
    · trivial
  · exact ⟨rfl, rfl⟩

/-- One pass of the AC-3 loop either ends in the push assertion or strictly shrinks the
number of unread bytes. -/
theorem tryDD_iter_progress (dec : A52Decoder α) (st : Renderer α)
    (hg : st.maxPos - st.pos > AC3_MAX_CODED_FRAME_SIZE) :
    ((tryDD_iter dec st).2 = Outcome.ret ()
        ∧ ((tryDD_iter dec st).1.maxPos - (tryDD_iter dec st).1.pos).toNat
            < (st.maxPos - st.pos).toNat
        ∧ (tryDD_iter dec st).1.bass.failing = st.bass.failing)
      ∨ ((tryDD_iter dec st).2 = Outcome.fatal Fatal.pushDD
        ∧ st.bass.failing HSTREAM.dtsStream = true) := by
  have hpos : (0 : Int) < st.maxPos - st.pos := by
    have : (0 : Int) ≤ (AC3_MAX_CODED_FRAME_SIZE : Int) := Int.ofNat_nonneg _
    omega
  unfold tryDD_iter
  simp only
  split_ifs with hret
  · have hc := decodeDDFrame_control dec (ptrAdd st.buffer st.pos) st
    rcases hd : decodeDDFrame dec (ptrAdd st.buffer st.pos) st with ⟨st1, o⟩
    rw [hd] at hc
    obtain ⟨hctl, ho⟩ := hc
    simp only at ho hctl
    have hp : st1.pos = st.pos := hctl.2.2.2.2.2.2.2.2.2.2.2.1
    have hm : st1.maxPos = st.maxPos := hctl.2.2.2.2.2.2.2.2.2.2.2.2.1
    have hf : st1.bass.failing = st.bass.failing := hctl.2.2.2.2.2.2.2.2.2.2.2.2.2
    rcases ho with ho | ho
    · left
      subst ho
      simp only
      have hcd := tryDD_compact_diff { st1 with pos := st1.pos + (dec.syncinfo (ptrAdd st.buffer st.pos) : Int) }
      refine ⟨trivial, ?_, ?_⟩
      · rw [hcd.1]
        simp only [hp, hm]
        omega
      · rw [hcd.2]; exact hf
    · right
      subst ho
      simp only
      refine ⟨trivial, ?_⟩
      by_contra hnf
      have hok := decodeDDFrame_ok dec (ptrAdd st.buffer st.pos) st (by simpa using hnf)
      rw [hd] at hok
      simp at hok
  · left
    have hcd := tryDD_compact_diff { st with pos := st.pos + 2 }
    refine ⟨rfl, ?_, ?_⟩
    · rw [hcd.1]
      simp only
      omega
    · rw [hcd.2]

/-- The AC-3 loop ends: with a budget of at least the number of unread bytes it returns
`true` or stops in the push assertion, and it returns `true` when the engine accepts
pushes. -/
theorem tryDD_loop_fuel (dec : A52Decoder α) (fuel : Nat) (st : Renderer α)
    (hfuel : (st.maxPos - st.pos).toNat ≤ fuel) :
    ((tryDD_loop dec fuel st).2 = Outcome.ret true
        ∨ (tryDD_loop dec fuel st).2 = Outcome.fatal Fatal.pushDD)
      ∧ (st.bass.failing HSTREAM.dtsStream = false →
          (tryDD_loop dec fuel st).2 = Outcome.ret true) := by
  induction fuel generalizing st with
  | zero =>
    unfold tryDD_loop
    have : ¬ (st.maxPos - st.pos > (AC3_MAX_CODED_FRAME_SIZE : Int)) := by
      have : (0 : Int) ≤ (AC3_MAX_CODED_FRAME_SIZE : Int) := Int.ofNat_nonneg _
      omega
    rw [if_neg this]
    exact ⟨Or.inl rfl, fun _ => rfl⟩
  | succ n ih =>
    unfold tryDD_loop
    split_ifs with hg
    · simp only
      rcases tryDD_iter_progress dec st hg with ⟨h1, h2, h3⟩ | ⟨h1, h2⟩
      · rcases hi : tryDD_iter dec st with ⟨st1, o⟩
        rw [hi] at h1 h2 h3
        simp only at h1 h2 h3
        subst h1
        simp only
        have := ih st1 (by omega)
        refine ⟨this.1, fun hnf => this.2 ?_⟩
        rw [h3]; exact hnf
      · rcases hi : tryDD_iter dec st with ⟨st1, o⟩
        rw [hi] at h1
        simp only at h1
        subst h1
        simp only
        refine ⟨by simp, fun hnf => ?_⟩
        rw [hnf] at h2
        exact absurd h2 (by decide)
    · exact ⟨Or.inl rfl, fun _ => rfl⟩

omit [Mul α] [NatCast α] in
theorem tryDD_append_failing (st : Renderer α) (samples : Int) (data : Nat → Nat) :
    (tryDD_append st samples data).bass = st.bass := by
  rfl

/-- The function `tryDD` never returns `false`. -/
theorem tryDD_outcome (dec : A52Decoder α) (st : Renderer α) (samples : Int) (data : Nat → Nat) :
    ((tryDD dec st samples data).2 = Outcome.ret true
        ∨ (tryDD dec st samples data).2 = Outcome.fatal Fatal.pushDD)
      ∧ (st.bass.failing HSTREAM.dtsStream = false →
          (tryDD dec st samples data).2 = Outcome.ret true) := by
  unfold tryDD
  simp only
  have := tryDD_loop_fuel dec _ (tryDD_append st samples data) (Nat.le_refl _)
  rw [tryDD_append_failing] at this
  exact this

/-- One pass of the DTS main loop that goes on has consumed a whole frame stride and left
at least one byte of the chunk. -/
theorem tryDTS_iter_progress (dec : DcaDecoder α) (samples : Int) (udata : Nat → Nat)
    (pos : Int) (st : Renderer α) :
    (∀ r, tryDTS_iter dec samples udata pos st = Sum.inl r → r.2 ≠ Outcome.budget)
      ∧ (∀ pos1 st1, tryDTS_iter dec samples udata pos st = Sum.inr (pos1, st1) →
          pos + 18 ≤ pos1 ∧ pos1 < samples * 4) := by
  unfold tryDTS_iter
  simp only
  have hn : (0 : Int) ≤ (dec.syncinfo (ptrAdd udata pos) : Int) := Int.ofNat_nonneg _
  constructor
  · intro r hr
    split_ifs at hr with h1 h2 h3 h4
    · cases hr; simp
    · cases hr; simp
    · have hc := (decodeDTSFrame_control dec (ptrAdd udata pos)
        { st with getBytes := (dec.syncinfo (ptrAdd udata pos) : Int) }).2
      split at hr
      · cases hr
      · cases hr; simp
      · rename_i hb
        rw [hb] at hc
        simp at hc
    · cases hr; simp
    · cases hr; simp
  · intro pos1 st1 hr
    split_ifs at hr with h1 h2 h3 h4
    · split at hr
      · cases hr
        simp only [MAGIC_DTS_OFFSET] at h3 ⊢
        omega
      · cases hr
      · cases hr

/-- The DTS main loop ends within its budget. -/
theorem tryDTS_main_fuel (dec : DcaDecoder α) (samples : Int) (udata : Nat → Nat)
    (fuel : Nat) (pos : Int) (st : Renderer α) (hfuel : (samples * 4 - pos).toNat ≤ fuel) :
    (tryDTS_main dec samples udata fuel pos st).2 ≠ Outcome.budget := by
  induction fuel generalizing pos st with
  | zero =>
    unfold tryDTS_main
    have hp := tryDTS_iter_progress dec samples udata pos st
    split
    · rename_i r hr; exact hp.1 r hr
    · rename_i pos1 st1 hr
      have := hp.2 pos1 st1 hr
      omega
  | succ n ih =>
    unfold tryDTS_main
    have hp := tryDTS_iter_progress dec samples udata pos st
    split
    · rename_i r hr; exact hp.1 r hr
    · rename_i pos1 st1 hr
      have := hp.2 pos1 st1 hr
      simp only
      exact ih pos1 st1 (by omega)

/-- The function `tryDTS` ends: its result is a return value or an `RT_ASSERT`. -/
theorem tryDTS_fuel (dec : DcaDecoder α) (st : Renderer α) (samples : Int) (data : Nat → Nat) :
    (tryDTS dec st samples data).2 ≠ Outcome.budget := by
  unfold tryDTS
  by_cases h0 : st.remBytes = 0
  · rw [if_pos h0]
    split
    · simp
    · exact tryDTS_main_fuel _ _ _ _ _ _ (Nat.le_refl _)
  · rw [if_neg h0]
    dsimp only
    by_cases h1 : st.remBytes + st.getBytes < (REM_DATA_SIZE : Int)
    · rw [if_pos h1]
      by_cases h2 : (dec.syncinfo (memcpy st.remData st.remBytes data st.getBytes) : Int) = 0
      · rw [if_pos h2]; simp
      · rw [if_neg h2]
        by_cases h3 : dec.frameFlags (memcpy st.remData st.remBytes data st.getBytes)
            = DCA_3F2R_LFE
        · rw [if_pos h3]
          have hc := (decodeDTSFrame_control dec (memcpy st.remData st.remBytes data st.getBytes)
            { st with remData := memcpy st.remData st.remBytes data st.getBytes,
                      getBytes := (dec.syncinfo
                        (memcpy st.remData st.remBytes data st.getBytes) : Int) }).2
          split
          · exact tryDTS_main_fuel _ _ _ _ _ _ (Nat.le_refl _)
          · simp
          · rename_i hb
            rw [hb] at hc
            simp at hc
        · rw [if_neg h3]; simp
    · rw [if_neg h1]; simp

end Fuel

/-! ## Dispatch -/

/-- C8: with AC-3 enabled `packetRecieved` is `tryDD` alone (which never returns `false`:
it returns `true`, or stops in the push assertion when the engine rejects a block), so
neither `tryDTS` nor the raw-PCM path runs; with AC-3 disabled and DTS enabled the raw-PCM
path runs exactly when `tryDTS` returns `false`; with both disabled only the raw-PCM path
runs. -/
theorem dispatch_order {α : Type} [Mul α] [NatCast α] (dca : DcaDecoder α) (a52 : A52Decoder α)
    (st : Renderer α) (samples : Int) (data : Nat → Nat) :
    (st.enableDD = true →
        ((tryDD a52 st samples data).2 = Outcome.ret true
          ∨ (tryDD a52 st samples data).2 = Outcome.fatal Fatal.pushDD)
        ∧ (st.bass.failing HSTREAM.dtsStream = false →
            (tryDD a52 st samples data).2 = Outcome.ret true)
        ∧ ((tryDD a52 st samples data).2 = Outcome.ret true →
            packetRecieved dca a52 st samples data
              = ((tryDD a52 st samples data).1, Outcome.ret ()))
        ∧ (∀ f, (tryDD a52 st samples data).2 = Outcome.fatal f →
            packetRecieved dca a52 st samples data
              = ((tryDD a52 st samples data).1, Outcome.fatal f)))
    ∧ (st.enableDD = false → st.enableDTS = true →
        (tryDTS dca st samples data).2 ≠ Outcome.budget
        ∧ ((tryDTS dca st samples data).2 = Outcome.ret false →
            packetRecieved dca a52 st samples data
              = rawPCM (tryDTS dca st samples data).1 samples data)
        ∧ ((tryDTS dca st samples data).2 = Outcome.ret true →
            packetRecieved dca a52 st samples data
              = ((tryDTS dca st samples data).1, Outcome.ret ()))
        ∧ (∀ f, (tryDTS dca st samples data).2 = Outcome.fatal f →
            packetRecieved dca a52 st samples data
              = ((tryDTS dca st samples data).1, Outcome.fatal f)))
    ∧ (st.enableDD = false → st.enableDTS = false →
        packetRecieved dca a52 st samples data = rawPCM st samples data) := by
  refine ⟨?_, ?_, ?_⟩
  · intro hdd
    have ho := tryDD_outcome a52 st samples data
    refine ⟨ho.1, ho.2, ?_, ?_⟩
    · intro h
      unfold packetRecieved
      rw [if_pos hdd]
      rcases hr : tryDD a52 st samples data with ⟨st1, o⟩
      rw [hr] at h
      simp only at h
      subst h
      rfl
    · intro f h
      unfold packetRecieved
      rw [if_pos hdd]
      rcases hr : tryDD a52 st samples data with ⟨st1, o⟩
      rw [hr] at h
      simp only at h
      subst h
      rfl
  · intro hdd hdts
    refine ⟨tryDTS_fuel dca st samples data, ?_, ?_, ?_⟩
    · intro h
      unfold packetRecieved
      rw [if_neg (by simp [hdd])]
      simp only [hdts, if_true]
      rcases hr : tryDTS dca st samples data with ⟨st1, o⟩
      rw [hr] at h
      simp only at h
      subst h
      rfl
    · intro h
      unfold packetRecieved
      rw [if_neg (by simp [hdd])]
      simp only [hdts, if_true]
      rcases hr : tryDTS dca st samples data with ⟨st1, o⟩
      rw [hr] at h
      simp only at h
      subst h
      rfl
    · intro f h
      unfold packetRecieved
      rw [if_neg (by simp [hdd])]
      simp only [hdts, if_true]
      rcases hr : tryDTS dca st samples data with ⟨st1, o⟩
      rw [hr] at h
      simp only at h
      subst h
      rfl
  · intro hdd hdts
    unfold packetRecieved
    rw [if_neg (by simp [hdd])]
    simp only [hdts]
    rfl

end AudioRenderer

namespace AudioRenderer

set_option linter.unusedSectionVars false

section FuelMore
variable {α : Type} [Mul α] [NatCast α]

/-- The endianness loop ends within any budget that covers half the appended bytes. -/
theorem tryDD_swap_fuel (maxPos : Int) (f1 f2 : Nat) (i : Int) (buffer : Nat → Nat)
    (h1 : (maxPos - i).toNat ≤ 2 * f1) (h2 : (maxPos - i).toNat ≤ 2 * f2) :
    tryDD_swap maxPos f1 i buffer = tryDD_swap maxPos f2 i buffer := by
  induction f1 generalizing f2 i buffer with
  | zero =>
    cases f2 with
    | zero => rfl
    | succ k =>
      unfold tryDD_swap
      rw [if_neg (by omega)]
  | succ n ih =>
    cases f2 with
    | zero =>
      unfold tryDD_swap
      rw [if_neg (by omega)]
    | succ k =>
      unfold tryDD_swap
      split_ifs with hlt
      · exact ih k (i + 2) _ (by omega) (by omega)
      · rfl

/-- The search loop ends within 1500 passes: a larger budget changes nothing. -/
theorem tryDTS_search_fuel (dec : DcaDecoder α) (udata : Nat → Nat) (f1 f2 : Nat)
    (pos g : Int) (h1 : (3000 - pos).toNat ≤ 2 * f1) (h2 : (3000 - pos).toNat ≤ 2 * f2) :
    tryDTS_search dec udata f1 pos g = tryDTS_search dec udata f2 pos g := by
  induction f1 generalizing f2 pos g with
  | zero =>
    cases f2 with
    | zero => rfl
    | succ k =>
      unfold tryDTS_search
      rw [if_neg (by omega)]
  | succ n ih =>
    cases f2 with
    | zero =>
      unfold tryDTS_search
      rw [if_neg (by omega)]
    | succ k =>
      unfold tryDTS_search
      by_cases hlt : pos < 3000
      · rw [if_pos hlt, if_pos hlt]
        dsimp only
        by_cases hne : ((dec.syncinfo (ptrAdd udata (pos + 2)) : Nat) : Int) ≠ 0
        · rw [if_pos hne, if_pos hne]
        · rw [if_neg hne, if_neg hne]
          exact ih k (pos + 2) _ (by omega) (by omega)
      · rw [if_neg hlt, if_neg hlt]

end FuelMore

end AudioRenderer

namespace AudioRenderer

/-! ## Carry bound of tryDTS -/

/-- C2 (code defect, evaluated).  First part: a 40-byte chunk holds at offset 2 the header
of a frame of coded size 100; `tryDTS` carries 38 bytes and expects 79 more.  The next chunk
has only 40 bytes: the call passes the capacity assertion, decodes the frame from the carry
buffer and returns `true` with `remBytes = 40 - 79 = -39`, a negative carry length.
Second part: when sync detection reports a frame of 40000 bytes inside a 40000-byte chunk
the main loop stores a remainder of 39998 bytes, more than the 32000 bytes of `remData`, and
returns `true`; no assertion guards the store of lines 216-218 and 236-238. -/
theorem carry_bound_violated :
    (tryDTS (markerDca 100) (dtsOn (fun _ => false)) 10 headerAt2).2 = Outcome.ret true
    ∧ (tryDTS (markerDca 100) (dtsOn (fun _ => false)) 10 headerAt2).1.remBytes = 38
    ∧ (tryDTS (markerDca 100) (dtsOn (fun _ => false)) 10 headerAt2).1.getBytes = 79
    ∧ (tryDTS (markerDca 100) (tryDTS (markerDca 100) (dtsOn (fun _ => false)) 10 headerAt2).1
        10 (fun _ => 0)).2 = Outcome.ret true
    ∧ (tryDTS (markerDca 100) (tryDTS (markerDca 100) (dtsOn (fun _ => false)) 10 headerAt2).1
        10 (fun _ => 0)).1.remBytes = -39
    ∧ (tryDTS (markerDca 40000) (dtsOn (fun _ => false)) 10000 headerAt2).2 = Outcome.ret true
    ∧ (tryDTS (markerDca 40000) (dtsOn (fun _ => false)) 10000 headerAt2).1.remBytes = 39998
    ∧ (REM_DATA_SIZE : Int) < 39998 := by
  refine ⟨?_, ?_, ?_, ?_, ?_, ?_, ?_, ?_⟩ <;> decide

end AudioRenderer

namespace AudioRenderer

/-! ## Resynchronisation -/

set_option linter.unusedSectionVars false

section Resync
variable {α : Type} [Mul α] [NatCast α]

/-- What the search loop returns: the first even offset in the window at which sync
detection reports a frame, or nothing when every attempt in the window fails. -/
theorem tryDTS_search_none (dec : DcaDecoder α) (udata : Nat → Nat) (fuel : Nat) (pos g : Int)
    (h : ∀ k : Nat, k < fuel → dec.syncinfo (ptrAdd udata (pos + 2 * k + 2)) = 0) :
    (tryDTS_search dec udata fuel pos g).1 = false
      ∧ (0 < fuel → pos < 3000 → (tryDTS_search dec udata fuel pos g).2.2 = 0) := by
  induction fuel generalizing pos g with
  | zero => exact ⟨rfl, fun h0 => absurd h0 (by decide)⟩
  | succ n ih =>
    unfold tryDTS_search
    have h0 := h 0 (Nat.succ_pos n)
    simp only [Nat.cast_zero, mul_zero, add_zero] at h0
    split_ifs with hp
    · simp only [h0, Nat.cast_zero, ne_eq, not_true_eq_false, if_false]
      have ih' := ih (pos + 2) 0 (by
        intro k hk
        have e : pos + 2 + 2 * (k : Int) + 2 = pos + 2 * ((k + 1 : Nat) : Int) + 2 := by
          push_cast; omega
        rw [e]
        exact h (k + 1) (by omega))
      refine ⟨ih'.1, fun _ _ => ?_⟩
      by_cases hn : 0 < n
      · by_cases hp2 : pos + 2 < 3000
        · exact ih'.2 hn hp2
        · unfold tryDTS_search
          cases n with
          | zero => rfl
          | succ k => simp [hp2]
      · have : n = 0 := by omega
        subst this
        rfl
    · exact ⟨rfl, fun _ hp' => absurd hp' hp⟩

theorem tryDD_iter_fail (dec : A52Decoder α) (st : Renderer α)
    (hfail : dec.syncinfo (ptrAdd st.buffer st.pos) = 0) :
    tryDD_iter dec st = (tryDD_compact { st with pos := st.pos + 2 }, Outcome.ret ()) := by
  unfold tryDD_iter
  simp [hfail]

omit [Mul α] [NatCast α] in
/-- After a failed attempt and the compaction step the unread bytes are where they were,
relative to the read offset. -/
theorem tryDD_compact_view (st : Renderer α) (hlo : 0 ≤ st.pos)
    (hhi : st.pos ≤ (PRE_DECODE_BUFFER_SIZE / 2 : Nat)) (off : Int) (i : Nat) (hoff : 0 ≤ off)
    (hin : off + i < 7678) :
    ptrAdd (tryDD_compact { st with pos := st.pos + 2 }).buffer
        ((tryDD_compact { st with pos := st.pos + 2 }).pos + off) i
      = ptrAdd st.buffer (st.pos + 2 + off) i := by
  have hc : ((PRE_DECODE_BUFFER_SIZE / 2 : Nat) : Int) = 7680 := by decide
  rw [hc] at hhi
  unfold tryDD_compact
  simp only [hc]
  split_ifs with hcmp
  · simp only [ptrAdd, memcpy]
    have e1 : ((((st.pos + 2 - 7680 + off + (i : Int)).toNat : Nat) : Int))
        = st.pos + 2 - 7680 + off + i := Int.toNat_of_nonneg (by omega)
    rw [if_pos (by rw [e1]; omega)]
    congr 1
    rw [e1]
    omega
  · rfl

/-- A run of `n` failed sync attempts of the AC-3 loop: the loop goes through all of them,
nothing is pushed, `2n` bytes are consumed and the read offset ends on the bytes that were
`2n` bytes ahead. -/
theorem tryDD_passes_fail (dec : A52Decoder α)
    (hloc : ∀ v w : Nat → Nat, (∀ i, i < AC3_MAX_CODED_FRAME_SIZE → v i = w i) →
      dec.syncinfo v = dec.syncinfo w)
    (n : Nat) (st : Renderer α) (hlo : 0 ≤ st.pos)
    (hhi : st.pos ≤ (PRE_DECODE_BUFFER_SIZE / 2 : Nat))
    (hn : 2 * n ≤ AC3_MAX_CODED_FRAME_SIZE)
    (hdata : st.maxPos - (st.pos + 2 * n) > AC3_MAX_CODED_FRAME_SIZE)
    (hfail : ∀ j : Nat, j < n → dec.syncinfo (ptrAdd st.buffer (st.pos + 2 * j)) = 0) :
    (∀ fuel, tryDD_loop dec (fuel + n) st = tryDD_loop dec fuel (tryDD_passes dec n st))
      ∧ (tryDD_passes dec n st).maxPos - (tryDD_passes dec n st).pos
          = st.maxPos - st.pos - 2 * n
      ∧ 0 ≤ (tryDD_passes dec n st).pos
      ∧ (tryDD_passes dec n st).pos ≤ (PRE_DECODE_BUFFER_SIZE / 2 : Nat)
      ∧ dec.syncinfo (ptrAdd (tryDD_passes dec n st).buffer (tryDD_passes dec n st).pos)
          = dec.syncinfo (ptrAdd st.buffer (st.pos + 2 * n))
      ∧ (tryDD_passes dec n st).bass = st.bass := by
  have hA : (AC3_MAX_CODED_FRAME_SIZE : Int) = 3840 := by decide
  have hA' : AC3_MAX_CODED_FRAME_SIZE = 3840 := by decide
  have hc : ((PRE_DECODE_BUFFER_SIZE / 2 : Nat) : Int) = 7680 := by decide
  induction n generalizing st with
  | zero =>
    refine ⟨fun fuel => rfl, ?_, hlo, hhi, ?_, rfl⟩
    · simp [tryDD_passes]
    · simp [tryDD_passes]
  | succ n ih =>
    have h0 := hfail 0 (Nat.succ_pos n)
    simp only [Nat.cast_zero, mul_zero, add_zero] at h0
    have hit := tryDD_iter_fail dec st h0
    have hcd := tryDD_compact_diff { st with pos := st.pos + 2 }
    simp only at hcd
    -- the state after the first failed pass
    have hpos1 : 0 ≤ (tryDD_compact { st with pos := st.pos + 2 }).pos
        ∧ (tryDD_compact { st with pos := st.pos + 2 }).pos ≤ 7680 := by
      unfold tryDD_compact
      simp only [hc]
      rw [hc] at hhi
      split_ifs <;> simp only <;> omega
    have hview : ∀ j : Nat, j ≤ n →
        dec.syncinfo (ptrAdd (tryDD_compact { st with pos := st.pos + 2 }).buffer
          ((tryDD_compact { st with pos := st.pos + 2 }).pos + 2 * j))
        = dec.syncinfo (ptrAdd st.buffer (st.pos + 2 * ((j + 1 : Nat) : Int))) := by
      intro j hj
      apply hloc
      intro i hi
      rw [tryDD_compact_view st hlo hhi (2 * j) i (by omega) (by omega)]
      congr 1
      push_cast
      omega
    have ih' := ih (tryDD_compact { st with pos := st.pos + 2 }) hpos1.1
      (by rw [hc]; exact hpos1.2) (by omega)
      (by have hd := hcd.1; push_cast at hdata ⊢; omega)
      (by
        intro j hj
        rw [hview j (by omega)]
        exact hfail (j + 1) (by omega))
    have hpass : tryDD_passes dec (n + 1) st
        = tryDD_passes dec n (tryDD_compact { st with pos := st.pos + 2 }) := by
      rw [tryDD_passes, hit]
    rw [hpass]
    obtain ⟨i1, i2, i3, i4, i5, i6⟩ := ih'
    refine ⟨?_, ?_, i3, i4, ?_, ?_⟩
    · intro fuel
      rw [← i1 fuel]
      conv_lhs => unfold tryDD_loop
      have hg : st.maxPos - st.pos > (AC3_MAX_CODED_FRAME_SIZE : Int) := by
        push_cast at hdata; omega
      rw [if_pos hg]
      have : fuel + (n + 1) = (fuel + n) + 1 := by omega
      rw [this]
      simp only [hit]
    · rw [i2, hcd.1]
      push_cast
      omega
    · rw [i5, hview n (Nat.le_refl n)]
    · rw [i6, hcd.2]

end Resync

/-- C9 (as stated, refuted for DTS): a 40000-byte chunk holds back-to-back frames of stride
20 from offset 2 on, with the marker of the frame at offset 22 destroyed.  `tryDTS` decodes
the frame at offset 2, fails at offset 22 and returns `false` at once with `remBytes = 0`:
the 39978 bytes that follow the failure, more than the 32000 bytes of the largest frame the
carry buffer can hold, are handed back without any further sync attempt although sync
detection would succeed at every later frame start. -/
theorem resync_dts_counterexample :
    (tryDTS (markerDca 3) (dtsOn (fun _ => false)) 10000 corruptedStream).2 = Outcome.ret false
    ∧ (tryDTS (markerDca 3) (dtsOn (fun _ => false)) 10000 corruptedStream).1.remBytes = 0
    ∧ (floatBlocks (tryDTS (markerDca 3) (dtsOn (fun _ => false)) 10000
        corruptedStream).1.bass).length = 1
    ∧ (markerDca 3).syncinfo (ptrAdd corruptedStream 2) = 3
    ∧ (markerDca 3).syncinfo (ptrAdd corruptedStream 22) = 0
    ∧ (∀ j : Nat, 1 ≤ j → (markerDca 3).syncinfo (ptrAdd corruptedStream (22 + 20 * j)) = 3)
    ∧ (REM_DATA_SIZE : Int) < 10000 * 4 - 22 := by
  refine ⟨by decide, by decide, by decide, by decide, by decide, ?_, by decide⟩
  intro j hj
  have e : ((22 + 20 * (j : Int) + ((0 : Nat) : Int)).toNat) = 22 + 20 * j := by omega
  simp only [markerDca, ptrAdd, corruptedStream, e]
  have h1 : (22 + 20 * j) % 20 = 2 := by omega
  have h2 : 22 + 20 * j ≠ 22 := by omega
  simp [h1, h2]

end AudioRenderer

namespace AudioRenderer

/-- C9 (amended).  AC-3: when sync detection fails at the read offset of `tryDD` (a frame
start) and succeeds `2m <= 3840` bytes further on (the next frame start), with more than
3840 unread bytes buffered beyond that point, the inner loop reaches, after `n <= m` failed
attempts that consume `2n <= 3840` bytes and push nothing, an offset at which sync
detection succeeds.  DTS: a sync failure in the main loop ends the call at once with
`false` and `remBytes = 0`, whatever the number of bytes left in the chunk, and the next
call reports `false` again unless sync detection succeeds at one of the even offsets
`2, 4, ..., 3000` of its chunk. -/
theorem resync_bounded {α : Type} [Mul α] [NatCast α] (a52 : A52Decoder α) (st : Renderer α)
    (m : Nat)
    (hloc : ∀ v w : Nat → Nat, (∀ i, i < AC3_MAX_CODED_FRAME_SIZE → v i = w i) →
      a52.syncinfo v = a52.syncinfo w)
    (hlo : 0 ≤ st.pos) (hhi : st.pos ≤ (PRE_DECODE_BUFFER_SIZE / 2 : Nat))
    (hfail : a52.syncinfo (ptrAdd st.buffer st.pos) = 0)
    (hnext : 0 < a52.syncinfo (ptrAdd st.buffer (st.pos + 2 * m)))
    (hm : 2 * m ≤ AC3_MAX_CODED_FRAME_SIZE)
    (hdata : st.maxPos - (st.pos + 2 * m) > AC3_MAX_CODED_FRAME_SIZE) :
    (∃ n : Nat, 1 ≤ n ∧ n ≤ m
        ∧ (∀ fuel, tryDD_loop a52 (fuel + n) st = tryDD_loop a52 fuel (tryDD_passes a52 n st))
        ∧ (tryDD_passes a52 n st).maxPos - (tryDD_passes a52 n st).pos
            = st.maxPos - st.pos - 2 * n
        ∧ (tryDD_passes a52 n st).maxPos - (tryDD_passes a52 n st).pos
            > AC3_MAX_CODED_FRAME_SIZE
        ∧ 0 < a52.syncinfo (ptrAdd (tryDD_passes a52 n st).buffer (tryDD_passes a52 n st).pos)
        ∧ (tryDD_passes a52 n st).bass = st.bass)
    ∧ (∀ (dca : DcaDecoder α) (s : Renderer α) (samples : Int) (udata : Nat → Nat) (pos : Int),
        MAGIC_DTS_OFFSET ≤ samples * 4 - pos → dca.syncinfo (ptrAdd udata pos) = 0 →
        tryDTS_iter dca samples udata pos s
          = Sum.inl ({ s with getBytes := 0, remBytes := 0 }, Outcome.ret false))
    ∧ (∀ (dca : DcaDecoder α) (s : Renderer α) (samples : Int) (data : Nat → Nat),
        s.remBytes = 0 →
        (∀ k : Nat, k < 1500 → dca.syncinfo (ptrAdd data (2 * k + 2)) = 0) →
        tryDTS dca s samples data = ({ s with getBytes := 0 }, Outcome.ret false)) := by
  refine ⟨?_, ?_, ?_⟩
  · have hex : ∃ j : Nat, 0 < a52.syncinfo (ptrAdd st.buffer (st.pos + 2 * j)) := ⟨m, hnext⟩
    classical
    let n := Nat.find hex
    have hn_spec : 0 < a52.syncinfo (ptrAdd st.buffer (st.pos + 2 * (n : Nat))) :=
      Nat.find_spec hex
    have hn_le : n ≤ m := Nat.find_min' hex hnext
    have hn_min : ∀ j : Nat, j < n → a52.syncinfo (ptrAdd st.buffer (st.pos + 2 * j)) = 0 := by
      intro j hj
      have := Nat.find_min hex hj
      omega
    have hn_pos : 1 ≤ n := by
      by_contra h0
      have hz : n = 0 := by omega
      rw [hz] at hn_spec
      simp only [Nat.cast_zero, mul_zero, add_zero] at hn_spec
      omega
    have hp := tryDD_passes_fail a52 hloc n st hlo hhi (by omega)
      (by omega) hn_min
    obtain ⟨p1, p2, _, _, p5, p6⟩ := hp
    refine ⟨n, hn_pos, hn_le, p1, p2, ?_, ?_, p6⟩
    · rw [p2]; omega
    · rw [p5]; exact hn_spec
  · intro dca s samples udata pos hlen hz
    unfold tryDTS_iter
    rw [if_neg (by omega)]
    simp [hz]
  · intro dca s samples data hrem hnone
    have hs := tryDTS_search_none dca data 1500 0 s.getBytes (by
      intro k hk
      have := hnone k hk
      simpa using this)
    unfold tryDTS
    rw [if_pos hrem]
    rcases hr : tryDTS_search dca data 1500 0 s.getBytes with ⟨found, p, g⟩
    rw [hr] at hs
    obtain ⟨h1, h2⟩ := hs
    simp only at h1 h2
    subst h1
    have hg := h2 (by decide) (by decide)
    subst hg
    rfl

/-- Witness for C9 (amended): an accumulation buffer of 4000 unread bytes whose read offset 0
holds no sync word while the next frame starts 4 bytes further on. -/
theorem resync_bounded_witness :
    (∃ n : Nat, 1 ≤ n ∧ n ≤ 2
        ∧ (∀ fuel, tryDD_loop (markerA52 100) (fuel + n)
              ddUnsynced
            = tryDD_loop (markerA52 100) fuel (tryDD_passes (markerA52 100) n
              ddUnsynced))
        ∧ (tryDD_passes (markerA52 100) n
              ddUnsynced).maxPos
            - (tryDD_passes (markerA52 100) n
              ddUnsynced).pos
            = ddUnsynced.maxPos - ddUnsynced.pos - 2 * n
        ∧ (tryDD_passes (markerA52 100) n
              ddUnsynced).maxPos
            - (tryDD_passes (markerA52 100) n
              ddUnsynced).pos
            > AC3_MAX_CODED_FRAME_SIZE
        ∧ 0 < (markerA52 100).syncinfo (ptrAdd (tryDD_passes (markerA52 100) n
              ddUnsynced).buffer
            (tryDD_passes (markerA52 100) n
              ddUnsynced).pos)
        ∧ (tryDD_passes (markerA52 100) n
              ddUnsynced).bass
            = ddUnsynced.bass)
    ∧ (∀ (dca : DcaDecoder Int) (s : Renderer Int) (samples : Int) (udata : Nat → Nat)
        (pos : Int),
        MAGIC_DTS_OFFSET ≤ samples * 4 - pos → dca.syncinfo (ptrAdd udata pos) = 0 →
        tryDTS_iter dca samples udata pos s
          = Sum.inl ({ s with getBytes := 0, remBytes := 0 }, Outcome.ret false))
    ∧ (∀ (dca : DcaDecoder Int) (s : Renderer Int) (samples : Int) (data : Nat → Nat),
        s.remBytes = 0 →
        (∀ k : Nat, k < 1500 → dca.syncinfo (ptrAdd data (2 * k + 2)) = 0) →
        tryDTS dca s samples data = ({ s with getBytes := 0 }, Outcome.ret false)) :=
  resync_bounded (markerA52 100)
    ddUnsynced 2
    (by
      intro v w h
      have h0 := h 0 (by decide)
      have h1 := h 1 (by decide)
      simp [markerA52, h0, h1])
    (by decide) (by decide) (by decide) (by decide) (by decide) (by decide)

end AudioRenderer

namespace AudioRenderer

/-! ## Carry round trip of tryDTS -/

set_option linter.unusedSectionVars false

section Carry
variable {α : Type} [Mul α] [NatCast α]

theorem ptrAdd_zero {β : Type} (p : Nat → β) : ptrAdd p 0 = p := by
  funext i
  simp [ptrAdd]

theorem ptrAdd_ptrAdd {β : Type} (p : Nat → β) (a b : Int) (ha : 0 ≤ a) (hb : 0 ≤ b) :
    ptrAdd (ptrAdd p a) b = ptrAdd p (a + b) := by
  funext i
  simp only [ptrAdd]
  congr 1
  omega

theorem memcpy_inside (dst src : Nat → Nat) (off n : Int) (i : Nat) (h1 : off ≤ i)
    (h2 : (i : Int) < off + n) : memcpy dst off src n i = src ((i : Int) - off).toNat := by
  simp [memcpy, h1, h2]

theorem memcpy_outside (dst src : Nat → Nat) (off n : Int) (i : Nat)
    (h : ¬ (off ≤ (i : Int) ∧ (i : Int) < off + n)) : memcpy dst off src n i = dst i := by
  simp only [memcpy, if_neg h]

theorem bufferUnderrunProtection_setCarry (st : Renderer α) (s : HSTREAM) (c : Nat)
    (d : Nat → Nat) (b g : Int) :
    bufferUnderrunProtection (setCarry st d b g) s c
      = setCarry (bufferUnderrunProtection st s c) d b g := by
  unfold bufferUnderrunProtection setCarry
  simp only
  split_ifs <;> rfl

theorem decodeDTSFrame_blocks_setCarry (blocks : List (Nat → α)) (st : Renderer α)
    (d : Nat → Nat) (b g : Int) :
    decodeDTSFrame_blocks blocks (setCarry st d b g)
      = (setCarry (decodeDTSFrame_blocks blocks st).1 d b g,
          (decodeDTSFrame_blocks blocks st).2) := by
  induction blocks generalizing st with
  | nil => rfl
  | cons x rest ih =>
    unfold decodeDTSFrame_blocks
    simp only
    have e : (setCarry st d b g).bass = st.bass := rfl
    have e2 : (setCarry st d b g).boostAudio = st.boostAudio := rfl
    have e3 : (setCarry st d b g).dtsBassBuffer = st.dtsBassBuffer := rfl
    rw [e, e2, e3]
    generalize decodeDTSFrame_remap (st.boostAudio : α) x st.dtsBassBuffer = bb
    generalize BASS_StreamPutData st.bass HSTREAM.dtsStream (Payload.floats (pushedBlock bb))
      (256 * 4 * 6) = r
    split_ifs with h
    · exact ih { st with dtsBassBuffer := bb, bass := r.1 }
    · rfl

/-- The frame decoder neither reads nor writes the carry statics. -/
theorem decodeDTSFrame_setCarry (dec : DcaDecoder α) (v : Nat → Nat) (st : Renderer α)
    (d : Nat → Nat) (b g : Int) :
    decodeDTSFrame dec v (setCarry st d b g)
      = (setCarry (decodeDTSFrame dec v st).1 d b g, (decodeDTSFrame dec v st).2) := by
  unfold decodeDTSFrame
  rw [bufferUnderrunProtection_setCarry, decodeDTSFrame_blocks_setCarry]

theorem decodeDTSFrame_view (dec : DcaDecoder α) (v w : Nat → Nat) (st : Renderer α)
    (h : dec.blocks v = dec.blocks w) : decodeDTSFrame dec v st = decodeDTSFrame dec w st := by
  unfold decodeDTSFrame
  rw [h]

theorem decodeDTSFrame_getBytes (dec : DcaDecoder α) (v : Nat → Nat) (st : Renderer α) :
    (decodeDTSFrame dec v st).1.getBytes = st.getBytes
      ∧ (decodeDTSFrame dec v st).1.bass.failing = st.bass.failing :=
  ⟨(decodeDTSFrame_control dec v st).1.2.2.2.2.2.2.2.2.2.1,
    (decodeDTSFrame_control dec v st).1.2.2.2.2.2.2.2.2.2.2.2.2.2⟩

/-! ### One pass of the main loop, case by case -/

theorem tryDTS_iter_short (dec : DcaDecoder α) (samples : Int) (udata : Nat → Nat) (pos : Int)
    (st : Renderer α) (h : samples * 4 - pos < MAGIC_DTS_OFFSET) :
    tryDTS_iter dec samples udata pos st
      = Sum.inl (tryDTS_carry st samples udata pos, Outcome.ret true) := by
  unfold tryDTS_iter
  rw [if_pos h]

theorem tryDTS_iter_hold (dec : DcaDecoder α) (samples : Int) (udata : Nat → Nat) (pos : Int)
    (st : Renderer α) (F : Nat) (h : ¬ samples * 4 - pos < MAGIC_DTS_OFFSET)
    (hs : dec.syncinfo (ptrAdd udata pos) = F) (hF : 0 < F)
    (hle : ¬ samples * 4 - pos > (F : Int) + MAGIC_DTS_OFFSET) :
    tryDTS_iter dec samples udata pos st
      = Sum.inl (tryDTS_carry { st with getBytes := F } samples udata pos, Outcome.ret true) := by
  unfold tryDTS_iter
  rw [if_neg h]
  simp only [hs]
  rw [if_neg (by omega), if_neg hle]

theorem tryDTS_iter_decode (dec : DcaDecoder α) (samples : Int) (udata : Nat → Nat) (pos : Int)
    (st : Renderer α) (F : Nat) (h : ¬ samples * 4 - pos < MAGIC_DTS_OFFSET)
    (hs : dec.syncinfo (ptrAdd udata pos) = F) (hF : 0 < F)
    (hgt : samples * 4 - pos > (F : Int) + MAGIC_DTS_OFFSET)
    (hflags : dec.frameFlags (ptrAdd udata pos) = DCA_3F2R_LFE)
    (hok : st.bass.failing HSTREAM.dtsStream = false) :
    tryDTS_iter dec samples udata pos st
      = Sum.inr (pos + F + MAGIC_DTS_OFFSET,
          (decodeDTSFrame dec (ptrAdd udata pos) { st with getBytes := F }).1) := by
  unfold tryDTS_iter
  rw [if_neg h]
  simp only [hs]
  rw [if_neg (by omega), if_pos hgt, if_pos hflags]
  have hd := decodeDTSFrame_ok dec (ptrAdd udata pos) { st with getBytes := (F : Int) } hok
  rcases hr : decodeDTSFrame dec (ptrAdd udata pos) { st with getBytes := (F : Int) }
    with ⟨s1, o⟩
  rw [hr] at hd
  simp only at hd
  subst hd
  rfl

theorem tryDTS_iter_nosync (dec : DcaDecoder α) (samples : Int) (udata : Nat → Nat) (pos : Int)
    (st : Renderer α) (h : ¬ samples * 4 - pos < MAGIC_DTS_OFFSET)
    (hs : dec.syncinfo (ptrAdd udata pos) = 0) :
    tryDTS_iter dec samples udata pos st
      = Sum.inl ({ st with getBytes := 0, remBytes := 0 }, Outcome.ret false) := by
  unfold tryDTS_iter
  rw [if_neg h]
  simp [hs]

/-- Any two budgets that cover the bytes left in the chunk give the same run. -/
theorem tryDTS_main_fuel_irrel (dec : DcaDecoder α) (samples : Int) (udata : Nat → Nat)
    (f1 f2 : Nat) (pos : Int) (st : Renderer α) (h1 : (samples * 4 - pos).toNat ≤ f1)
    (h2 : (samples * 4 - pos).toNat ≤ f2) :
    tryDTS_main dec samples udata f1 pos st = tryDTS_main dec samples udata f2 pos st := by
  induction f1 generalizing f2 pos st with
  | zero =>
    have hp := tryDTS_iter_progress dec samples udata pos st
    unfold tryDTS_main
    rcases hi : tryDTS_iter dec samples udata pos st with r | ⟨pos1, st1⟩
    · rfl
    · have := hp.2 pos1 st1 hi
      omega
  | succ n ih =>
    have hp := tryDTS_iter_progress dec samples udata pos st
    unfold tryDTS_main
    rcases hi : tryDTS_iter dec samples udata pos st with r | ⟨pos1, st1⟩
    · rfl
    · have hpr := hp.2 pos1 st1 hi
      cases f2 with
      | zero => omega
      | succ k =>
        simp only
        exact ih k pos1 st1 (by omega) (by omega)

/-- One step of the main loop in the decode case, for any sufficient budget. -/
theorem tryDTS_main_decode (dec : DcaDecoder α) (samples : Int) (udata : Nat → Nat)
    (fuel : Nat) (pos : Int) (st : Renderer α) (F : Nat)
    (hfuel : (samples * 4 - pos).toNat ≤ fuel)
    (h : ¬ samples * 4 - pos < MAGIC_DTS_OFFSET)
    (hs : dec.syncinfo (ptrAdd udata pos) = F) (hF : 0 < F)
    (hgt : samples * 4 - pos > (F : Int) + MAGIC_DTS_OFFSET)
    (hflags : dec.frameFlags (ptrAdd udata pos) = DCA_3F2R_LFE)
    (hok : st.bass.failing HSTREAM.dtsStream = false) :
    tryDTS_main dec samples udata fuel pos st
      = tryDTS_main dec samples udata fuel (pos + F + MAGIC_DTS_OFFSET)
          (decodeDTSFrame dec (ptrAdd udata pos) { st with getBytes := F }).1 := by
  have hit := tryDTS_iter_decode dec samples udata pos st F h hs hF hgt hflags hok
  have hM : MAGIC_DTS_OFFSET = 17 := rfl
  cases fuel with
  | zero => rw [hM] at hgt; omega
  | succ k =>
    conv_lhs => unfold tryDTS_main
    rw [hit]
    simp only
    apply tryDTS_main_fuel_irrel
    · rw [hM] at hgt ⊢; omega
    · rw [hM] at hgt ⊢; omega

end Carry

end AudioRenderer

namespace AudioRenderer

set_option linter.unusedSectionVars false

section CarryMain
variable {α : Type} [Mul α] [NatCast α]

theorem carryEq_refl (s : Renderer α) : carryEq s s :=
  ⟨s.remData, rfl, fun _ _ => rfl⟩

theorem tryDTS_main_of_inl (dec : DcaDecoder α) (samples : Int) (udata : Nat → Nat)
    (fuel : Nat) (pos : Int) (st : Renderer α) (r : Renderer α × Outcome Bool)
    (h : tryDTS_iter dec samples udata pos st = Sum.inl r) :
    tryDTS_main dec samples udata fuel pos st = r := by
  unfold tryDTS_main
  rw [h]

/-- The carried remainder depends only on the bytes of the chunk from the stop offset on,
not on what the carry statics held before nor on what lies behind the chunk. -/
theorem tryDTS_carry_carryEq (A : Renderer α) (d : Nat → Nat) (b g : Int) (n1 n2 : Int)
    (u1 u2 : Nat → Nat) (x y : Int)
    (hv : ∀ i : Nat, x + i < n1 * 4 → ptrAdd u1 x i = ptrAdd u2 y i)
    (hlen : n1 * 4 - x = n2 * 4 - y) (hg : g = A.getBytes) :
    carryEq (tryDTS_carry A n2 u2 y) (tryDTS_carry (setCarry A d b g) n1 u1 x) := by
  refine ⟨memcpy d 0 (ptrAdd u1 x) (n1 * 4 - x), ?_, ?_⟩
  · subst hg
    simp only [tryDTS_carry, setCarry, hlen]
  · intro i hi
    simp only [tryDTS_carry] at hi ⊢
    rw [memcpy_inside _ _ _ _ _ (by omega) (by omega),
      memcpy_inside _ _ _ _ _ (by omega) (by omega)]
    have e : ((i : Int) - 0).toNat = i := by omega
    rw [e]
    exact hv i (by omega)

/-- Translation invariance of the main loop on a stretch of valid frames: run on another
buffer that holds the same bytes up to the end of the chunk (whatever lies behind it), from a
state that differs only in the carry statics, it pushes the same blocks and leaves the same
carry. -/
theorem tryDTS_main_shift (dec : DcaDecoder α) (hflags : ∀ v, dec.frameFlags v = DCA_3F2R_LFE)
    (F : Nat) (hF : 0 < F)
    (hsyncloc : ∀ v w : Nat → Nat, (∀ i, i < 17 → v i = w i) → dec.syncinfo v = dec.syncinfo w)
    (hdecloc : ∀ v w : Nat → Nat, (∀ i, i < F + 17 → v i = w i) → dec.blocks v = dec.blocks w)
    (n1 n2 : Int) (u1 u2 : Nat → Nat) (fuel1 fuel2 : Nat) (k : Nat) :
    ∀ (x y : Int) (A : Renderer α) (d : Nat → Nat) (b : Int),
      (n2 * 4 - y).toNat ≤ k →
      (∀ i : Nat, x + i < n1 * 4 → ptrAdd u1 x i = ptrAdd u2 y i) →
      (∀ j : Nat, y + j * ((F : Int) + 17) + 17 ≤ n2 * 4 →
        dec.syncinfo (ptrAdd u2 (y + j * ((F : Int) + 17))) = F) →
      n1 * 4 - x = n2 * 4 - y →
      (n1 * 4 - x).toNat ≤ fuel1 → (n2 * 4 - y).toNat ≤ fuel2 →
      A.bass.failing HSTREAM.dtsStream = false →
      (tryDTS_main dec n1 u1 fuel1 x (setCarry A d b A.getBytes)).2
          = (tryDTS_main dec n2 u2 fuel2 y A).2
        ∧ carryEq (tryDTS_main dec n2 u2 fuel2 y A).1
            (tryDTS_main dec n1 u1 fuel1 x (setCarry A d b A.getBytes)).1 := by
  have hM : MAGIC_DTS_OFFSET = 17 := rfl
  induction k with
  | zero =>
    intro x y A d b hk hview hval hlen hf1 hf2 hok
    have hs2 : n2 * 4 - y < MAGIC_DTS_OFFSET := by rw [hM]; omega
    have hs1 : n1 * 4 - x < MAGIC_DTS_OFFSET := by rw [hlen]; exact hs2
    rw [tryDTS_main_of_inl _ _ _ _ _ _ _ (tryDTS_iter_short dec n1 u1 x _ hs1),
      tryDTS_main_of_inl _ _ _ _ _ _ _ (tryDTS_iter_short dec n2 u2 y _ hs2)]
    exact ⟨rfl, tryDTS_carry_carryEq A d b _ n1 n2 u1 u2 x y hview hlen rfl⟩
  | succ k ih =>
    intro x y A d b hk hview hval hlen hf1 hf2 hok
    by_cases hs2 : n2 * 4 - y < MAGIC_DTS_OFFSET
    · have hs1 : n1 * 4 - x < MAGIC_DTS_OFFSET := by rw [hlen]; exact hs2
      rw [tryDTS_main_of_inl _ _ _ _ _ _ _ (tryDTS_iter_short dec n1 u1 x _ hs1),
        tryDTS_main_of_inl _ _ _ _ _ _ _ (tryDTS_iter_short dec n2 u2 y _ hs2)]
      exact ⟨rfl, tryDTS_carry_carryEq A d b _ n1 n2 u1 u2 x y hview hlen rfl⟩
    · have hs1 : ¬ n1 * 4 - x < MAGIC_DTS_OFFSET := by rw [hlen]; exact hs2
      have hsy : dec.syncinfo (ptrAdd u2 y) = F := by
        have := hval 0 (by rw [hM] at hs2; push_cast; omega)
        simpa using this
      have hsx : dec.syncinfo (ptrAdd u1 x) = F := by
        rw [← hsy]
        apply hsyncloc
        intro i hi
        exact hview i (by rw [hM] at hs1; omega)
      by_cases hgt : n2 * 4 - y > (F : Int) + MAGIC_DTS_OFFSET
      · have hgt1 : n1 * 4 - x > (F : Int) + MAGIC_DTS_OFFSET := by
          rw [hlen]; exact hgt
        have hblocks : dec.blocks (ptrAdd u1 x) = dec.blocks (ptrAdd u2 y) := by
          apply hdecloc
          intro i hi
          exact hview i (by rw [hM] at hgt1; omega)
        rw [tryDTS_main_decode dec n1 u1 fuel1 x (setCarry A d b A.getBytes) F hf1 hs1 hsx hF
            hgt1 (hflags _) hok,
          tryDTS_main_decode dec n2 u2 fuel2 y A F hf2 hs2 hsy hF hgt (hflags _) hok]
        have hgb := decodeDTSFrame_getBytes dec (ptrAdd u2 y) { A with getBytes := (F : Int) }
        have e1 : ({ setCarry A d b A.getBytes with getBytes := (F : Int) } : Renderer α)
            = setCarry { A with getBytes := (F : Int) } d b (F : Int) := rfl
        rw [e1, decodeDTSFrame_view dec _ (ptrAdd u2 y) _ hblocks, decodeDTSFrame_setCarry]
        simp only
        have e2 : (F : Int)
            = (decodeDTSFrame dec (ptrAdd u2 y) { A with getBytes := (F : Int) }).1.getBytes :=
          hgb.1.symm
        have := ih (x + (F : Int) + MAGIC_DTS_OFFSET) (y + (F : Int) + MAGIC_DTS_OFFSET)
          (decodeDTSFrame dec (ptrAdd u2 y) { A with getBytes := (F : Int) }).1 d b
          (by rw [hM] at hgt ⊢; omega)
          (by
            intro i hi
            have h := hview (F + 17 + i) (by rw [hM] at hi; push_cast; omega)
            simp only [ptrAdd] at h ⊢
            rw [hM]
            have e3 : (x + (F : Int) + 17 + (i : Int)).toNat
                = (x + ((F + 17 + i : Nat) : Int)).toNat := by push_cast; omega
            have e4 : (y + (F : Int) + 17 + (i : Int)).toNat
                = (y + ((F + 17 + i : Nat) : Int)).toNat := by push_cast; omega
            rw [e3, e4]
            exact h)
          (by
            intro j hj
            have h := hval (j + 1) (by rw [hM] at hj; push_cast at hj ⊢; linarith)
            have e5 : y + ((j + 1 : Nat) : Int) * ((F : Int) + 17)
                = y + (F : Int) + MAGIC_DTS_OFFSET + (j : Int) * ((F : Int) + 17) := by
              rw [hM]; push_cast; ring
            rw [e5] at h
            exact h)
          (by omega) (by rw [hM] at hgt1 ⊢; omega) (by rw [hM] at hgt ⊢; omega)
          (by rw [hgb.2]; exact hok)
        rw [← e2] at this
        exact this
      · have hgt1 : ¬ n1 * 4 - x > (F : Int) + MAGIC_DTS_OFFSET := by
          rw [hlen]; exact hgt
        rw [tryDTS_main_of_inl _ _ _ _ _ _ _
            (tryDTS_iter_hold dec n1 u1 x _ F hs1 hsx hF hgt1),
          tryDTS_main_of_inl _ _ _ _ _ _ _
            (tryDTS_iter_hold dec n2 u2 y _ F hs2 hsy hF hgt)]
        refine ⟨rfl, ?_⟩
        exact tryDTS_carry_carryEq { A with getBytes := (F : Int) }
          d b _ n1 n2 u1 u2 x y hview hlen rfl

end CarryMain

end AudioRenderer

namespace AudioRenderer

set_option linter.unusedSectionVars false

section CarryStop
variable {α : Type} [Mul α] [NatCast α]

/-- On a stream of valid frames the main loop decodes frame after frame and stops, with
`true`, at the first frame start `q` from which the chunk holds at most one stride; run on a
longer chunk of the same bytes it passes through the same point in the same state. -/
theorem tryDTS_main_stop (dec : DcaDecoder α) (hflags : ∀ v, dec.frameFlags v = DCA_3F2R_LFE)
    (F : Nat) (hF : 0 < F) (s : Nat → Nat) (p0 Ltot : Int)
    (hvalid : ∀ j : Nat, p0 + j * ((F : Int) + 17) + 17 ≤ Ltot →
      dec.syncinfo (ptrAdd s (p0 + j * ((F : Int) + 17))) = F)
    (n1 n2 : Int) (h12 : n1 ≤ n2) (hL : n2 * 4 ≤ Ltot) (fuel1 fuel2 : Nat) (k : Nat) :
    ∀ (j : Nat) (pos : Int) (A : Renderer α), pos = p0 + j * ((F : Int) + 17) →
      (n1 * 4 - pos).toNat ≤ k → pos < n1 * 4 → A.getBytes = F →
      A.bass.failing HSTREAM.dtsStream = false →
      (n1 * 4 - pos).toNat ≤ fuel1 → (n2 * 4 - pos).toNat ≤ fuel2 →
      ∃ (j' : Nat) (q : Int) (Aq : Renderer α), q = p0 + j' * ((F : Int) + 17)
        ∧ pos ≤ q ∧ q < n1 * 4 ∧ n1 * 4 - q ≤ (F : Int) + 17
        ∧ Aq.getBytes = F ∧ Aq.bass.failing HSTREAM.dtsStream = false
        ∧ tryDTS_main dec n1 s fuel1 pos A = (tryDTS_carry Aq n1 s q, Outcome.ret true)
        ∧ tryDTS_main dec n2 s fuel2 pos A = tryDTS_main dec n2 s fuel2 q Aq := by
  have hM : MAGIC_DTS_OFFSET = 17 := rfl
  induction k with
  | zero =>
    intro j pos A hpos hk hlt
    omega
  | succ k ih =>
    intro j pos A hpos hk hlt hA hok hf1 hf2
    by_cases hgt : n1 * 4 - pos > (F : Int) + MAGIC_DTS_OFFSET
    · -- a whole stride and more is left: the frame at `pos` is decoded by both runs
      have hsync : dec.syncinfo (ptrAdd s pos) = F := by
        rw [hpos]; apply hvalid; rw [hM] at hgt; omega
      have hns1 : ¬ n1 * 4 - pos < MAGIC_DTS_OFFSET := by rw [hM] at hgt ⊢; omega
      have hns2 : ¬ n2 * 4 - pos < MAGIC_DTS_OFFSET := by rw [hM] at hgt ⊢; omega
      have hgt2 : n2 * 4 - pos > (F : Int) + MAGIC_DTS_OFFSET := by omega
      have hgb := decodeDTSFrame_getBytes dec (ptrAdd s pos) { A with getBytes := (F : Int) }
      have hnext : pos + (F : Int) + MAGIC_DTS_OFFSET
          = p0 + ((j + 1 : Nat) : Int) * ((F : Int) + 17) := by
        rw [hM, hpos]; push_cast; ring
      obtain ⟨j', q, Aq, h1, h2, h3, h4, h5, h6, h7, h8⟩ :=
        ih (j + 1) (pos + (F : Int) + MAGIC_DTS_OFFSET)
          (decodeDTSFrame dec (ptrAdd s pos) { A with getBytes := (F : Int) }).1 hnext
          (by rw [hM] at hgt ⊢; omega) (by rw [hM] at hgt ⊢; omega) hgb.1
          (by rw [hgb.2]; exact hok) (by rw [hM] at hgt ⊢; omega) (by rw [hM] at hgt ⊢; omega)
      refine ⟨j', q, Aq, h1, by rw [hM] at h2; omega, h3, h4, h5, h6, ?_, ?_⟩
      · rw [tryDTS_main_decode dec n1 s fuel1 pos A F hf1 hns1 hsync hF hgt (hflags _) hok]
        exact h7
      · rw [tryDTS_main_decode dec n2 s fuel2 pos A F hf2 hns2 hsync hF hgt2 (hflags _) hok]
        exact h8
    · -- at most one stride is left: the run on the short chunk stops here
      have hAeq : ({ A with getBytes := (F : Int) } : Renderer α) = A := by
        rw [← hA]
      refine ⟨j, pos, A, hpos, le_refl _, hlt, by rw [hM] at hgt; omega, hA, hok, ?_, rfl⟩
      by_cases hshort : n1 * 4 - pos < MAGIC_DTS_OFFSET
      · exact tryDTS_main_of_inl _ _ _ _ _ _ _ (tryDTS_iter_short dec n1 s pos A hshort)
      · have hsync : dec.syncinfo (ptrAdd s pos) = F := by
          rw [hpos]; apply hvalid; rw [hM] at hshort; omega
        have := tryDTS_main_of_inl dec n1 s fuel1 pos A _
          (tryDTS_iter_hold dec n1 s pos A F hshort hsync hF hgt)
        rw [hAeq] at this
        exact this

/-- The carry branch of `tryDTS` when the reassembled frame is recognised. -/
theorem tryDTS_carry_branch (dec : DcaDecoder α) (hflags : ∀ v, dec.frameFlags v = DCA_3F2R_LFE)
    (T : Renderer α) (x : Int) (data : Nat → Nat) (G : Nat) (h0 : T.remBytes ≠ 0)
    (hcap : T.remBytes + T.getBytes < REM_DATA_SIZE) (hG : 0 < G)
    (hsync : dec.syncinfo (memcpy T.remData T.remBytes data T.getBytes) = G)
    (hok : T.bass.failing HSTREAM.dtsStream = false) :
    tryDTS dec T x data
      = tryDTS_main dec x data (x * 4 - T.getBytes).toNat T.getBytes
          (decodeDTSFrame dec (memcpy T.remData T.remBytes data T.getBytes)
            { T with remData := memcpy T.remData T.remBytes data T.getBytes,
                     getBytes := (G : Int) }).1 := by
  unfold tryDTS
  rw [if_neg h0]
  dsimp only
  rw [if_pos hcap]
  simp only [hsync]
  rw [if_neg (by omega), if_pos (hflags _)]
  have hd := decodeDTSFrame_ok dec (memcpy T.remData T.remBytes data T.getBytes)
    { T with remData := memcpy T.remData T.remBytes data T.getBytes, getBytes := (G : Int) } hok
  rcases hr : decodeDTSFrame dec (memcpy T.remData T.remBytes data T.getBytes)
    { T with remData := memcpy T.remData T.remBytes data T.getBytes, getBytes := (G : Int) }
    with ⟨s1, o⟩
  rw [hr] at hd
  simp only at hd
  subst hd
  rfl

end CarryStop

end AudioRenderer
namespace AudioRenderer

set_option linter.unusedSectionVars false

section CarryResume
variable {α : Type} [Mul α] [NatCast α]

/-- Feeding the next chunk, in a buffer of its own, after a prefix of the stream gives what a
single call on the longer prefix gives, provided the chunk contains the first byte of a
frame: the carried frame is completed and decoded from `remData`, and the main loop resumes
right behind it. -/
theorem tryDTS_resume (dec : DcaDecoder α) (hflags : ∀ v, dec.frameFlags v = DCA_3F2R_LFE)
    (F : Nat) (hF : 0 < F) (hcap : (F : Int) + 17 < REM_DATA_SIZE)
    (hsyncloc : ∀ v w : Nat → Nat, (∀ i, i < 17 → v i = w i) → dec.syncinfo v = dec.syncinfo w)
    (hdecloc : ∀ v w : Nat → Nat, (∀ i, i < F + 17 → v i = w i) → dec.blocks v = dec.blocks w)
    (s : Nat → Nat) (p0 Ltot : Int) (hp0 : 0 ≤ p0)
    (hvalid : ∀ j : Nat, p0 + j * ((F : Int) + 17) + 17 ≤ Ltot →
      dec.syncinfo (ptrAdd s (p0 + j * ((F : Int) + 17))) = F)
    (A0 : Renderer α) (hA0 : A0.getBytes = F)
    (hok0 : A0.bass.failing HSTREAM.dtsStream = false)
    (n x : Int) (hpos : p0 < n * 4) (dch : Nat → Nat)
    (hdch : ∀ i : Nat, (i : Int) < 4 * x → dch i = s (n * 4 + i).toNat)
    (k : Nat) (hk1 : n * 4 ≤ p0 + k * ((F : Int) + 17))
    (hk2 : p0 + k * ((F : Int) + 17) < n * 4 + 4 * x)
    (hL : (n + x) * 4 ≤ Ltot)
    (T : Renderer α)
    (hT : carryEq (tryDTS_main dec n s (n * 4 - p0).toNat p0 A0).1 T) :
    (tryDTS dec T x dch).2 = Outcome.ret true
      ∧ carryEq (tryDTS_main dec (n + x) s ((n + x) * 4 - p0).toNat p0 A0).1
          (tryDTS dec T x dch).1 := by
  have hM : MAGIC_DTS_OFFSET = 17 := rfl
  have hx0 : 0 < 4 * x := by omega
  -- the single call on the short prefix stops at `q`; the one on the long prefix passes it
  obtain ⟨j', q, Aq, hq, hq0, hq1, hq2, hgq, hokq, hs1, hs2⟩ :=
    tryDTS_main_stop dec hflags F hF s p0 Ltot hvalid n (n + x) (by omega) hL
      (n * 4 - p0).toNat ((n + x) * 4 - p0).toNat (n * 4 - p0).toNat 0 p0 A0 (by simp)
      (le_refl _) hpos hA0 hok0 (le_refl _) (le_refl _)
  -- the chunk reaches beyond the stride of the frame at `q`
  have hS : (0 : Int) < (F : Int) + 17 := by omega
  have hjk : j' < k := by
    by_contra hcon
    have hle : (k : Int) ≤ (j' : Int) := by exact_mod_cast Nat.le_of_not_lt hcon
    have := mul_le_mul_of_nonneg_right hle (le_of_lt hS)
    linarith
  have hqe : q + (F : Int) + 17 ≤ p0 + k * ((F : Int) + 17) := by
    have hle : ((j' : Int) + 1) ≤ (k : Int) := by exact_mod_cast hjk
    have := mul_le_mul_of_nonneg_right hle (le_of_lt hS)
    rw [hq]
    linarith
  have hqx : q + (F : Int) + 17 < (n + x) * 4 := by linarith
  -- the single call on the long prefix ends with `true`
  obtain ⟨_, q', Aq', _, _, _, _, _, _, hlong, _⟩ :=
    tryDTS_main_stop dec hflags F hF s p0 Ltot hvalid (n + x) (n + x) (le_refl _) hL
      ((n + x) * 4 - p0).toNat ((n + x) * 4 - p0).toNat ((n + x) * 4 - p0).toNat 0 p0 A0
      (by simp) (le_refl _) (by omega) hA0 hok0 (le_refl _) (le_refl _)
  rw [hs1] at hT
  obtain ⟨d0, rfl, hd0⟩ := hT
  simp only [tryDTS_carry] at hd0
  -- the carry statics of the state the next call starts from
  have hTr : (setCarry (tryDTS_carry Aq n s q) d0 (tryDTS_carry Aq n s q).remBytes
      (tryDTS_carry Aq n s q).getBytes).remBytes = n * 4 - q := rfl
  have hTg : (setCarry (tryDTS_carry Aq n s q) d0 (tryDTS_carry Aq n s q).remBytes
      (tryDTS_carry Aq n s q).getBytes).getBytes = (F : Int) + 17 - (n * 4 - q) := by
    simp only [setCarry, tryDTS_carry, hgq, hM]; omega
  have hTd : (setCarry (tryDTS_carry Aq n s q) d0 (tryDTS_carry Aq n s q).remBytes
      (tryDTS_carry Aq n s q).getBytes).remData = d0 := rfl
  have hTok : (setCarry (tryDTS_carry Aq n s q) d0 (tryDTS_carry Aq n s q).remBytes
      (tryDTS_carry Aq n s q).getBytes).bass.failing HSTREAM.dtsStream = false := hokq
  -- the reassembled buffer holds the stride of the frame at `q`
  have hagree : ∀ i : Nat, (i : Int) < (F : Int) + 17 →
      memcpy d0 (n * 4 - q) dch ((F : Int) + 17 - (n * 4 - q)) i = ptrAdd s q i := by
    intro i hi
    by_cases hir : (i : Int) < n * 4 - q
    · rw [memcpy_outside _ _ _ _ _ (by omega), hd0 i hir,
        memcpy_inside _ _ _ _ _ (by omega) (by omega)]
      simp
    · rw [memcpy_inside _ _ _ _ _ (by omega) (by omega),
        hdch _ (by omega)]
      simp only [ptrAdd]
      congr 1
      omega
  have hvq : dec.syncinfo (ptrAdd s q) = F := by
    rw [hq]; apply hvalid; omega
  have hsync : dec.syncinfo (memcpy d0 (n * 4 - q) dch
      ((F : Int) + 17 - (n * 4 - q))) = F := by
    refine (hsyncloc _ _ ?_).trans hvq
    intro i hi
    exact hagree i (by omega)
  have hblocks : dec.blocks (memcpy d0 (n * 4 - q) dch
      ((F : Int) + 17 - (n * 4 - q))) = dec.blocks (ptrAdd s q) := by
    apply hdecloc
    intro i hi
    exact hagree i (by omega)
  have hbranch : tryDTS dec (setCarry (tryDTS_carry Aq n s q) d0
        (tryDTS_carry Aq n s q).remBytes (tryDTS_carry Aq n s q).getBytes) x dch
      = tryDTS_main dec x dch (x * 4 - ((F : Int) + 17 - (n * 4 - q))).toNat
          ((F : Int) + 17 - (n * 4 - q))
          (decodeDTSFrame dec
            (memcpy d0 (n * 4 - q) dch ((F : Int) + 17 - (n * 4 - q)))
            (setCarry Aq
              (memcpy d0 (n * 4 - q) dch ((F : Int) + 17 - (n * 4 - q)))
              (n * 4 - q) (F : Int))).1 := by
    have hb := tryDTS_carry_branch dec hflags _ x dch F
      (by rw [hTr]; omega) (by rw [hTr, hTg]; omega) hF
      (by rw [hTd, hTr, hTg]; exact hsync) hTok
    rw [hTd, hTr, hTg] at hb
    exact hb
  rw [hbranch]
  -- the long single call decodes the frame at `q` and goes on behind it
  have hAeq : ({ Aq with getBytes := (F : Int) } : Renderer α) = Aq := by
    rw [← hgq]
  have hdec := tryDTS_main_decode dec (n + x) s ((n + x) * 4 - p0).toNat q Aq F (by omega)
    (by rw [hM]; omega) hvq hF (by rw [hM]; omega) (hflags _) hokq
  rw [hAeq] at hdec
  rw [hs2, hdec]
  -- the state after the frame, on both sides
  have hgb := decodeDTSFrame_getBytes dec (ptrAdd s q) Aq
  rw [decodeDTSFrame_view dec _ (ptrAdd s q) _ hblocks, decodeDTSFrame_setCarry]
  simp only
  have hFg : (F : Int) = (decodeDTSFrame dec (ptrAdd s q) Aq).1.getBytes := by
    rw [hgb.1, hgq]
  have hshift := tryDTS_main_shift dec hflags F hF hsyncloc hdecloc x (n + x) dch s
    (x * 4 - ((F : Int) + 17 - (n * 4 - q))).toNat ((n + x) * 4 - p0).toNat
    ((n + x) * 4 - (q + (F : Int) + MAGIC_DTS_OFFSET)).toNat
    ((F : Int) + 17 - (n * 4 - q)) (q + (F : Int) + MAGIC_DTS_OFFSET)
    (decodeDTSFrame dec (ptrAdd s q) Aq).1
    (memcpy d0 (n * 4 - q) dch ((F : Int) + 17 - (n * 4 - q))) (n * 4 - q)
    (le_refl _)
    (by
      intro i hi
      simp only [ptrAdd]
      rw [hdch _ (by omega)]
      congr 1
      rw [hM]
      omega)
    (by
      intro j hj
      have h := hvalid (j' + 1 + j) (by rw [hM] at hj; rw [hq] at hj; push_cast; linarith)
      have e : p0 + ((j' + 1 + j : Nat) : Int) * ((F : Int) + 17)
          = q + (F : Int) + MAGIC_DTS_OFFSET + (j : Int) * ((F : Int) + 17) := by
        rw [hM, hq]; push_cast; ring
      rw [e] at h
      exact h)
    (by rw [hM]; omega) (le_refl _)
    (by
      have h1 : p0 ≤ q := hq0
      have h2 : (0 : Int) ≤ (F : Int) := Int.ofNat_nonneg F
      rw [hM]
      apply Int.toNat_le_toNat
      omega)
    (by rw [hgb.2]; exact hokq)
  rw [← hFg] at hshift
  refine ⟨?_, hshift.2⟩
  rw [hshift.1, ← hdec, ← hs2, hlong]

omit [Mul α] [NatCast α] in
theorem frameStartInEach_sum (p0 stride : Int) (cs : List (Int × (Nat → Nat))) :
    ∀ B : Int, frameStartInEach p0 stride B cs → 0 ≤ totalSamples cs * 4 := by
  induction cs with
  | nil => intro _ _; simp [totalSamples]
  | cons c cs ih =>
    intro B h
    obtain ⟨⟨k, h1, h2⟩, hrest⟩ := h
    have := ih _ hrest
    simp only [totalSamples, List.map_cons, List.sum_cons] at this ⊢
    omega

/-- Feeding the remaining chunks one by one, each in a buffer of its own, ends where the
single call on the whole stream ends. -/
theorem feedDTS_chunks (dec : DcaDecoder α) (hflags : ∀ v, dec.frameFlags v = DCA_3F2R_LFE)
    (F : Nat) (hF : 0 < F) (hcap : (F : Int) + 17 < REM_DATA_SIZE)
    (hsyncloc : ∀ v w : Nat → Nat, (∀ i, i < 17 → v i = w i) → dec.syncinfo v = dec.syncinfo w)
    (hdecloc : ∀ v w : Nat → Nat, (∀ i, i < F + 17 → v i = w i) → dec.blocks v = dec.blocks w)
    (s : Nat → Nat) (p0 Ltot : Int) (hp0 : 0 ≤ p0)
    (hvalid : ∀ j : Nat, p0 + j * ((F : Int) + 17) + 17 ≤ Ltot →
      dec.syncinfo (ptrAdd s (p0 + j * ((F : Int) + 17))) = F)
    (A0 : Renderer α) (hA0 : A0.getBytes = F)
    (hok0 : A0.bass.failing HSTREAM.dtsStream = false) (cs : List (Int × (Nat → Nat))) :
    ∀ (n : Int) (T : Renderer α), p0 < n * 4 → chunksCover s (n * 4) cs →
      frameStartInEach p0 ((F : Int) + 17) (n * 4) cs →
      (n + totalSamples cs) * 4 ≤ Ltot →
      carryEq (tryDTS_main dec n s (n * 4 - p0).toNat p0 A0).1 T →
      (feedDTS dec (T, Outcome.ret true) cs).2 = Outcome.ret true
        ∧ carryEq (tryDTS_main dec (n + totalSamples cs) s
              ((n + totalSamples cs) * 4 - p0).toNat p0 A0).1
            (feedDTS dec (T, Outcome.ret true) cs).1 := by
  induction cs with
  | nil =>
    intro n T _ _ _ _ hT
    simp only [feedDTS, totalSamples, List.map_nil, List.sum_nil, add_zero]
    exact ⟨trivial, hT⟩
  | cons c cs ih =>
    intro n T hpos hcover hstart hL hT
    obtain ⟨hdch, hcover1⟩ := hcover
    obtain ⟨⟨k, hk1, hk2⟩, hstart1⟩ := hstart
    have hsum := frameStartInEach_sum p0 ((F : Int) + 17) cs _ hstart1
    have htot : totalSamples (c :: cs) = c.1 + totalSamples cs := by
      simp [totalSamples]
    rw [htot] at hL ⊢
    have hstep := tryDTS_resume dec hflags F hF hcap hsyncloc hdecloc s p0 Ltot hp0 hvalid A0
      hA0 hok0 n c.1 hpos c.2 hdch k hk1 hk2 (by omega) T hT
    simp only [feedDTS]
    rcases hr : tryDTS dec T c.1 c.2 with ⟨T1, o⟩
    rw [hr] at hstep
    obtain ⟨ho, hc⟩ := hstep
    simp only at ho hc
    subst ho
    have e1 : (n + c.1) * 4 = n * 4 + 4 * c.1 := by ring
    have := ih (n + c.1) T1 (by omega) (by rw [e1]; exact hcover1)
      (by rw [e1]; exact hstart1) (by omega) hc
    have e2 : n + c.1 + totalSamples cs = n + (c.1 + totalSamples cs) := by ring
    rw [e2] at this
    exact this

end CarryResume

end AudioRenderer

namespace AudioRenderer

set_option linter.unusedSectionVars false

theorem tryDTS_search_found {α : Type} [Mul α] [NatCast α] (dec : DcaDecoder α)
    (udata : Nat → Nat) (fuel : Nat) (pos g p G : Int)
    (h : tryDTS_search dec udata fuel pos g = (true, p, G)) : pos + 2 ≤ p := by
  induction fuel generalizing pos g with
  | zero => simp [tryDTS_search] at h
  | succ n ih =>
    unfold tryDTS_search at h
    by_cases h1 : pos < 3000
    · rw [if_pos h1] at h
      by_cases h2 : ((dec.syncinfo (ptrAdd udata (pos + 2)) : Nat) : Int) ≠ 0
      · dsimp only at h
        rw [if_pos h2] at h
        have hp := congrArg (fun r => r.2.1) h
        simp only at hp
        omega
      · dsimp only at h
        rw [if_neg h2] at h
        have := ih _ _ h
        omega
    · rw [if_neg h1] at h
      simp at h

/-- The search loop reads `H` bytes at each offset it tries, up to the offset it returns: on
another buffer that holds the same bytes up to there it gives the same result. -/
theorem tryDTS_search_local {α : Type} [Mul α] [NatCast α] (dec : DcaDecoder α) (H : Nat)
    (hsyncloc : ∀ v w : Nat → Nat, (∀ i, i < H → v i = w i) → dec.syncinfo v = dec.syncinfo w)
    (s d : Nat → Nat) (p G : Int) (hagree : ∀ i : Nat, (i : Int) < p + H → d i = s i)
    (fuel : Nat) :
    ∀ (pos g : Int), 0 ≤ pos → tryDTS_search dec s fuel pos g = (true, p, G) →
      tryDTS_search dec d fuel pos g = (true, p, G) := by
  induction fuel with
  | zero =>
    intro pos g _ h
    simp [tryDTS_search] at h
  | succ n ih =>
    intro pos g hpos h
    have hle := tryDTS_search_found dec s (n + 1) pos g p G h
    have hsame : dec.syncinfo (ptrAdd d (pos + 2)) = dec.syncinfo (ptrAdd s (pos + 2)) := by
      apply hsyncloc
      intro i hi
      simp only [ptrAdd]
      exact hagree _ (by omega)
    unfold tryDTS_search at h ⊢
    by_cases h1 : pos < 3000
    · rw [if_pos h1] at h ⊢
      dsimp only at h ⊢
      rw [hsame]
      by_cases h2 : ((dec.syncinfo (ptrAdd s (pos + 2)) : Nat) : Int) ≠ 0
      · rw [if_pos h2] at h ⊢
        exact h
      · rw [if_neg h2] at h ⊢
        exact ih _ _ (by omega) h
    · rw [if_neg h1] at h
      simp at h

set_option maxRecDepth 1000000 in
/-- C1 (as stated, refuted).  Frames of stride 20 labelled 1, 2, 3, ... start at offset 0.
(a) For the 80-byte stream of four frames one call pushes the blocks of frames 2 and 3,
while the same stream split into chunks of 64 and 16 bytes pushes those of frames 2, 3
and 4: the two pushed sequences differ.  (b) For the 60-byte stream of three frames one
call pushes the block of frame 2 only, not three frames.  (c) Split into chunks of 64, 16
and 80 bytes, the 160-byte stream of eight frames loses frame 5, which the single call
decodes. -/
theorem carry_split_counterexample :
    frameLabels (tryDTS (markerDca 3) (dtsOn (fun _ => false)) 20 (frameStream 0)).1.bass
      = [some 2, some 3]
    ∧ frameLabels (feedDTS (markerDca 3) (dtsOn (fun _ => false), Outcome.ret true)
        (chunksOf (frameStream 0) 0 [16, 4])).1.bass = [some 2, some 3, some 4]
    ∧ floatBlocks (feedDTS (markerDca 3) (dtsOn (fun _ => false), Outcome.ret true)
        (chunksOf (frameStream 0) 0 [16, 4])).1.bass
      ≠ floatBlocks (tryDTS (markerDca 3) (dtsOn (fun _ => false)) 20 (frameStream 0)).1.bass
    ∧ frameLabels (tryDTS (markerDca 3) (dtsOn (fun _ => false)) 15 (frameStream 0)).1.bass
      = [some 2]
    ∧ frameLabels (feedDTS (markerDca 3) (dtsOn (fun _ => false), Outcome.ret true)
        (chunksOf (frameStream 0) 0 [16, 4, 20])).1.bass
      = [some 2, some 3, some 4, some 6, some 7]
    ∧ frameLabels (tryDTS (markerDca 3) (dtsOn (fun _ => false)) 40 (frameStream 0)).1.bass
      = [some 2, some 3, some 4, some 5, some 6, some 7] := by
  have h1 : frameLabels (tryDTS (markerDca 3) (dtsOn (fun _ => false)) 20
      (frameStream 0)).1.bass = [some 2, some 3] := by decide
  have h2 : frameLabels (feedDTS (markerDca 3) (dtsOn (fun _ => false), Outcome.ret true)
      (chunksOf (frameStream 0) 0 [16, 4])).1.bass = [some 2, some 3, some 4] := by decide
  refine ⟨h1, h2, ?_, by decide, by decide, by decide⟩
  intro heq
  have hl := congrArg (List.map List.head?) heq
  change frameLabels _ = frameLabels _ at hl
  rw [h1, h2] at hl
  exact absurd hl (by decide)

end AudioRenderer
namespace AudioRenderer

/-- The buffers made by `chunksOf` hold the consecutive bytes of the stream. -/
theorem chunksOf_cover (s : Nat → Nat) (ms : List Int) :
    ∀ B : Int, chunksCover s B (chunksOf s B ms) := by
  induction ms with
  | nil => intro _; trivial
  | cons m ms ih =>
    intro B
    refine ⟨?_, ih _⟩
    intro i hi
    simp only [chunkAt]
    exact if_pos hi

/-- C1 (amended).  Let the synchronizer be searching, let the search find sync at `p0`, and
let the stream hold valid 5.1 frames of one coded size `F` back to back at stride
`F + 17` from `p0` on, with a decoder whose sync detection reads the first `H` bytes,
`1 <= H <= 17`, and whose frame decode reads one stride, and an engine that accepts pushes.
Let the stream be delivered in consecutive chunks of whole samples, each in a buffer of its
own (what lies behind a chunk in its buffer is arbitrary), such that the first chunk holds
the `H` header bytes at `p0` and every later chunk contains the first byte of a frame.  Then
feeding the chunks in order to `tryDTS` ends with `true` like the single call on the whole
stream, leaves the engine in the same state (the same blocks pushed in the same order) and
leaves the same carry (`remBytes`, `getBytes` and the first `remBytes` bytes of
`remData`). -/
theorem carry_round_trip {α : Type} [Mul α] [NatCast α] (dec : DcaDecoder α) (F : Nat)
    (s : Nat → Nat) (st : Renderer α) (p0 : Int) (m : Int) (d0 : Nat → Nat)
    (cs : List (Int × (Nat → Nat))) (H : Nat)
    (hF : 0 < F) (hcap : (F : Int) + 17 < REM_DATA_SIZE) (hH0 : 0 < H)
    (hH : H ≤ 17)
    (hsyncH : ∀ v w : Nat → Nat, (∀ i, i < H → v i = w i) → dec.syncinfo v = dec.syncinfo w)
    (hdecloc : ∀ v w : Nat → Nat, (∀ i, i < F + 17 → v i = w i) → dec.blocks v = dec.blocks w)
    (hflags : ∀ v, dec.frameFlags v = DCA_3F2R_LFE)
    (hengine : st.bass.failing HSTREAM.dtsStream = false)
    (hsearching : st.remBytes = 0)
    (hfound : tryDTS_search dec s 1500 0 st.getBytes = (true, p0, (F : Int)))
    (hvalid : ∀ j : Nat, p0 + j * ((F : Int) + 17) + 17 ≤ (m + totalSamples cs) * 4 →
      dec.syncinfo (ptrAdd s (p0 + j * ((F : Int) + 17))) = F)
    (hfirst : p0 + H ≤ m * 4)
    (hcover : chunksCover s 0 ((m, d0) :: cs))
    (hlater : frameStartInEach p0 ((F : Int) + 17) (m * 4) cs) :
    (feedDTS dec (st, Outcome.ret true) ((m, d0) :: cs)).2 = Outcome.ret true
    ∧ (tryDTS dec st (m + totalSamples cs) s).2 = Outcome.ret true
    ∧ (feedDTS dec (st, Outcome.ret true) ((m, d0) :: cs)).1.bass
        = (tryDTS dec st (m + totalSamples cs) s).1.bass
    ∧ floatBlocks (feedDTS dec (st, Outcome.ret true) ((m, d0) :: cs)).1.bass
        = floatBlocks (tryDTS dec st (m + totalSamples cs) s).1.bass
    ∧ (feedDTS dec (st, Outcome.ret true) ((m, d0) :: cs)).1.remBytes
        = (tryDTS dec st (m + totalSamples cs) s).1.remBytes
    ∧ (feedDTS dec (st, Outcome.ret true) ((m, d0) :: cs)).1.getBytes
        = (tryDTS dec st (m + totalSamples cs) s).1.getBytes
    ∧ (∀ i : Nat, (i : Int) < (tryDTS dec st (m + totalSamples cs) s).1.remBytes →
        (feedDTS dec (st, Outcome.ret true) ((m, d0) :: cs)).1.remData i
          = (tryDTS dec st (m + totalSamples cs) s).1.remData i) := by
  have hM : MAGIC_DTS_OFFSET = 17 := rfl
  have hsyncloc : ∀ v w : Nat → Nat, (∀ i, i < 17 → v i = w i) →
      dec.syncinfo v = dec.syncinfo w :=
    fun v w hvw => hsyncH v w (fun i hi => hvw i (by omega))
  have hp0 : 0 ≤ p0 := by
    have := tryDTS_search_found dec s 1500 0 st.getBytes p0 F hfound
    omega
  obtain ⟨hd0, hcover1⟩ := hcover
  simp only at hd0 hcover1
  have hz : (0 : Int) + 4 * m = m * 4 := by ring
  rw [hz] at hcover1
  have hsum := frameStartInEach_sum p0 ((F : Int) + 17) cs _ hlater
  -- the single call enters the main loop at `p0` in the state `A0`
  have hcall : ∀ n : Int, tryDTS dec st n s
      = tryDTS_main dec n s (n * 4 - p0).toNat p0 { st with getBytes := (F : Int) } := by
    intro n
    unfold tryDTS
    rw [if_pos hsearching, hfound]
  -- so does the first call of the split run, on its own buffer
  have hfound0 : tryDTS_search dec d0 1500 0 st.getBytes = (true, p0, (F : Int)) :=
    tryDTS_search_local dec H hsyncH s d0 p0 F
      (by
        intro i hi
        have := hd0 i (by omega)
        simpa using this)
      1500 0 st.getBytes (le_refl _) hfound
  have hcall0 : tryDTS dec st m d0
      = tryDTS_main dec m d0 (m * 4 - p0).toNat p0 { st with getBytes := (F : Int) } := by
    unfold tryDTS
    rw [if_pos hsearching, hfound0]
  -- the first call returns `true`
  obtain ⟨_, q, Aq, _, _, _, _, _, _, hfirstcall, _⟩ :=
    tryDTS_main_stop dec hflags F hF s p0 ((m + totalSamples cs) * 4) hvalid m m (le_refl _)
      (by omega) (m * 4 - p0).toNat (m * 4 - p0).toNat (m * 4 - p0).toNat 0 p0
      { st with getBytes := (F : Int) } (by simp) (le_refl _) (by omega) rfl hengine
      (le_refl _) (le_refl _)
  have hshift := tryDTS_main_shift dec hflags F hF hsyncloc hdecloc m m d0 s
    (m * 4 - p0).toNat (m * 4 - p0).toNat (m * 4 - p0).toNat p0 p0
    { st with getBytes := (F : Int) } st.remData st.remBytes (le_refl _)
    (by
      intro i hi
      simp only [ptrAdd]
      have := hd0 (p0 + i).toNat (by omega)
      rw [this]
      congr 1
      omega)
    (by
      intro j hj
      exact hvalid j (by omega))
    rfl (le_refl _) (le_refl _) hengine
  have hsame : (setCarry ({ st with getBytes := (F : Int) } : Renderer α) st.remData
      st.remBytes ({ st with getBytes := (F : Int) } : Renderer α).getBytes)
      = { st with getBytes := (F : Int) } := rfl
  rw [hsame, ← hcall0] at hshift
  obtain ⟨hout0, hcarry0⟩ := hshift
  rw [hfirstcall] at hout0
  simp only at hout0
  have hfeed := feedDTS_chunks dec hflags F hF hcap hsyncloc hdecloc s p0
    ((m + totalSamples cs) * 4) hp0 hvalid { st with getBytes := (F : Int) } rfl hengine cs m
    (tryDTS dec st m d0).1 (by omega) hcover1 hlater (le_refl _) hcarry0
  have hsplit : feedDTS dec (st, Outcome.ret true) ((m, d0) :: cs)
      = feedDTS dec ((tryDTS dec st m d0).1, Outcome.ret true) cs := by
    simp only [feedDTS]
    rcases hr : tryDTS dec st m d0 with ⟨T, o⟩
    rw [hr] at hout0
    simp only at hout0
    subst hout0
    rfl
  rw [hsplit, hcall (m + totalSamples cs)]
  obtain ⟨ho, d, hst, hd⟩ := hfeed
  -- the single call on the whole stream returns `true`
  obtain ⟨_, q', Aq', _, _, _, _, _, _, hwhole, _⟩ :=
    tryDTS_main_stop dec hflags F hF s p0 ((m + totalSamples cs) * 4) hvalid
      (m + totalSamples cs) (m + totalSamples cs) (le_refl _) (le_refl _)
      ((m + totalSamples cs) * 4 - p0).toNat ((m + totalSamples cs) * 4 - p0).toNat
      ((m + totalSamples cs) * 4 - p0).toNat 0 p0
      { st with getBytes := (F : Int) } (by simp) (le_refl _) (by omega) rfl hengine
      (le_refl _) (le_refl _)
  refine ⟨ho, by rw [hwhole], ?_, ?_, ?_, ?_, ?_⟩
  · rw [hst]; rfl
  · rw [hst]; rfl
  · rw [hst]; rfl
  · rw [hst]; rfl
  · intro i hi
    rw [hst]
    exact hd i hi

set_option maxRecDepth 1000000 in
/-- Witness for C1 (amended): two lead-in bytes, then frames of stride 20 labelled
1, 2, 3, ...; the decoder looks at one header byte (`H = 1`); the 64-byte stream is delivered
as chunks of 12, 12 and 40 bytes, each in a buffer of its own (the first two chunks are
shorter than a frame stride).  Both ways push the blocks of frames 1, 2, 3, in this order,
and nothing else. -/
theorem carry_round_trip_witness :
    ((feedDTS (markerDca 3) (dtsOn (fun _ => false), Outcome.ret true)
          (chunksOf (frameStream 2) 0 [3, 3, 10])).2 = Outcome.ret true
      ∧ (tryDTS (markerDca 3) (dtsOn (fun _ => false))
          (3 + totalSamples (chunksOf (frameStream 2) (0 + 4 * 3) [3, 10]))
          (frameStream 2)).2 = Outcome.ret true
      ∧ (feedDTS (markerDca 3) (dtsOn (fun _ => false), Outcome.ret true)
          (chunksOf (frameStream 2) 0 [3, 3, 10])).1.bass
          = (tryDTS (markerDca 3) (dtsOn (fun _ => false))
              (3 + totalSamples (chunksOf (frameStream 2) (0 + 4 * 3) [3, 10]))
              (frameStream 2)).1.bass
      ∧ floatBlocks (feedDTS (markerDca 3) (dtsOn (fun _ => false), Outcome.ret true)
          (chunksOf (frameStream 2) 0 [3, 3, 10])).1.bass
          = floatBlocks (tryDTS (markerDca 3) (dtsOn (fun _ => false))
              (3 + totalSamples (chunksOf (frameStream 2) (0 + 4 * 3) [3, 10]))
              (frameStream 2)).1.bass
      ∧ (feedDTS (markerDca 3) (dtsOn (fun _ => false), Outcome.ret true)
          (chunksOf (frameStream 2) 0 [3, 3, 10])).1.remBytes
          = (tryDTS (markerDca 3) (dtsOn (fun _ => false))
              (3 + totalSamples (chunksOf (frameStream 2) (0 + 4 * 3) [3, 10]))
              (frameStream 2)).1.remBytes
      ∧ (feedDTS (markerDca 3) (dtsOn (fun _ => false), Outcome.ret true)
          (chunksOf (frameStream 2) 0 [3, 3, 10])).1.getBytes
          = (tryDTS (markerDca 3) (dtsOn (fun _ => false))
              (3 + totalSamples (chunksOf (frameStream 2) (0 + 4 * 3) [3, 10]))
              (frameStream 2)).1.getBytes
      ∧ (∀ i : Nat, (i : Int) < (tryDTS (markerDca 3) (dtsOn (fun _ => false))
            (3 + totalSamples (chunksOf (frameStream 2) (0 + 4 * 3) [3, 10]))
            (frameStream 2)).1.remBytes →
          (feedDTS (markerDca 3) (dtsOn (fun _ => false), Outcome.ret true)
            (chunksOf (frameStream 2) 0 [3, 3, 10])).1.remData i
            = (tryDTS (markerDca 3) (dtsOn (fun _ => false))
                (3 + totalSamples (chunksOf (frameStream 2) (0 + 4 * 3) [3, 10]))
                (frameStream 2)).1.remData i))
    ∧ frameLabels (feedDTS (markerDca 3) (dtsOn (fun _ => false), Outcome.ret true)
          (chunksOf (frameStream 2) 0 [3, 3, 10])).1.bass = [some 1, some 2, some 3]
    ∧ frameLabels (tryDTS (markerDca 3) (dtsOn (fun _ => false)) 16 (frameStream 2)).1.bass
        = [some 1, some 2, some 3] :=
  ⟨carry_round_trip (markerDca 3) 3 (frameStream 2) (dtsOn (fun _ => false)) 2 3
      (chunkAt (frameStream 2) 0 3) (chunksOf (frameStream 2) (0 + 4 * 3) [3, 10]) 1
      (by decide) (by decide) (by decide) (by decide)
      (by
        intro v w h
        simp [markerDca, h 0 (by decide)])
      (by
        intro v w h
        simp [markerDca, h 1 (by decide)])
      (by intro v; rfl) (by rfl) (by rfl) (by decide)
      (by
        intro j _
        have e : ((2 : Int) + (j : Int) * (((3 : Nat) : Int) + 17) + ((0 : Nat) : Int)).toNat
            = 2 + 20 * j := by
          push_cast
          omega
        simp only [markerDca, ptrAdd, frameStream, e]
        have h1 : ¬ (2 + 20 * j < 2) := by omega
        have h2 : (2 + 20 * j - 2) % 20 = 0 := by omega
        simp [h1, h2])
      (by decide)
      (chunksOf_cover (frameStream 2) [3, 3, 10] 0)
      ⟨⟨1, by decide, by decide⟩, ⟨2, by decide, by decide⟩, trivial⟩,
    by decide, by decide⟩

end AudioRenderer

namespace AudioRenderer

set_option linter.unusedSectionVars false

/-! ## tryDD: append, endianness loop, compaction -/

section Append
variable {α : Type} [Mul α] [NatCast α]

/-- The endianness loop over `n` byte pairs starting at `i` swaps the bytes of every pair
and leaves every other cell alone. -/
theorem tryDD_swap_spec (n : Nat) :
    ∀ (fuel i : Nat) (buffer : Nat → Nat), n ≤ fuel → ∀ c : Nat,
      tryDD_swap ((i : Int) + 2 * n) fuel i buffer c
        = if i ≤ c ∧ c < i + 2 * n then
            (if (c - i) % 2 = 0 then buffer (c + 1) else buffer (c - 1))
          else buffer c := by
  induction n with
  | zero =>
    intro fuel i buffer _ c
    have hc : ¬ (i ≤ c ∧ c < i + 2 * 0) := by omega
    rw [if_neg hc]
    cases fuel with
    | zero => rfl
    | succ f =>
      unfold tryDD_swap
      rw [if_neg (by simp)]
  | succ n ih =>
    intro fuel i buffer hf c
    cases fuel with
    | zero => omega
    | succ f =>
      unfold tryDD_swap
      rw [if_pos (by push_cast; omega)]
      have e1 : ((i : Int)).toNat = i := by simp
      have e2 : ((i : Int) + 1).toNat = i + 1 := by omega
      have e3 : (i : Int) + 2 * ((n + 1 : Nat) : Int) = ((i + 2 : Nat) : Int) + 2 * (n : Int) := by
        push_cast; ring
      have e4 : (i : Int) + 2 = ((i + 2 : Nat) : Int) := by push_cast; ring
      rw [e1, e2, e3, e4, ih f (i + 2) _ (by omega) c]
      have hstore : ∀ j : Nat, j ≠ i → j ≠ i + 1 →
          store (store buffer i (buffer (i + 1))) (i + 1) (buffer i) j = buffer j := by
        intro j hj1 hj2
        rw [store_other _ _ _ _ hj2, store_other _ _ _ _ hj1]
      by_cases h1 : i + 2 ≤ c ∧ c < i + 2 + 2 * n
      · have h1b : i ≤ c ∧ c < i + 2 * (n + 1) := by omega
        rw [if_pos h1, if_pos h1b]
        by_cases h2 : (c - i) % 2 = 0
        · rw [if_pos (show (c - (i + 2)) % 2 = 0 by omega), if_pos h2,
            hstore _ (by omega) (by omega)]
        · rw [if_neg (show ¬ (c - (i + 2)) % 2 = 0 by omega), if_neg h2,
            hstore _ (by omega) (by omega)]
      · rw [if_neg h1]
        by_cases h3 : c = i
        · subst h3
          rw [if_pos (show c ≤ c ∧ c < c + 2 * (n + 1) by omega),
            if_pos (show (c - c) % 2 = 0 by omega), store_other _ _ _ _ (by omega), store_same]
        · by_cases h4 : c = i + 1
          · subst h4
            rw [if_pos (show i ≤ i + 1 ∧ i + 1 < i + 2 * (n + 1) by omega),
              if_neg (show ¬ (i + 1 - i) % 2 = 0 by omega), store_same]
            rfl
          · rw [if_neg (show ¬ (i ≤ c ∧ c < i + 2 * (n + 1)) by omega),
              hstore _ h3 h4]

omit [Mul α] [NatCast α] in
/-- Every cell of the accumulation buffer after the append and the endianness loop of
`tryDD` (lines 272-282). -/
theorem tryDD_append_cells (st : Renderer α) (samples : Int) (data : Nat → Nat)
    (hm : 0 ≤ st.maxPos) (hs : 0 ≤ samples) (c : Nat) :
    (tryDD_append st samples data).buffer c
      = if st.maxPos ≤ (c : Int) ∧ (c : Int) < st.maxPos + samples * 2 * st.channels then
          (if (c - st.maxPos.toNat) % 2 = 0 then data (c + 1 - st.maxPos.toNat)
            else data (c - 1 - st.maxPos.toNat))
        else st.buffer c := by
  obtain ⟨m, hmm⟩ : ∃ m : Nat, st.maxPos = (m : Int) := ⟨st.maxPos.toNat, by omega⟩
  have hsc : 0 ≤ samples * (st.channels : Int) := mul_nonneg hs (Int.ofNat_nonneg _)
  obtain ⟨n, hn⟩ : ∃ n : Nat, samples * (st.channels : Int) = (n : Int) :=
    ⟨(samples * (st.channels : Int)).toNat, by omega⟩
  have hL : samples * 2 * (st.channels : Int) = 2 * (n : Int) := by
    rw [← hn]; ring
  have hfuel : (samples * 2 * (st.channels : Int)).toNat = 2 * n := by omega
  unfold tryDD_append
  simp only [hL, hmm, Int.toNat_ofNat]
  have h2 : (2 * (n : Int)).toNat = 2 * n := by omega
  rw [h2, tryDD_swap_spec n (2 * n) m _ (by omega) c]
  have hcond : ((m : Int) ≤ (c : Int) ∧ (c : Int) < (m : Int) + 2 * (n : Int))
      ↔ (m ≤ c ∧ c < m + 2 * n) := by omega
  by_cases hin : m ≤ c ∧ c < m + 2 * n
  · rw [if_pos hin, if_pos (hcond.2 hin)]
    by_cases hpar : (c - m) % 2 = 0
    · rw [if_pos hpar, if_pos hpar, memcpy_inside _ _ _ _ _ (by push_cast; omega)
        (by push_cast; omega)]
      congr 1
      push_cast
      omega
    · rw [if_neg hpar, if_neg hpar, memcpy_inside _ _ _ _ _ (by omega) (by omega)]
      congr 1
      omega
  · rw [if_neg hin, if_neg (fun h => hin (hcond.1 h)), memcpy_outside _ _ _ _ _ (by omega)]

omit [Mul α] [NatCast α] in
theorem tryDD_append_offsets (st : Renderer α) (samples : Int) (data : Nat → Nat) :
    (tryDD_append st samples data).maxPos = st.maxPos + samples * 2 * st.channels
      ∧ (tryDD_append st samples data).pos = st.pos
      ∧ (tryDD_append st samples data).channels = st.channels := by
  exact ⟨rfl, rfl, rfl⟩

omit [Mul α] [NatCast α] in
/-- The compaction step of `tryDD` (lines 299-303) when it fires: both offsets go down by
half the capacity and the unread bytes keep their place relative to the read offset. -/
theorem tryDD_compact_tail (st : Renderer α) (hpos : st.pos > 7680)
    (hcap : st.maxPos ≤ 15360) :
    (tryDD_compact st).pos = st.pos - 7680 ∧ (tryDD_compact st).maxPos = st.maxPos - 7680
      ∧ ∀ i : Nat, (i : Int) < st.maxPos - st.pos →
          (tryDD_compact st).buffer ((tryDD_compact st).pos + i).toNat
            = st.buffer (st.pos + i).toNat := by
  have hc : ((PRE_DECODE_BUFFER_SIZE / 2 : Nat) : Int) = 7680 := by decide
  unfold tryDD_compact
  rw [if_pos (by rw [hc]; exact hpos)]
  simp only [hc]
  refine ⟨trivial, trivial, ?_⟩
  intro i hi
  rw [memcpy_inside _ _ _ _ _ (by omega) (by omega)]
  simp only [ptrAdd]
  congr 1
  omega

end Append

/-- Claim C16. For a chunk of `L = samples * 2 * channels` bytes appended by `tryDD` at write
offset `m`, the appended region ending inside the accumulation buffer (`m + L <= 15360`):
the write offset becomes `m + L`, still at most 15360, and the read offset is kept; the cells
below `m` (bytes accumulated by earlier calls) and the cells from `m + L` on are what they
were; the cells `[m, m+L)` hold the chunk with the two bytes of every 16-bit pair exchanged
(`buffer[m+2j] = chunk[2j+1]`, `buffer[m+2j+1] = chunk[2j]`); and the sync loop of the call
runs on exactly this buffer. -/
theorem append_byte_swapped {α : Type} [Mul α] [NatCast α] (dec : A52Decoder α)
    (st : Renderer α) (samples : Int) (data : Nat → Nat) (m : Nat) (hm : st.maxPos = (m : Int))
    (hs : 0 ≤ samples)
    (hcap : (m : Int) + samples * 2 * st.channels ≤ PRE_DECODE_BUFFER_SIZE) :
    (tryDD_append st samples data).maxPos = (m : Int) + samples * 2 * st.channels
      ∧ (tryDD_append st samples data).maxPos ≤ PRE_DECODE_BUFFER_SIZE
      ∧ (tryDD_append st samples data).pos = st.pos
      ∧ (∀ c : Nat, c < m → (tryDD_append st samples data).buffer c = st.buffer c)
      ∧ (∀ j : Nat, (2 * j : Int) < samples * 2 * st.channels →
          m + 2 * j + 1 < PRE_DECODE_BUFFER_SIZE
            ∧ (tryDD_append st samples data).buffer (m + 2 * j) = data (2 * j + 1)
            ∧ (tryDD_append st samples data).buffer (m + 2 * j + 1) = data (2 * j))
      ∧ (∀ c : Nat, (m : Int) + samples * 2 * st.channels ≤ c →
          (tryDD_append st samples data).buffer c = st.buffer c)
      ∧ tryDD dec st samples data
          = tryDD_loop dec ((tryDD_append st samples data).maxPos
              - (tryDD_append st samples data).pos).toNat (tryDD_append st samples data) := by
  have hm0 : 0 ≤ st.maxPos := by omega
  have hsc : 0 ≤ samples * (st.channels : Int) := mul_nonneg hs (Int.ofNat_nonneg _)
  have hL : samples * 2 * (st.channels : Int) = 2 * (samples * (st.channels : Int)) := by ring
  have hP : ((PRE_DECODE_BUFFER_SIZE : Nat) : Int) = 15360 := by decide
  have hPn : PRE_DECODE_BUFFER_SIZE = 15360 := rfl
  have hmax : (tryDD_append st samples data).maxPos = (m : Int) + samples * 2 * st.channels := by
    rw [← hm]; rfl
  refine ⟨hmax, by rw [hmax]; exact hcap, rfl, ?_, ?_, ?_, rfl⟩
  · intro c hc
    rw [tryDD_append_cells st samples data hm0 hs c, if_neg (by omega)]
  · intro j hj
    refine ⟨by rw [hP] at hcap; rw [hPn]; omega, ?_, ?_⟩
    · rw [tryDD_append_cells st samples data hm0 hs _, if_pos (by push_cast; omega),
        if_pos (by omega)]
      congr 1
      omega
    · rw [tryDD_append_cells st samples data hm0 hs _, if_pos (by push_cast; omega),
        if_neg (by omega)]
      congr 1
      omega
  · intro c hc
    rw [tryDD_append_cells st samples data hm0 hs c, if_neg (by omega)]

/-- A stereo chunk of two samples (bytes 1..8) appended at write offset 4: the second pair
lands byte-swapped in cells 6 and 7. -/
theorem append_byte_swapped_witness :
    (tryDD_append { ddOn 2 (fun _ => false) with maxPos := 4 } 2 (fun i => i + 1)).buffer
          (4 + 2 * 1) = 2 * 1 + 1 + 1
      ∧ (tryDD_append { ddOn 2 (fun _ => false) with maxPos := 4 } 2 (fun i => i + 1)).buffer
          (4 + 2 * 1 + 1) = 2 * 1 + 1 :=
  ((append_byte_swapped (markerA52 100) { ddOn 2 (fun _ => false) with maxPos := 4 } 2
    (fun i => i + 1) 4 rfl (by decide) (by decide)).2.2.2.2.1 1 (by decide)).2

/-- Claim C17. When the read offset of `tryDD` is above half the capacity (7680) and
`pos <= maxPos <= 15360`, the compaction step lowers the read and the write offset by the same
7680 (they stay ordered) and keeps the unread tail: for every `i` with `0 <= i < maxPos - pos` the byte at
`new pos + i` afterwards is the byte that was at `old pos + i`. -/
theorem compaction_keeps_tail {α : Type} (st : Renderer α)
    (hpos : st.pos > (PRE_DECODE_BUFFER_SIZE / 2 : Nat)) (hle : st.pos ≤ st.maxPos)
    (hcap : st.maxPos ≤ (PRE_DECODE_BUFFER_SIZE : Nat)) :
    st.pos - (tryDD_compact st).pos = st.maxPos - (tryDD_compact st).maxPos
      ∧ (tryDD_compact st).pos = st.pos - (PRE_DECODE_BUFFER_SIZE / 2 : Nat)
      ∧ (tryDD_compact st).maxPos = st.maxPos - (PRE_DECODE_BUFFER_SIZE / 2 : Nat)
      ∧ (0 < (tryDD_compact st).pos ∧ (tryDD_compact st).pos ≤ (tryDD_compact st).maxPos)
      ∧ ∀ i : Nat, (i : Int) < st.maxPos - st.pos →
          (tryDD_compact st).buffer ((tryDD_compact st).pos + i).toNat
            = st.buffer (st.pos + i).toNat := by
  have hc : ((PRE_DECODE_BUFFER_SIZE / 2 : Nat) : Int) = 7680 := by decide
  have hc2 : ((PRE_DECODE_BUFFER_SIZE : Nat) : Int) = 15360 := by decide
  rw [hc] at hpos
  rw [hc2] at hcap
  obtain ⟨h1, h2, h3⟩ := tryDD_compact_tail st hpos hcap
  rw [hc]
  exact ⟨by omega, h1, h2, by omega, h3⟩

/-- Compaction at `pos = 7682`, `maxPos = 7690`: the byte at new offset `2 + 3` is the byte
that was at `7682 + 3`. -/
theorem compaction_keeps_tail_witness :
    (tryDD_compact { ddOn 2 (fun _ => false) with
        buffer := fun i => i % 251, pos := 7682, maxPos := 7690 }).buffer 5 = 7685 % 251 :=
  (compaction_keeps_tail { ddOn 2 (fun _ => false) with
      buffer := fun i => i % 251, pos := 7682, maxPos := 7690 }
    (by decide) (by decide) (by decide)).2.2.2.2 3 (by decide)

end AudioRenderer

namespace AudioRenderer

set_option linter.unusedSectionVars false

/-! ## What a call adds to the engine's queue -/

section Queue
variable {α : Type} [Mul α] [NatCast α]

omit [Mul α] [NatCast α] in
theorem queueExtends_refl (a : Bass α) : queueExtends a a := ⟨[], by simp⟩

omit [Mul α] [NatCast α] in
theorem queueExtends_trans {a b c : Bass α} (h1 : queueExtends a b) (h2 : queueExtends b c) :
    queueExtends a c := by
  obtain ⟨l1, e1⟩ := h1
  obtain ⟨l2, e2⟩ := h2
  exact ⟨l1 ++ l2, by rw [e2, e1, List.append_assoc]⟩

omit [Mul α] [NatCast α] in
theorem putData_extends (e : Bass α) (s : HSTREAM) (p : Payload α) (n : Int) :
    queueExtends e (BASS_StreamPutData e s p n).1 := by
  unfold BASS_StreamPutData
  split_ifs
  · exact queueExtends_refl e
  · exact ⟨[⟨s, p, n⟩], rfl⟩

theorem decodeDDFrame_blocks_extends (blocks : List (Nat → α)) (st : Renderer α) :
    queueExtends st.bass (decodeDDFrame_blocks blocks st).1.bass := by
  induction blocks generalizing st with
  | nil => exact queueExtends_refl _
  | cons b rest ih =>
    unfold decodeDDFrame_blocks
    simp only
    split_ifs
    · exact queueExtends_trans (putData_extends _ _ _ _) (ih _)
    · exact putData_extends _ _ _ _

/-- With the engine accepting pushes, the block loop of `decodeDDFrame` queues one push of
`256*4*6` bytes to `dtsStream` per block. -/
theorem decodeDDFrame_blocks_pushSizes (blocks : List (Nat → α)) (st : Renderer α)
    (h : st.bass.failing HSTREAM.dtsStream = false) :
    pushSizes (decodeDDFrame_blocks blocks st).1.bass
      = pushSizes st.bass ++ List.replicate blocks.length (HSTREAM.dtsStream, 256 * 4 * 6) := by
  induction blocks generalizing st with
  | nil => simp [decodeDDFrame_blocks]
  | cons b rest ih =>
    unfold decodeDDFrame_blocks
    simp only
    rw [if_pos ((putData_ret_ne _ _ _ _).mpr h), ih _ (by simp [putData_failing, h])]
    simp only [pushSizes, (putData_ok _ _ _ _ h).2.1, List.map_append, List.map_cons,
      List.map_nil, List.length_cons, List.replicate_succ, List.append_assoc,
      List.singleton_append]

theorem decodeDDFrame_pushSizes (dec : A52Decoder α) (frame : Nat → Nat) (st : Renderer α)
    (h : st.bass.failing HSTREAM.dtsStream = false) :
    pushSizes (decodeDDFrame dec frame st).1.bass
      = pushSizes (bufferUnderrunProtection st HSTREAM.dtsStream 6).bass
          ++ List.replicate 6 (HSTREAM.dtsStream, 256 * 4 * 6) := by
  unfold decodeDDFrame
  rw [decodeDDFrame_blocks_pushSizes]
  · simp
  · have := (bufferUnderrunProtection_control st HSTREAM.dtsStream 6).2.2.2.2.2.2.2.2.2.2.2.2.2
    rw [this]; exact h

/-- One more pass of the AC-3 loop when the guard holds and the pass returns. -/
theorem tryDD_loop_step (dec : A52Decoder α) (fuel : Nat) (st st1 : Renderer α) (u : Unit)
    (hg : st.maxPos - st.pos > AC3_MAX_CODED_FRAME_SIZE)
    (hiter : tryDD_iter dec st = (st1, Outcome.ret u)) :
    tryDD_loop dec (fuel + 1) st = tryDD_loop dec fuel st1 := by
  rw [tryDD_loop, if_pos hg]
  simp only [hiter]

/-- The AC-3 loop ends as soon as at most 3840 bytes are unread. -/
theorem tryDD_loop_exit (dec : A52Decoder α) (fuel : Nat) (st : Renderer α)
    (hg : ¬ st.maxPos - st.pos > AC3_MAX_CODED_FRAME_SIZE) :
    tryDD_loop dec fuel st = (st, Outcome.ret true) := by
  cases fuel <;> rw [tryDD_loop, if_neg hg]

/-- A pass of the AC-3 loop at an offset where sync detection reports a frame, with the
engine accepting pushes: the frame is decoded and pushed whatever channel configuration
`a52_frame` reports (`dec.frameFlags` is not consulted), and `pos` advances by the frame
size. -/
theorem tryDD_iter_frame (dec : A52Decoder α) (st : Renderer α)
    (hsync : 0 < dec.syncinfo (ptrAdd st.buffer st.pos))
    (hok : st.bass.failing HSTREAM.dtsStream = false) :
    tryDD_iter dec st
      = (tryDD_compact { (decodeDDFrame dec (ptrAdd st.buffer st.pos) st).1 with
            pos := st.pos + dec.syncinfo (ptrAdd st.buffer st.pos) }, Outcome.ret ()) := by
  have hctl := (decodeDDFrame_control dec (ptrAdd st.buffer st.pos) st).1
  have hpos : (decodeDDFrame dec (ptrAdd st.buffer st.pos) st).1.pos = st.pos :=
    hctl.2.2.2.2.2.2.2.2.2.2.2.1
  have hret := decodeDDFrame_ok dec (ptrAdd st.buffer st.pos) st hok
  unfold tryDD_iter
  simp only
  rw [if_pos (by exact_mod_cast hsync)]
  rcases hr : decodeDDFrame dec (ptrAdd st.buffer st.pos) st with ⟨st1, o⟩
  rw [hr] at hret hpos
  simp only at hret hpos
  subst hret
  simp only [hpos]

end Queue

end AudioRenderer

namespace AudioRenderer

set_option linter.unusedSectionVars false

/-! ## Channel configuration reported by the frame decoders -/

section Flags
variable {α : Type} [Mul α] [NatCast α]

/-- The AC-3 loop on a buffer that holds more than 3840 unread bytes with a frame of `F`
bytes at the read offset, after which at most 3840 bytes are unread: the frame is decoded
and its six blocks are pushed, for every decoder, whatever `dec.frameFlags` reports. -/
theorem tryDD_loop_single_frame (dec : A52Decoder α) (st : Renderer α) (fuel F : Nat)
    (hg : st.maxPos - st.pos > AC3_MAX_CODED_FRAME_SIZE)
    (hsync : dec.syncinfo (ptrAdd st.buffer st.pos) = F) (hF : 0 < F)
    (hrest : st.maxPos - st.pos - F ≤ AC3_MAX_CODED_FRAME_SIZE)
    (hok : st.bass.failing HSTREAM.dtsStream = false) :
    (tryDD_loop dec (fuel + 1) st).2 = Outcome.ret true
      ∧ pushSizes (tryDD_loop dec (fuel + 1) st).1.bass
          = pushSizes (bufferUnderrunProtection st HSTREAM.dtsStream 6).bass
            ++ List.replicate 6 (HSTREAM.dtsStream, 256 * 4 * 6)
      ∧ (tryDD_loop dec (fuel + 1) st).1.maxPos - (tryDD_loop dec (fuel + 1) st).1.pos
          = st.maxPos - st.pos - F := by
  have hctl := (decodeDDFrame_control dec (ptrAdd st.buffer st.pos) st).1
  have hmax : (decodeDDFrame dec (ptrAdd st.buffer st.pos) st).1.maxPos = st.maxPos :=
    hctl.2.2.2.2.2.2.2.2.2.2.2.2.1
  have hiter := tryDD_iter_frame dec st (by omega) hok
  have hpush := decodeDDFrame_pushSizes dec (ptrAdd st.buffer st.pos) st hok
  rw [hsync] at hiter
  generalize (decodeDDFrame dec (ptrAdd st.buffer st.pos) st).1 = stD at hiter hmax hpush
  have hdiff := tryDD_compact_diff { stD with pos := st.pos + F }
  have hd1 : (tryDD_compact { stD with pos := st.pos + F }).maxPos
      - (tryDD_compact { stD with pos := st.pos + F }).pos = st.maxPos - st.pos - F := by
    rw [hdiff.1]
    show stD.maxPos - (st.pos + F) = _
    rw [hmax]; omega
  rw [tryDD_loop_step dec fuel st _ () hg hiter,
    tryDD_loop_exit dec fuel _ (by rw [hd1]; omega)]
  refine ⟨rfl, ?_, hd1⟩
  show pushSizes (tryDD_compact { stD with pos := st.pos + F }).bass = _
  rw [hdiff.2]
  exact hpush

/-- In the main loop of `tryDTS` a frame whose reported channel configuration is not 5.1
stops the call in the `RT_ASSERT` of line 230 and nothing is pushed for it. -/
theorem tryDTS_iter_not51 (dec : DcaDecoder α) (samples : Int) (udata : Nat → Nat) (pos : Int)
    (st : Renderer α) (hlong : ¬ samples * 4 - pos < MAGIC_DTS_OFFSET)
    (hsync : dec.syncinfo (ptrAdd udata pos) ≠ 0)
    (hfit : samples * 4 - pos > dec.syncinfo (ptrAdd udata pos) + MAGIC_DTS_OFFSET)
    (hflags : dec.frameFlags (ptrAdd udata pos) ≠ DCA_3F2R_LFE) :
    tryDTS_iter dec samples udata pos st
      = Sum.inl ({ st with getBytes := dec.syncinfo (ptrAdd udata pos) },
          Outcome.fatal Fatal.dtsNot51) := by
  unfold tryDTS_iter
  rw [if_neg hlong]
  simp only
  rw [if_neg (by exact_mod_cast hsync), if_pos hfit, if_neg hflags]

/-- In the carry branch of `tryDTS` a reassembled frame whose reported channel configuration
is not 5.1 stops the call in the `RT_ASSERT` of line 206 and nothing is pushed. -/
theorem tryDTS_carry_not51 (dec : DcaDecoder α) (st : Renderer α) (samples : Int)
    (data : Nat → Nat) (hrem : st.remBytes ≠ 0)
    (hcap : st.remBytes + st.getBytes < REM_DATA_SIZE)
    (hsync : dec.syncinfo (memcpy st.remData st.remBytes data st.getBytes) ≠ 0)
    (hflags : dec.frameFlags (memcpy st.remData st.remBytes data st.getBytes) ≠ DCA_3F2R_LFE) :
    (tryDTS dec st samples data).2 = Outcome.fatal Fatal.dtsNot51
      ∧ (tryDTS dec st samples data).1.bass = st.bass := by
  unfold tryDTS
  rw [if_neg hrem]
  simp only
  rw [if_pos hcap, if_neg (by exact_mod_cast hsync), if_neg hflags]
  exact ⟨rfl, rfl⟩

end Flags

set_option maxRecDepth 1000000 in
/-- Claim C11 (code defect, evaluated). `tryDD` from the constructor's state (stereo capture,
AC-3 enabled, engine accepting pushes) receives a chunk of 961 samples (3844 bytes) that
starts with an AC-3 sync word; the frame decoder reports plain stereo for that frame, not the
5.1 layout.  The call returns `true`, has pushed the silence block and the six decoded blocks
of `256*4*6` bytes, and has advanced past the frame: no format-mismatch condition is raised.
`tryDTS` does raise it, in the main loop and in the carry branch, and pushes nothing. -/
theorem dd_format_mismatch_unchecked :
    (stereoA52 100).frameFlags (ptrAdd (tryDD_append (ddOn 2 (fun _ => false)) 961
        ac3Chunk).buffer 0) ≠ A52_3F2R_LFE
      ∧ (tryDD (stereoA52 100) (ddOn 2 (fun _ => false)) 961 ac3Chunk).2 = Outcome.ret true
      ∧ pushSizes (tryDD (stereoA52 100) (ddOn 2 (fun _ => false)) 961 ac3Chunk).1.bass
          = (HSTREAM.dtsStream, 1800) :: List.replicate 6 (HSTREAM.dtsStream, 6144)
      ∧ (tryDD (stereoA52 100) (ddOn 2 (fun _ => false)) 961 ac3Chunk).1.maxPos
          - (tryDD (stereoA52 100) (ddOn 2 (fun _ => false)) 961 ac3Chunk).1.pos = 3744
      ∧ (tryDTS (stereoDca 3) (dtsOn (fun _ => false)) 10 headerAt2).2
          = Outcome.fatal Fatal.dtsNot51
      ∧ pushSizes (tryDTS (stereoDca 3) (dtsOn (fun _ => false)) 10 headerAt2).1.bass = []
      ∧ (feedDTS (stereoDca 100) (dtsOn (fun _ => false), Outcome.ret true)
          [(10, headerAt2), (20, fun _ => 0)]).2 = Outcome.fatal Fatal.dtsNot51
      ∧ pushSizes (feedDTS (stereoDca 100) (dtsOn (fun _ => false), Outcome.ret true)
          [(10, headerAt2), (20, fun _ => 0)]).1.bass = [] := by
  have hcell := tryDD_append_cells (ddOn 2 (fun _ => false)) 961 ac3Chunk (by decide)
    (by decide)
  have hb0 : (tryDD_append (ddOn 2 (fun _ => false)) 961 ac3Chunk).buffer 0 = 11 := by
    rw [hcell 0]; rfl
  have hb1 : (tryDD_append (ddOn 2 (fun _ => false)) 961 ac3Chunk).buffer 1 = 119 := by
    rw [hcell 1]; rfl
  have hsync : (stereoA52 100).syncinfo
      (ptrAdd (tryDD_append (ddOn 2 (fun _ => false)) 961 ac3Chunk).buffer
        (tryDD_append (ddOn 2 (fun _ => false)) 961 ac3Chunk).pos) = 100 := by
    have hp : (tryDD_append (ddOn 2 (fun _ => false)) 961 ac3Chunk).pos = 0 := rfl
    rw [hp, ptrAdd_zero]
    simp only [stereoA52, hb0, hb1, and_self, if_true]
  have hrun := tryDD_loop_single_frame (stereoA52 100)
    (tryDD_append (ddOn 2 (fun _ => false)) 961 ac3Chunk) 3843 100 (by decide) hsync
    (by decide) (by decide) rfl
  have hfuel : tryDD (stereoA52 100) (ddOn 2 (fun _ => false)) 961 ac3Chunk
      = tryDD_loop (stereoA52 100) (3843 + 1)
          (tryDD_append (ddOn 2 (fun _ => false)) 961 ac3Chunk) := rfl
  rw [hfuel]
  refine ⟨by decide, hrun.1, ?_, ?_, by decide, by decide, by decide, by decide⟩
  · rw [hrun.2.1]; rfl
  · rw [hrun.2.2]; rfl

end AudioRenderer

namespace AudioRenderer

set_option maxRecDepth 1000000 in
/-- Claim C12 (code defect, evaluated). `tryDD` from the constructor's state (stereo capture,
empty accumulation buffer) receives a chunk of 4000 samples, that is 16000 bytes, more than
the 15360 bytes of the accumulation buffer.  The append stores the whole chunk: the write
offset becomes 16000 and the cell 15999, beyond the capacity, holds a chunk byte; the call
returns `true`.  No capacity condition is raised. -/
theorem dd_capacity_unchecked :
    (ddOn 2 (fun _ => false)).maxPos + 4000 * 2 * (ddOn 2 (fun _ => false)).channels
        > (PRE_DECODE_BUFFER_SIZE : Int)
      ∧ (tryDD_append (ddOn 2 (fun _ => false)) 4000 (fun _ => 255)).maxPos = 16000
      ∧ (ddOn 2 (fun _ => false)).buffer 15999 = 0
      ∧ (tryDD_append (ddOn 2 (fun _ => false)) 4000 (fun _ => 255)).buffer 15999 = 255
      ∧ (tryDD (markerA52 100) (ddOn 2 (fun _ => false)) 4000 (fun _ => 255)).2
          = Outcome.ret true := by
  refine ⟨by decide, rfl, rfl, ?_, ?_⟩
  · rw [tryDD_append_cells (ddOn 2 (fun _ => false)) 4000 (fun _ => 255) (by decide)
      (by decide) 15999]
    rfl
  · exact (tryDD_outcome (markerA52 100) (ddOn 2 (fun _ => false)) 4000 (fun _ => 255)).2 rfl

set_option maxRecDepth 1000000 in
/-- Claim C20 (code defect, evaluated). From the constructor's state, an underrun on the
stereo stream (`bufferUnderrunProtection(bStream, 2)`) followed by an underrun on the
decoder stream (`bufferUnderrunProtection(dtsStream, 6)`): the silence buffer is allocated by
the first call with `300*2 = 600` bytes and keeps that size, while the second call pushes
`300*6 = 1800` bytes from it, more than the buffer holds. -/
theorem silence_push_exceeds_buffer :
    fillupSize (underrunCalls (initial Int 2 (fun _ => false)) [(HSTREAM.bStream, 2)]) = 600
      ∧ fillupSize (underrunCalls (initial Int 2 (fun _ => false))
          [(HSTREAM.bStream, 2), (HSTREAM.dtsStream, 6)]) = 600
      ∧ pushSizes (underrunCalls (initial Int 2 (fun _ => false))
          [(HSTREAM.bStream, 2), (HSTREAM.dtsStream, 6)]).bass
          = [(HSTREAM.bStream, 600), (HSTREAM.dtsStream, 1800)]
      ∧ (fillupSize (underrunCalls (initial Int 2 (fun _ => false))
          [(HSTREAM.bStream, 2), (HSTREAM.dtsStream, 6)]) : Int) < 1800 := by
  refine ⟨?_, ?_, ?_, ?_⟩ <;> decide

set_option maxRecDepth 1000000 in
/-- Claim C13, the claim as written fails. A chunk of 10 samples whose only frame header is
at byte offset 0: sync detection reports a frame there, yet the search of `tryDTS` (which
first looks at offset 2) returns `false`; and the static `getBytes`, 20 before the call, is 0
afterwards. -/
theorem search_offset_zero_counterexample :
    (markerDca 3).syncinfo (ptrAdd headerAt0 0) = 3
      ∧ (tryDTS (markerDca 3) (setCarry (dtsOn (fun _ => false)) (fun _ => 0) 0 20) 10
          headerAt0).2 = Outcome.ret false
      ∧ (setCarry (dtsOn (fun _ => false)) (fun _ => 0) 0 20).getBytes = 20
      ∧ (tryDTS (markerDca 3) (setCarry (dtsOn (fun _ => false)) (fun _ => 0) 0 20) 10
          headerAt0).1.getBytes = 0 := by
  refine ⟨?_, ?_, ?_, ?_⟩ <;> decide

set_option maxRecDepth 1000000 in
/-- Claim C15 (code defect, evaluated). A stream of frames of stride 20 from offset 0,
delivered as chunks of 16 and 4 samples (64 and 16 bytes): the second call completes frame 4,
whose last byte is the last byte of the chunk, and returns `true` with `remBytes = 0` and
`getBytes = 20`, so the state is the searching one although the call reported the chunk as
handled.  A third chunk of 16 samples then goes through the search, which starts at offset 2:
frame 5, at offset 0 of that chunk, is never pushed (frames 6 and 7 are). -/
theorem carry_empty_after_true :
    (feedDTS (markerDca 3) (dtsOn (fun _ => false), Outcome.ret true)
        (chunksOf (frameStream 0) 0 [16, 4])).2 = Outcome.ret true
      ∧ (feedDTS (markerDca 3) (dtsOn (fun _ => false), Outcome.ret true)
        (chunksOf (frameStream 0) 0 [16, 4])).1.remBytes = 0
      ∧ (feedDTS (markerDca 3) (dtsOn (fun _ => false), Outcome.ret true)
        (chunksOf (frameStream 0) 0 [16, 4])).1.getBytes = 20
      ∧ frameLabels (feedDTS (markerDca 3) (dtsOn (fun _ => false), Outcome.ret true)
        (chunksOf (frameStream 0) 0 [16, 4])).1.bass = [some 2, some 3, some 4]
      ∧ (feedDTS (markerDca 3) (dtsOn (fun _ => false), Outcome.ret true)
        (chunksOf (frameStream 0) 0 [16, 4, 16])).2 = Outcome.ret true
      ∧ frameLabels (feedDTS (markerDca 3) (dtsOn (fun _ => false), Outcome.ret true)
        (chunksOf (frameStream 0) 0 [16, 4, 16])).1.bass
          = [some 2, some 3, some 4, some 6, some 7] := by
  refine ⟨?_, ?_, ?_, ?_, ?_, ?_⟩ <;> decide

end AudioRenderer

namespace AudioRenderer

set_option linter.unusedSectionVars false

/-! ## tryDTS: what a call leaves behind -/

section DtsSpec
variable {α : Type} [Mul α] [NatCast α]

/-- The search loop stops at the first even offset `pos + 2k + 2` at which sync detection
reports a frame; the offsets before it were tried in increasing order and failed. -/
theorem tryDTS_search_first (dec : DcaDecoder α) (udata : Nat → Nat) (k : Nat) :
    ∀ (fuel : Nat) (pos g : Int), k < fuel → pos + 2 * k < 3000 →
      (∀ j : Nat, j < k → dec.syncinfo (ptrAdd udata (pos + 2 * j + 2)) = 0) →
      dec.syncinfo (ptrAdd udata (pos + 2 * k + 2)) ≠ 0 →
      tryDTS_search dec udata fuel pos g
        = (true, pos + 2 * k + 2, (dec.syncinfo (ptrAdd udata (pos + 2 * k + 2)) : Int)) := by
  induction k with
  | zero =>
    intro fuel pos g hf hp _ hk
    cases fuel with
    | zero => omega
    | succ f =>
      simp only [Nat.cast_zero, mul_zero, add_zero] at hp hk ⊢
      unfold tryDTS_search
      rw [if_pos hp]
      simp only
      rw [if_pos (by exact_mod_cast hk)]
  | succ k ih =>
    intro fuel pos g hf hp hnone hk
    cases fuel with
    | zero => omega
    | succ f =>
      have h0 := hnone 0 (Nat.succ_pos k)
      simp only [Nat.cast_zero, mul_zero, add_zero] at h0
      have e : ∀ j : Nat, pos + 2 + 2 * (j : Int) + 2 = pos + 2 * ((j + 1 : Nat) : Int) + 2 := by
        intro j; push_cast; omega
      unfold tryDTS_search
      rw [if_pos (by push_cast at hp; omega)]
      simp only [h0, Nat.cast_zero, ne_eq, not_true_eq_false, if_false]
      rw [ih f (pos + 2) 0 (by omega) (by push_cast at hp; omega)
        (fun j hj => by rw [e j]; exact hnone (j + 1) (by omega))
        (by rw [e k]; exact hk), e k]

end DtsSpec

end AudioRenderer

namespace AudioRenderer

set_option linter.unusedSectionVars false

/-! ## tryDTS: the frame size reported last -/

section Reports
variable {α : Type} [Mul α] [NatCast α]

end Reports

end AudioRenderer

namespace AudioRenderer

set_option linter.unusedSectionVars false

section DtsResume
variable {α : Type} [Mul α] [NatCast α]

/-- The search of `tryDTS` when no even offset `2 .. 3000` reports a frame. -/
theorem tryDTS_search_fails (dec : DcaDecoder α) (st : Renderer α) (samples : Int)
    (data : Nat → Nat) (hrem : st.remBytes = 0)
    (hnone : ∀ k : Nat, k < 1500 → dec.syncinfo (ptrAdd data (2 * k + 2)) = 0) :
    tryDTS dec st samples data = ({ st with getBytes := 0 }, Outcome.ret false) := by
  have hs := tryDTS_search_none dec data 1500 0 st.getBytes (by
    intro k hk
    have := hnone k hk
    simpa using this)
  unfold tryDTS
  rw [if_pos hrem]
  rcases hsr : tryDTS_search dec data 1500 0 st.getBytes with ⟨found, p, G⟩
  rw [hsr] at hs
  obtain ⟨hf, hg⟩ := hs
  simp only at hf
  subst hf
  have hG : G = 0 := hg (by decide) (by decide)
  subst hG
  rfl

end DtsResume

/-- Claim C13 (amended). In the searching state (`remBytes = 0`) `tryDTS` tries sync detection
at the even offsets `2, 4, ..., 3000` of the chunk in increasing order, offset 0 excluded.
If `2k + 2` is the first of them at which a non-zero frame size is reported, the call is the
main loop started at exactly that offset with that size in `getBytes`.  If none of them
reports a frame the call returns `false` and changes nothing but `getBytes`, which becomes
0. -/
theorem search_first_sync {α : Type} [Mul α] [NatCast α] (dec : DcaDecoder α) (st : Renderer α)
    (samples : Int) (data : Nat → Nat) (hrem : st.remBytes = 0) :
    (∀ k : Nat, k < 1500 →
        (∀ j : Nat, j < k → dec.syncinfo (ptrAdd data (2 * j + 2)) = 0) →
        dec.syncinfo (ptrAdd data (2 * k + 2)) ≠ 0 →
        tryDTS dec st samples data
          = tryDTS_main dec samples data (samples * 4 - (2 * k + 2)).toNat (2 * k + 2)
              { st with getBytes := (dec.syncinfo (ptrAdd data (2 * k + 2)) : Int) })
      ∧ ((∀ k : Nat, k < 1500 → dec.syncinfo (ptrAdd data (2 * k + 2)) = 0) →
          tryDTS dec st samples data = ({ st with getBytes := 0 }, Outcome.ret false)) := by
  refine ⟨?_, tryDTS_search_fails dec st samples data hrem⟩
  intro k hk hbefore hat
  have hs := tryDTS_search_first dec data k 1500 0 st.getBytes hk (by omega)
    (by intro j hj; simpa using hbefore j hj) (by simpa using hat)
  simp only [zero_add] at hs
  unfold tryDTS
  rw [if_pos hrem, hs]

/-- A chunk of 10 samples with a frame header at offset 2: the call is the main loop started
at offset 2 with the reported size 3 in `getBytes`. -/
theorem search_first_sync_witness :
    tryDTS (markerDca 3) (dtsOn (fun _ => false)) 10 headerAt2
      = tryDTS_main (markerDca 3) 10 headerAt2 (10 * 4 - (2 * (0 : Nat) + 2) : Int).toNat
          (2 * (0 : Nat) + 2)
          { dtsOn (fun _ => false) with
              getBytes := ((markerDca 3).syncinfo (ptrAdd headerAt2 (2 * (0 : Nat) + 2)) : Int) } :=
  (search_first_sync (markerDca 3) (dtsOn (fun _ => false)) 10 headerAt2 rfl).1 0
    (by decide) (fun j hj => absurd hj (Nat.not_lt_zero j)) (by decide)

end AudioRenderer

namespace AudioRenderer

set_option linter.unusedSectionVars false

/-! ## tryDD: the offsets stay inside the accumulation buffer -/

section DdBounds
variable {α : Type} [Mul α] [NatCast α]

omit [Mul α] [NatCast α] in
/-- The compaction step after `pos` has advanced by at most 3840 from an offset of at most
7680: the offsets are inside the buffer again and no cell from 7680 on is written. -/
theorem tryDD_compact_bounds (st : Renderer α) (h0 : 0 ≤ st.pos) (h1 : st.pos ≤ st.maxPos)
    (h2 : st.maxPos ≤ 15360) :
    ddInBounds (tryDD_compact st)
      ∧ (∀ c : Nat, 7680 ≤ c → (tryDD_compact st).buffer c = st.buffer c)
      ∧ (tryDD_compact st).channels = st.channels := by
  have hc : ((PRE_DECODE_BUFFER_SIZE / 2 : Nat) : Int) = 7680 := by decide
  have hc2 : ((PRE_DECODE_BUFFER_SIZE : Nat) : Int) = 15360 := by decide
  unfold tryDD_compact ddInBounds
  rw [hc, hc2]
  by_cases hp : st.pos > 7680
  · rw [if_pos hp]
    simp only
    refine ⟨⟨by omega, by omega, by omega, by omega⟩, ?_, trivial⟩
    intro c hcge
    rw [memcpy_outside _ _ _ _ _ (by omega)]
  · rw [if_neg hp]
    exact ⟨⟨h0, h1, h2, by omega⟩, fun _ _ => rfl, rfl⟩

/-- One pass of the AC-3 loop run under its guard from offsets inside the buffer, with sync
detection reporting at most 3840: the offsets stay inside the buffer and no cell from 7680 on
is written. -/
theorem tryDD_iter_bounds (dec : A52Decoder α)
    (hsize : ∀ v, dec.syncinfo v ≤ AC3_MAX_CODED_FRAME_SIZE) (st : Renderer α)
    (hin : ddInBounds st) (hg : st.maxPos - st.pos > AC3_MAX_CODED_FRAME_SIZE) :
    ddInBounds (tryDD_iter dec st).1
      ∧ (∀ c : Nat, 7680 ≤ c → (tryDD_iter dec st).1.buffer c = st.buffer c)
      ∧ (tryDD_iter dec st).1.channels = st.channels := by
  have hA : ((AC3_MAX_CODED_FRAME_SIZE : Nat) : Int) = 3840 := by decide
  have hc : ((PRE_DECODE_BUFFER_SIZE / 2 : Nat) : Int) = 7680 := by decide
  have hc2 : ((PRE_DECODE_BUFFER_SIZE : Nat) : Int) = 15360 := by decide
  have hs : (dec.syncinfo (ptrAdd st.buffer st.pos) : Int) ≤ 3840 := by
    have := hsize (ptrAdd st.buffer st.pos)
    rw [← hA]
    exact_mod_cast this
  obtain ⟨h0, h1, h2, h3⟩ := hin
  rw [hc2] at h2
  rw [hc] at h3
  rw [hA] at hg
  have hctl := (decodeDDFrame_control dec (ptrAdd st.buffer st.pos) st).1
  have hbuf : (decodeDDFrame dec (ptrAdd st.buffer st.pos) st).1.buffer = st.buffer :=
    hctl.2.2.2.2.2.2.2.2.2.2.1
  have hpos : (decodeDDFrame dec (ptrAdd st.buffer st.pos) st).1.pos = st.pos :=
    hctl.2.2.2.2.2.2.2.2.2.2.2.1
  have hmax : (decodeDDFrame dec (ptrAdd st.buffer st.pos) st).1.maxPos = st.maxPos :=
    hctl.2.2.2.2.2.2.2.2.2.2.2.2.1
  have hch : (decodeDDFrame dec (ptrAdd st.buffer st.pos) st).1.channels = st.channels :=
    hctl.2.2.2.2.1
  unfold tryDD_iter
  simp only
  by_cases hr : (dec.syncinfo (ptrAdd st.buffer st.pos) : Int) > 0
  · rw [if_pos hr]
    rcases hd : decodeDDFrame dec (ptrAdd st.buffer st.pos) st with ⟨st1, o⟩
    rw [hd] at hbuf hpos hmax hch
    simp only at hbuf hpos hmax hch
    cases o with
    | ret u =>
      simp only
      have hb := tryDD_compact_bounds
        { st1 with pos := st1.pos + (dec.syncinfo (ptrAdd st.buffer st.pos) : Int) }
        (by show 0 ≤ st1.pos + _; omega) (by show st1.pos + _ ≤ st1.maxPos; omega)
        (by show st1.maxPos ≤ 15360; omega)
      refine ⟨hb.1, fun c hcge => ?_, ?_⟩
      · rw [hb.2.1 c hcge]
        show st1.buffer c = _
        rw [hbuf]
      · rw [hb.2.2]
        exact hch
    | fatal f =>
      simp only
      refine ⟨⟨by omega, by omega, by rw [hc2]; omega, by rw [hc]; omega⟩,
        fun c _ => by rw [hbuf], hch⟩
    | budget =>
      simp only
      refine ⟨⟨by omega, by omega, by rw [hc2]; omega, by rw [hc]; omega⟩,
        fun c _ => by rw [hbuf], hch⟩
  · rw [if_neg hr]
    have hb := tryDD_compact_bounds { st with pos := st.pos + 2 }
      (by show 0 ≤ st.pos + 2; omega) (by show st.pos + 2 ≤ st.maxPos; omega)
      (by show st.maxPos ≤ 15360; omega)
    exact ⟨hb.1, hb.2.1, hb.2.2⟩

/-- The AC-3 loop from offsets inside the buffer: the offsets stay inside the buffer, at
most 3840 bytes are unread when it returns, and no cell from 7680 on is written. -/
theorem tryDD_loop_bounds (dec : A52Decoder α)
    (hsize : ∀ v, dec.syncinfo v ≤ AC3_MAX_CODED_FRAME_SIZE) (fuel : Nat) :
    ∀ st : Renderer α, ddInBounds st →
      ddInBounds (tryDD_loop dec fuel st).1
        ∧ (∀ b, (tryDD_loop dec fuel st).2 = Outcome.ret b →
            (tryDD_loop dec fuel st).1.maxPos - (tryDD_loop dec fuel st).1.pos
              ≤ AC3_MAX_CODED_FRAME_SIZE)
        ∧ (∀ c : Nat, 7680 ≤ c → (tryDD_loop dec fuel st).1.buffer c = st.buffer c)
        ∧ (tryDD_loop dec fuel st).1.channels = st.channels := by
  induction fuel with
  | zero =>
    intro st hin
    unfold tryDD_loop
    by_cases hg : st.maxPos - st.pos > AC3_MAX_CODED_FRAME_SIZE
    · rw [if_pos hg]
      exact ⟨hin, by simp, fun _ _ => rfl, rfl⟩
    · rw [if_neg hg]
      exact ⟨hin, fun _ _ => by show st.maxPos - st.pos ≤ _; omega, fun _ _ => rfl, rfl⟩
  | succ n ih =>
    intro st hin
    unfold tryDD_loop
    by_cases hg : st.maxPos - st.pos > AC3_MAX_CODED_FRAME_SIZE
    · rw [if_pos hg]
      have hb := tryDD_iter_bounds dec hsize st hin hg
      rcases hi : tryDD_iter dec st with ⟨st1, o⟩
      rw [hi] at hb
      simp only at hb
      cases o with
      | ret u =>
        simp only
        obtain ⟨k1, k2, k3, k4⟩ := ih st1 hb.1
        exact ⟨k1, k2, fun c hc => by rw [k3 c hc, hb.2.1 c hc], by rw [k4, hb.2.2]⟩
      | fatal f => exact ⟨hb.1, by simp, hb.2.1, hb.2.2⟩
      | budget => exact ⟨hb.1, by simp, hb.2.1, hb.2.2⟩
    · rw [if_neg hg]
      exact ⟨hin, fun _ _ => by show st.maxPos - st.pos ≤ _; omega, fun _ _ => rfl, rfl⟩

omit [Mul α] [NatCast α] in
/-- The append of a chunk of at most 3840 bytes to a buffer with at most 3840 unread bytes
and `pos <= 7680` ends at or below the capacity and writes no cell from 15360 on. -/
theorem tryDD_append_bounds (st : Renderer α) (samples : Int) (data : Nat → Nat)
    (h0 : 0 ≤ st.pos) (h1 : st.pos ≤ st.maxPos) (h2 : st.pos ≤ 7680)
    (h3 : st.maxPos - st.pos ≤ 3840) (hs : 0 ≤ samples)
    (hL : samples * 2 * st.channels ≤ 3840) :
    ddInBounds (tryDD_append st samples data)
      ∧ (∀ c : Nat, 15360 ≤ c → (tryDD_append st samples data).buffer c = st.buffer c) := by
  have hc : ((PRE_DECODE_BUFFER_SIZE / 2 : Nat) : Int) = 7680 := by decide
  have hc2 : ((PRE_DECODE_BUFFER_SIZE : Nat) : Int) = 15360 := by decide
  have hsc : 0 ≤ samples * (st.channels : Int) := mul_nonneg hs (Int.ofNat_nonneg _)
  have hLe : samples * 2 * (st.channels : Int) = 2 * (samples * (st.channels : Int)) := by ring
  obtain ⟨e1, e2, _⟩ := tryDD_append_offsets st samples data
  constructor
  · unfold ddInBounds
    rw [e1, e2, hc, hc2]
    exact ⟨h0, by omega, by omega, h2⟩
  · intro c hcge
    rw [tryDD_append_cells st samples data (by omega) hs c, if_neg (by omega)]

/-- Successive calls of `tryDD` with chunks of at most 3840 bytes and sync detection
reporting at most 3840: no call runs out of budget, after every call the offsets are inside
the buffer, after every call that returns at most 3840 bytes are unread, and no cell from
15360 on is ever written. -/
theorem feedDD_bounds (dec : A52Decoder α)
    (hsize : ∀ v, dec.syncinfo v ≤ AC3_MAX_CODED_FRAME_SIZE)
    (chunks : List (Int × (Nat → Nat))) :
    ∀ (st : Renderer α) (b : Bool), ddInBounds st → st.maxPos - st.pos ≤ 3840 →
      (∀ c ∈ chunks, 0 ≤ c.1 ∧ c.1 * 2 * st.channels ≤ 3840) →
      (feedDD dec (st, Outcome.ret b) chunks).2 ≠ Outcome.budget
        ∧ ddInBounds (feedDD dec (st, Outcome.ret b) chunks).1
        ∧ (∀ b1, (feedDD dec (st, Outcome.ret b) chunks).2 = Outcome.ret b1 →
            (feedDD dec (st, Outcome.ret b) chunks).1.maxPos
              - (feedDD dec (st, Outcome.ret b) chunks).1.pos ≤ 3840)
        ∧ (∀ c : Nat, 15360 ≤ c →
            (feedDD dec (st, Outcome.ret b) chunks).1.buffer c = st.buffer c) := by
  have hA : ((AC3_MAX_CODED_FRAME_SIZE : Nat) : Int) = 3840 := by decide
  induction chunks with
  | nil =>
    intro st b hin hidle _
    exact ⟨by simp [feedDD], hin, fun _ _ => hidle, fun _ _ => rfl⟩
  | cons ch cs ih =>
    intro st b hin hidle hchunks
    obtain ⟨hs, hL⟩ := hchunks ch (List.mem_cons_self _ _)
    obtain ⟨h0, h1, _, h3⟩ := hin
    have hc : ((PRE_DECODE_BUFFER_SIZE / 2 : Nat) : Int) = 7680 := by decide
    rw [hc] at h3
    obtain ⟨a1, a2⟩ := tryDD_append_bounds st ch.1 ch.2 h0 h1 h3 hidle hs hL
    have hloop := tryDD_loop_bounds dec hsize
      ((tryDD_append st ch.1 ch.2).maxPos - (tryDD_append st ch.1 ch.2).pos).toNat
      (tryDD_append st ch.1 ch.2) a1
    have hout := (tryDD_outcome dec st ch.1 ch.2).1
    have hrun : tryDD dec st ch.1 ch.2
        = tryDD_loop dec
            ((tryDD_append st ch.1 ch.2).maxPos - (tryDD_append st ch.1 ch.2).pos).toNat
            (tryDD_append st ch.1 ch.2) := rfl
    rw [← hrun] at hloop
    obtain ⟨l1, l2, l3, l4⟩ := hloop
    have hchan : (tryDD dec st ch.1 ch.2).1.channels = st.channels := by
      rw [l4]; rfl
    have hcells : ∀ c : Nat, 15360 ≤ c → (tryDD dec st ch.1 ch.2).1.buffer c = st.buffer c := by
      intro c hcge
      rw [l3 c (by omega), a2 c hcge]
    show (feedDD dec (tryDD dec st ch.1 ch.2) cs).2 ≠ Outcome.budget
      ∧ ddInBounds (feedDD dec (tryDD dec st ch.1 ch.2) cs).1
      ∧ (∀ b1, (feedDD dec (tryDD dec st ch.1 ch.2) cs).2 = Outcome.ret b1 →
          (feedDD dec (tryDD dec st ch.1 ch.2) cs).1.maxPos
            - (feedDD dec (tryDD dec st ch.1 ch.2) cs).1.pos ≤ 3840)
      ∧ (∀ c : Nat, 15360 ≤ c →
          (feedDD dec (tryDD dec st ch.1 ch.2) cs).1.buffer c = st.buffer c)
    rcases hr : tryDD dec st ch.1 ch.2 with ⟨st1, o⟩
    rw [hr] at hout l1 l2 hchan hcells
    simp only at hout l1 l2 hchan hcells
    rcases hout with ho | ho
    · subst ho
      have hidle1 : st1.maxPos - st1.pos ≤ 3840 := by
        have := l2 true rfl
        rw [hA] at this
        exact this
      obtain ⟨k1, k2, k3, k4⟩ := ih st1 true l1 hidle1 (by
        intro c hcmem
        rw [hchan]
        exact hchunks c (List.mem_cons_of_mem _ hcmem))
      exact ⟨k1, k2, k3, fun c hcge => by rw [k4 c hcge, hcells c hcge]⟩
    · subst ho
      have hstop : feedDD dec (st1, Outcome.fatal Fatal.pushDD) cs
          = (st1, Outcome.fatal Fatal.pushDD) := by
        cases cs <;> rfl
      rw [hstop]
      exact ⟨by simp, l1, by simp, hcells⟩

end DdBounds

end AudioRenderer

namespace AudioRenderer

/-- Claim C18. Assume AC-3 sync detection reports at most 3840 and every chunk has between 0
and 3840 bytes (`samples * 2 * channels <= AC3_MAX_CODED_FRAME_SIZE`).  For every sequence of
`tryDD` calls from `pos = maxPos = 0`: no call exhausts the loop budget (the loop ends);
after every call `0 <= pos <= maxPos <= 15360` and `pos <= 7680`; after every call that
returns `maxPos - pos <= 3840`, so the next append ends at or below 15360; no cell from
15360 on is ever written; and every pass of the loop that runs under its guard from offsets
inside the buffer reads its frame below `maxPos <= 15360` and leaves the offsets inside the
buffer. -/
theorem dd_offsets_in_bounds {α : Type} [Mul α] [NatCast α] (dec : A52Decoder α)
    (hsize : ∀ v, dec.syncinfo v ≤ AC3_MAX_CODED_FRAME_SIZE) (st : Renderer α)
    (hpos : st.pos = 0) (hmax : st.maxPos = 0) (chunks : List (Int × (Nat → Nat)))
    (hchunks : ∀ c ∈ chunks, 0 ≤ c.1 ∧ c.1 * 2 * st.channels ≤ AC3_MAX_CODED_FRAME_SIZE) :
    (feedDD dec (st, Outcome.ret true) chunks).2 ≠ Outcome.budget
      ∧ (0 ≤ (feedDD dec (st, Outcome.ret true) chunks).1.pos
          ∧ (feedDD dec (st, Outcome.ret true) chunks).1.pos
              ≤ (feedDD dec (st, Outcome.ret true) chunks).1.maxPos
          ∧ (feedDD dec (st, Outcome.ret true) chunks).1.maxPos ≤ PRE_DECODE_BUFFER_SIZE
          ∧ (feedDD dec (st, Outcome.ret true) chunks).1.pos ≤ 7680)
      ∧ (∀ b, (feedDD dec (st, Outcome.ret true) chunks).2 = Outcome.ret b →
          (feedDD dec (st, Outcome.ret true) chunks).1.maxPos
              - (feedDD dec (st, Outcome.ret true) chunks).1.pos ≤ AC3_MAX_CODED_FRAME_SIZE
            ∧ ∀ (samples : Int) (data : Nat → Nat), 0 ≤ samples →
                samples * 2 * (feedDD dec (st, Outcome.ret true) chunks).1.channels
                  ≤ AC3_MAX_CODED_FRAME_SIZE →
                (tryDD_append (feedDD dec (st, Outcome.ret true) chunks).1 samples data).maxPos
                  ≤ PRE_DECODE_BUFFER_SIZE)
      ∧ (∀ c : Nat, PRE_DECODE_BUFFER_SIZE ≤ c →
          (feedDD dec (st, Outcome.ret true) chunks).1.buffer c = st.buffer c)
      ∧ (∀ s : Renderer α, ddInBounds s →
          s.maxPos - s.pos > AC3_MAX_CODED_FRAME_SIZE →
          s.pos + dec.syncinfo (ptrAdd s.buffer s.pos) < s.maxPos
            ∧ s.maxPos ≤ PRE_DECODE_BUFFER_SIZE
            ∧ ddInBounds (tryDD_iter dec s).1) := by
  have hA : ((AC3_MAX_CODED_FRAME_SIZE : Nat) : Int) = 3840 := by decide
  have hc : ((PRE_DECODE_BUFFER_SIZE / 2 : Nat) : Int) = 7680 := by decide
  have hc2 : ((PRE_DECODE_BUFFER_SIZE : Nat) : Int) = 15360 := by decide
  have hP : PRE_DECODE_BUFFER_SIZE = 15360 := rfl
  have hstart : ddInBounds st := by
    unfold ddInBounds
    rw [hpos, hmax]
    exact ⟨le_refl _, le_refl _, by decide, by decide⟩
  obtain ⟨k1, k2, k3, k4⟩ := feedDD_bounds dec hsize chunks st true hstart
    (by rw [hpos, hmax]; decide) (by rw [← hA]; exact hchunks)
  refine ⟨k1, ?_, ?_, ?_, ?_⟩
  · obtain ⟨i0, i1, i2, i3⟩ := k2
    rw [hc] at i3
    exact ⟨i0, i1, i2, i3⟩
  · intro b hb
    have hidle := k3 b hb
    refine ⟨by rw [hA]; exact hidle, ?_⟩
    intro samples data hs hL
    obtain ⟨i0, i1, i2, i3⟩ := k2
    rw [hc] at i3
    rw [hA] at hL
    rw [(tryDD_append_offsets _ samples data).1, hc2]
    omega
  · intro c hcge
    exact k4 c (by rw [hP] at hcge; exact hcge)
  · intro s hin hg
    have hs : (dec.syncinfo (ptrAdd s.buffer s.pos) : Int) ≤ 3840 := by
      have := hsize (ptrAdd s.buffer s.pos)
      rw [← hA]
      exact_mod_cast this
    refine ⟨by rw [hA] at hg; omega, hin.2.2.1, (tryDD_iter_bounds dec hsize s hin hg).1⟩

/-- Two stereo chunks of 960 samples (3840 bytes each) from the constructor's state: the two
calls end within the loop budget. -/
theorem dd_offsets_in_bounds_witness :
    (feedDD (markerA52 100) (ddOn 2 (fun _ => false), Outcome.ret true)
      [(960, ac3Chunk), (960, ac3Chunk)]).2 ≠ Outcome.budget :=
  (dd_offsets_in_bounds (markerA52 100)
    (by
      intro v
      show (if v 0 = 11 ∧ v 1 = 119 then 100 else 0) ≤ 3840
      split_ifs <;> decide)
    (ddOn 2 (fun _ => false)) rfl rfl [(960, ac3Chunk), (960, ac3Chunk)]
    (by
      intro c hcmem
      simp only [List.mem_cons, List.mem_singleton, List.not_mem_nil, or_false, or_self]
        at hcmem
      subst hcmem
      decide)).1

end AudioRenderer
